import Mathlib

/-!
# protoc-gen-docbook: the DocBook generator

A shallow embedding of `src/docbook_generator.cc` and the properties of it that
the specification states.

Conventions of the embedding.

* A C++ `std::string` is the list of its `char`s (`Str`); the `char` with byte
  value `b` is the `Char` with code `b`.
* The file-scope `s_...` variables are the fields of `Globals`; every function
  that reads one takes the record as its first argument.
* A `std::ostringstream` is the sequence of what was inserted into it
  (`OStream`): runs of text, and the section tags `<sectN>` / `</sectN>`,
  which are kept as items of their own so that the nesting of sections can be
  read off the stream. `OStream.str` is the text of the stream.
* A function that writes to a stream takes the stream and returns it.
* `int` values stay far inside 32 bits here (section levels and row indices),
  so they are `Int` / `Nat` without wrap-around; the default values of a field,
  where the width matters, are reduced explicitly. The depth of `WriteMessage`
  is an `Int` as well: it agrees with the 32-bit `int` of the code as long as
  no `depth+1` exceeds 2147483647, and a property about every depth states
  that bound (`Descriptor.depthSteps`).
* A `GeneratorContext` is the sequence of the writes made through it (`Open` or
  `OpenForInsert`, each with the text printed into the stream it returns),
  together with the outcome of every write: what `printer.failed()` returns
  is read off the context. `PrintRaw` is called on `c_str()`, so the text
  printed ends before the first NUL character.
-/

namespace Docbook

/-- A `std::string`. -/
abbrev Str := List Char

/-! ## Strings and streams (the C++ library, as far as the generator uses it) -/

/-- Value of a `char` converted to `unsigned char`. -/
def toUChar (c : Char) : Nat := c.toNat % 256

/-- Value of a `char` converted to `int`: `char` is a signed 8-bit type on the
x86 / x86-64 ABIs the plugin is built for (MSVC, GCC), so the bytes `0x80..0xFF`
are negative. `utils::Trim` casts to `unsigned char` for this reason. -/
def charToInt (c : Char) : Int :=
  if toUChar c < 128 then (toUChar c : Int) else (toUChar c : Int) - 256

/-- Decimal digits of a natural number (`operator<<` of an unsigned integer). -/
def showNat (n : Nat) : Str := Nat.toDigits 10 n

/-- Text of `operator<<` for a signed integer in the default (decimal) base. -/
def showInt (n : Int) : Str :=
  if n < 0 then '-' :: showNat n.natAbs else showNat n.natAbs

/-- Text of `operator<<` for an `int` when the stream is in `std::hex` /
`std::uppercase` mode with fill character `0` and `std::setw(width)`: the value
is converted to `unsigned int` first (a negative value becomes `2^32 + v`), and
the width is a minimum, never a truncation. -/
def showHexUpper (width : Nat) (v : Int) : Str :=
  let digits := (Nat.toDigits 16 (v % 4294967296).toNat).map Char.toUpper
  List.replicate (width - digits.length) '0' ++ digits

/-- The call `std::replace(s.begin(), s.end(), a, b)`. -/
def replace (s : Str) (a b : Char) : Str :=
  s.map fun c => if c = a then b else c

/-- Scan for `pat` in `s`, where `s` starts at index `k` of the whole string. -/
def findFrom (pat : Str) : Str → Nat → Option Nat
  | [], k => if pat = [] then some k else none
  | c :: cs, k => if pat.isPrefixOf (c :: cs) then some k else findFrom pat cs (k + 1)

/-- The call `s.find(pat, pos)`; `none` is `string::npos`. -/
def find (s pat : Str) (pos : Nat) : Option Nat :=
  if pos ≤ s.length then findFrom pat (s.drop pos) pos else none

/-- The call `s.replace(pos, len, r)` for `pos ≤ s.size()`. -/
def replaceAt (s : Str) (pos len : Nat) (r : Str) : Str :=
  s.take pos ++ r ++ s.drop (pos + len)

/-- The conversion `s.c_str()` as a function that takes a `const char*` reads
it (`Printer::PrintRaw`, the constructor of `std::ifstream`): the characters
before the first NUL. -/
def c_str (s : Str) : Str :=
  s.takeWhile fun c => c ≠ Char.ofNat 0

/-- What a stream holds: a run of text, or a section tag. -/
inductive Piece where
  /-- Any text that is not a section tag. -/
  | text (s : Str)
  /-- The insertions `"<sect" << level << ">"`. -/
  | sectOpen (level : Int)
  /-- The insertions `"</sect" << level << ">"`. -/
  | sectClose (level : Int)
  deriving DecidableEq, Repr

/-- A `std::ostringstream`, as the sequence of what was inserted. -/
abbrev OStream := List Piece

/-- The characters of one item of a stream. -/
def Piece.str : Piece → Str
  | .text s => s
  | .sectOpen level => "<sect".toList ++ showInt level ++ ">".toList
  | .sectClose level => "</sect".toList ++ showInt level ++ ">".toList

/-- The call `os.str()`. -/
def OStream.str (os : OStream) : Str := os.flatMap Piece.str

/-- One statement `os << a << b << ...;` whose operands are plain text. -/
def OStream.put (os : OStream) (s : Str) : OStream := os ++ [Piece.text s]

/-- The insertions `os << "<sect" << level << ">"`. -/
def OStream.openSect (os : OStream) (level : Int) : OStream := os ++ [Piece.sectOpen level]

/-- The insertions `os << "</sect" << level << ">"`. -/
def OStream.closeSect (os : OStream) (level : Int) : OStream := os ++ [Piece.sectClose level]

/-! ## The file-scope state -/

/-- The file-scope variables of the generator (`s_...`, lines 220-285); the
defaults are the initialisers of the source. -/
structure Globals where
  s_docbookOptions : List (Str × Str) := []
  s_rowColor : Str := "ffffff".toList
  s_rowColorAlt : Str := "f0f0f0".toList
  s_columnHeaderColor : Str := "A6B4C4".toList
  s_customTemplateFileName : Str := []
  s_customTemplateFile : Str := []
  s_includeScalarValueTable : Bool := true
  s_includeTimestamp : Bool := false
  s_preserve_comment_line_breaks : Bool := false
  s_templateFileMade : Bool := false
  s_docbookOuputFileName : Str := "docbook_out.xml".toList
  s_startingSectionLevel : Int := 1
  deriving DecidableEq, Repr

def MAX_SECTION_LEVEL : Int := 5

def MAX_ALLOWED_SECTION_LEVEL_OPTION : Int := 4

def OPTION_NAME_FIELD_NAME_COLUMN_WIDTH : Str := "field_name_column_width".toList
def OPTION_NAME_FIELD_TYPE_COLUMN_WIDTH : Str := "field_type_column_width".toList
def OPTION_NAME_FIELD_RULE_COLUMN_WIDTH : Str := "field_rules_column_width".toList
def OPTION_NAME_FIELD_DESC_COLUMN_WIDTH : Str := "field_desc_column_width".toList
def OPTION_NAME_COLUMN_HEADER_COLOR : Str := "column_header_color".toList
def OPTION_NAME_ROW_COLOR : Str := "row_color".toList
def OPTION_NAME_ROW_COLOR_ALT : Str := "row_color_alt".toList
def OPTION_NAME_INCLUDE_SCALAR_VALUE_TABLE : Str := "include_scalar_value_table".toList
def OPTION_NAME_STARTING_SECTION_LEVEL : Str := "starting_section_level".toList
def OPTION_NAME_INCLUDE_TIMESTAMP : Str := "include_timestamp".toList
def OPTION_NAME_PRESERVE_COMMENT_LINE_BREAKS : Str := "preserve_comment_line_breaks".toList
def OPTION_NAME_CUSTOM_TEMPLATE_FILE : Str := "custom_template_file".toList
def DEFAULT_OUTPUT_NAME : Str := "docbook_out.xml".toList
def DEFAULT_INSERTION_POINT : Str := "insertion_point".toList
def SCALAR_TABLE_INSERTION_POINT : Str := "scalar_table".toList
def SCALAR_VALUE_TYPES_TABLE_XML_ID : Str := "protobuf_scalar_value_types".toList
def DEFAULT_FIELD_NAME_COLUMN_WIDTH : Str := "3".toList
def DEFAULT_FIELD_TYPE_COLUMN_WIDTH : Str := "2".toList
def DEFAULT_FIELD_RULES_COLUMN_WIDTH : Str := "2".toList
def DEFAULT_FIELD_DESC_COLUMN_WIDTH : Str := "6".toList
def INSERTION_POINT_START_TAG : Str := "<!-- @@protoc_insertion_point(".toList
def INSERTION_POINT_END_TAG : Str := ") -->".toList

/-- The lookup `s_docbookOptions.find(name)` followed by the choice between
`itr->second` and the built-in default. -/
def optionOr (g : Globals) (name dflt : Str) : Str :=
  match g.s_docbookOptions.lookup name with
  | some v => v
  | none => dflt

/-! ## `utils::Trim` (lines 58-67) -/

/-- The test `(unsigned char)c <= ' '`. -/
def isBlank (c : Char) : Bool := decide (toUChar c ≤ 32)

/-- First loop of `Trim`: `resize(p-1)` while the last character is blank. -/
def trimBack (s : Str) : Str := (s.reverse.dropWhile isBlank).reverse

/-- Second loop of `Trim`: `erase(0, 1)` while the first character is blank. -/
def trimFront (s : Str) : Str := s.dropWhile isBlank

def Trim (str : Str) : Str := trimFront (trimBack str)

/-! ## The sanitizer (lines 416-494) -/

/-- Body of the `switch` of `SanitizeCommentForXML`: what one character appends
to `cleanedComment`. -/
def sanitizeChar (g : Globals) (c : Char) : Str :=
  if c = '&' then "&amp;".toList
  else if c = '"' then "&quot;".toList
  else if c = '\'' then "&apos;".toList
  else if c = '<' then "&lt;".toList
  else if c = '>' then "&gt;".toList
  else if c = '\n' then
    (if g.s_preserve_comment_line_breaks then "<sbr/>".toList else [])
  else if c = '\r' then " ".toList
  else [if c = Char.ofNat 0 then ' ' else c]

/-- The loop of `SanitizeCommentForXML` over the positions of `comment`, with
the accumulated `cleanedComment`. -/
def sanitizeLoop (g : Globals) : Str → Str → Str
  | [], cleanedComment => cleanedComment
  | c :: rest, cleanedComment => sanitizeLoop g rest (cleanedComment ++ sanitizeChar g c)

def SanitizeCommentForXML (g : Globals) (comment : Str) : Str :=
  sanitizeLoop g comment []

/-- The `for(;;)` loop of `ParagraphFormatComment`: find the next `"\n\n"` at
or after `index`, replace it, advance `index` by 3. Every round removes two
newlines behind `index` and adds one, so `fuel` larger than the number of
newlines of `paragraph` is never used up (`paragraphLoop_fuel`). -/
def paragraphLoop : Nat → Str → Nat → Str
  | 0, paragraph, _ => paragraph
  | fuel + 1, paragraph, index =>
    match find paragraph "\n\n".toList index with
    | none => paragraph
    | some i => paragraphLoop fuel (replaceAt paragraph i 2 "</para>\n<para>".toList) (i + 3)

def ParagraphFormatComment (g : Globals) (comment : Str) : Str :=
  let cleanComment := SanitizeCommentForXML g comment
  if Trim cleanComment = [] then []
  else
    let paragraph := "<para>".toList ++ cleanComment
    paragraphLoop (paragraph.length + 1) paragraph 0 ++ "</para>".toList

/-! ## Section levels and links (lines 504-564) -/

def SectionLevel (sectionLevel : Int) : Int :=
  if sectionLevel > MAX_SECTION_LEVEL then MAX_SECTION_LEVEL
  else if sectionLevel ≤ 0 then 1
  else sectionLevel

def MakeXLink (messageName displayName : Str) : Str :=
  let refName := replace messageName '.' '_'
  "<emphasis role=\"underline\"".toList ++ " xlink:href=\"".toList ++ "#".toList ++ refName
    ++ "\">".toList ++ displayName ++ "</emphasis>".toList

def MakeXLinkScalarTable (displayName : Str) : Str :=
  "<emphasis role=\"underline\"".toList ++ " xlink:href=\"".toList ++ "#".toList
    ++ SCALAR_VALUE_TYPES_TABLE_XML_ID ++ "\">".toList ++ displayName ++ "</emphasis>".toList

/-! ## The protobuf descriptor API, as far as the generator calls it

The descriptor classes belong to the protobuf library, not to this program;
they are the input of the generator. A descriptor is the record of what its
accessors return. -/

inductive Label where
  | LABEL_OPTIONAL | LABEL_REQUIRED | LABEL_REPEATED
  deriving DecidableEq, Repr

inductive FieldType where
  | TYPE_DOUBLE | TYPE_FLOAT | TYPE_INT64 | TYPE_UINT64 | TYPE_INT32 | TYPE_FIXED64
  | TYPE_FIXED32 | TYPE_BOOL | TYPE_STRING | TYPE_GROUP | TYPE_MESSAGE | TYPE_BYTES
  | TYPE_UINT32 | TYPE_ENUM | TYPE_SFIXED32 | TYPE_SFIXED64 | TYPE_SINT32 | TYPE_SINT64
  deriving DecidableEq, Repr

/-- The accessor `FieldDescriptor::type_name()`: the library's table of type names. -/
def FieldType.type_name : FieldType → Str
  | .TYPE_DOUBLE => "double".toList | .TYPE_FLOAT => "float".toList
  | .TYPE_INT64 => "int64".toList | .TYPE_UINT64 => "uint64".toList
  | .TYPE_INT32 => "int32".toList | .TYPE_FIXED64 => "fixed64".toList
  | .TYPE_FIXED32 => "fixed32".toList | .TYPE_BOOL => "bool".toList
  | .TYPE_STRING => "string".toList | .TYPE_GROUP => "group".toList
  | .TYPE_MESSAGE => "message".toList | .TYPE_BYTES => "bytes".toList
  | .TYPE_UINT32 => "uint32".toList | .TYPE_ENUM => "enum".toList
  | .TYPE_SFIXED32 => "sfixed32".toList | .TYPE_SFIXED64 => "sfixed64".toList
  | .TYPE_SINT32 => "sint32".toList | .TYPE_SINT64 => "sint64".toList

/-- The struct `SourceLocation`, the two members the generator reads. -/
structure SourceLocation where
  leading_comments : Str
  trailing_comments : Str
  deriving DecidableEq, Repr

/-- The declared default of a field as the descriptor stores it, by the C++
type of the field: `int32` for int32 / sint32 / sfixed32, `int64` for int64 /
sint64 / sfixed64, `uint32` for uint32 / fixed32, `uint64` for uint64 /
fixed64; the text of a `float` / `double` is what the stream prints for it
(the conversion is the C++ library's). `string` is also the default of a
bytes field. -/
inductive DefaultValue where
  | none
  | int32 (v : Int)
  | int64 (v : Int)
  | uint32 (v : Nat)
  | uint64 (v : Nat)
  | float (printed : Str)
  | double (printed : Str)
  | bool (b : Bool)
  | enum (name : Str)
  | string (s : Str)
  deriving DecidableEq, Repr

/-- What `message_type()` / `enum_type()` of a field point to, as far as the
generator reads it. -/
structure TypeRef where
  full_name : Str
  name : Str
  deriving DecidableEq, Repr

/-- The class `FieldDescriptor`, the accessors the generator calls. The record
keeps the flags, the label and the type independent of each other; the
combinations that the library builds are singled out by
`FieldDescriptor.built`. -/
structure FieldDescriptor where
  name : Str
  label : Label
  type : FieldType
  is_packed : Bool := false
  has_default_value : Bool := false
  default_value : DefaultValue := .none
  message_type : TypeRef := ⟨[], []⟩
  enum_type : TypeRef := ⟨[], []⟩
  /-- Result of `GetSourceLocation`: `none` when it returns false. -/
  source_location : Option SourceLocation := none
  deriving DecidableEq, Repr

/-- Signed reading of a `w`-bit pattern. -/
def toSigned (w : Nat) (v : Nat) : Int :=
  if v % 2 ^ w < 2 ^ (w - 1) then (v % 2 ^ w : Nat) else ((v % 2 ^ w : Nat) : Int) - 2 ^ w

def FieldDescriptor.default_value_bool (fd : FieldDescriptor) : Bool :=
  match fd.default_value with
  | .bool b => b
  | _ => false

def FieldDescriptor.default_value_string (fd : FieldDescriptor) : Str :=
  match fd.default_value with
  | .string s => s
  | _ => []

/-- The defaults of a field share one union in the descriptor and the accessor
returns the `int32` member unchecked: on a field whose default is stored as
`uint32` it yields the same 32 bits read as signed. -/
def FieldDescriptor.default_value_int32 (fd : FieldDescriptor) : Int :=
  match fd.default_value with
  | .int32 v => v
  | .uint32 v => toSigned 32 v
  | _ => 0

/-- As `default_value_int32`, for the 64-bit member. -/
def FieldDescriptor.default_value_int64 (fd : FieldDescriptor) : Int :=
  match fd.default_value with
  | .int64 v => v
  | .uint64 v => toSigned 64 v
  | _ => 0

def FieldDescriptor.default_value_uint32 (fd : FieldDescriptor) : Nat :=
  match fd.default_value with
  | .uint32 v => v % 2 ^ 32
  | .int32 v => (v % 2 ^ 32).toNat
  | _ => 0

def FieldDescriptor.default_value_uint64 (fd : FieldDescriptor) : Nat :=
  match fd.default_value with
  | .uint64 v => v % 2 ^ 64
  | .int64 v => (v % 2 ^ 64).toNat
  | _ => 0

/-- Text printed for `default_value_float()`. -/
def FieldDescriptor.default_value_float (fd : FieldDescriptor) : Str :=
  match fd.default_value with
  | .float printed => printed
  | _ => []

/-- Text printed for `default_value_double()`. -/
def FieldDescriptor.default_value_double (fd : FieldDescriptor) : Str :=
  match fd.default_value with
  | .double printed => printed
  | _ => []

/-- The name `default_value_enum()->name()`. -/
def FieldDescriptor.default_value_enum_name (fd : FieldDescriptor) : Str :=
  match fd.default_value with
  | .enum name => name
  | _ => []

structure EnumValueDescriptor where
  name : Str
  /-- The numeric tag declared for the value. -/
  number : Int := 0
  source_location : Option SourceLocation := none
  deriving DecidableEq, Repr

structure EnumDescriptor where
  name : Str
  full_name : Str
  /-- The values `value(0) .. value(value_count()-1)`. -/
  values : List EnumValueDescriptor := []
  source_location : Option SourceLocation := none
  deriving DecidableEq, Repr

/-- A message descriptor: `field(i)`, `enum_type(i)` and `nested_type(i)` are
the entries of the three lists, in declaration order. -/
inductive Descriptor where
  | mk (name full_name : Str) (source_location : Option SourceLocation)
      (fields : List FieldDescriptor) (enum_types : List EnumDescriptor)
      (nested_types : List Descriptor)

def Descriptor.name : Descriptor → Str
  | .mk name _ _ _ _ _ => name

def Descriptor.full_name : Descriptor → Str
  | .mk _ full_name _ _ _ _ => full_name

def Descriptor.source_location : Descriptor → Option SourceLocation
  | .mk _ _ source_location _ _ _ => source_location

def Descriptor.fields : Descriptor → List FieldDescriptor
  | .mk _ _ _ fields _ _ => fields

def Descriptor.enum_types : Descriptor → List EnumDescriptor
  | .mk _ _ _ _ enum_types _ => enum_types

def Descriptor.nested_types : Descriptor → List Descriptor
  | .mk _ _ _ _ _ nested_types => nested_types

def Descriptor.field_count (d : Descriptor) : Nat := d.fields.length

def Descriptor.nested_type_count (d : Descriptor) : Nat := d.nested_types.length

structure FileDescriptor where
  name : Str
  /-- The top-level messages `message_type(0) ..`. -/
  message_types : List Descriptor := []
  /-- The file-scope enums `enum_type(0) ..`. -/
  enum_types : List EnumDescriptor := []

/-! ## Default values and comments (lines 570-690) -/

def MakePackedString (fd : FieldDescriptor) : Str :=
  if fd.is_packed then "[packed = true]".toList else []

/-- The loop of the `TYPE_BYTES` case over the bytes of the default, with the
accumulated stream `ss` (hex, uppercase, fill `0`): `setw(2)`, the byte
converted to `int`, then a space. -/
def hexBytesLoop : Str → Str → Str
  | [], ss => ss
  | b :: rest, ss => hexBytesLoop rest (ss ++ showHexUpper 2 (charToInt b) ++ " ".toList)

/-- The `switch(fd->type())` of `MakeDefaultValueString`: the text the case
inserts after `"\n[default = "`, or `none` for the `default:` label, which
returns the empty string from the function. -/
def defaultLiteral (g : Globals) (fd : FieldDescriptor) : Option Str :=
  match fd.type with
  | .TYPE_BOOL => some (if fd.default_value_bool then "true".toList else "false".toList)
  | .TYPE_BYTES => some (hexBytesLoop fd.default_value_string [])
  | .TYPE_STRING => some (SanitizeCommentForXML g fd.default_value_string)
  | .TYPE_DOUBLE => some fd.default_value_double
  | .TYPE_ENUM => some fd.default_value_enum_name
  | .TYPE_FIXED32 => some (showInt fd.default_value_int32)
  | .TYPE_FIXED64 => some (showInt fd.default_value_int64)
  | .TYPE_FLOAT => some fd.default_value_float
  | .TYPE_GROUP => some []
  | .TYPE_INT32 => some (showInt fd.default_value_int32)
  | .TYPE_INT64 => some (showInt fd.default_value_int64)
  | .TYPE_SFIXED32 => some (showInt fd.default_value_int32)
  | .TYPE_SFIXED64 => some (showInt fd.default_value_int64)
  | .TYPE_SINT32 => some (showInt fd.default_value_int32)
  | .TYPE_SINT64 => some (showInt fd.default_value_int64)
  | .TYPE_UINT32 => some (showNat fd.default_value_uint32)
  | .TYPE_UINT64 => some (showNat fd.default_value_uint64)
  | .TYPE_MESSAGE => none

/-- The end of `MakeDefaultValueString` (lines 670-676): the packed annotation
after what `defaultStringOs` holds. -/
def appendPacked (fd : FieldDescriptor) (defaultStringOs : Str) : Str :=
  let packedString := MakePackedString fd
  if packedString ≠ [] then defaultStringOs ++ " ".toList ++ packedString
  else defaultStringOs

def MakeDefaultValueString (g : Globals) (fd : FieldDescriptor) : Str :=
  if fd.has_default_value then
    match defaultLiteral g fd with
    | none => []
    | some literal => appendPacked fd ("\n[default = ".toList ++ literal ++ " ]".toList)
  else appendPacked fd []

/-- The template `GetDescriptorComment`, on the result of `GetSourceLocation`. -/
def GetDescriptorComment (source_location : Option SourceLocation) : Str :=
  match source_location with
  | some location => location.leading_comments ++ " ".toList ++ location.trailing_comments
  | none => []

/-! ## Headers, footers and rows (lines 697-1001) -/

def WriteDocbookHeader (os : OStream) : OStream :=
  os.put ("<?xml version=\"1.0\"".toList ++ " encoding=\"utf-8\"".toList
    ++ " standalone=\"no\"?>".toList
    ++ "<article xmlns=\"http://docbook.org/ns/docbook\"".toList
    ++ " xmlns:xlink=\"http://www.w3.org/1999/xlink\"".toList
    ++ " version=\"5.0\">".toList ++ "\n".toList)

def WriteDocbookFooter (g : Globals) (os : OStream) : OStream :=
  let os :=
    if g.s_includeTimestamp then
      os.put ("<para>This document was generated <?dbtimestamp \t\t\t\t  format=\"c\"?>.</para>".toList
        ++ "\n".toList)
    else os
  os.put ("</article>".toList ++ "\n".toList)

def WriteProtoFileHeader (os : OStream) (fd : FileDescriptor) (sectionLevel : Int) : OStream :=
  (os.openSect (SectionLevel sectionLevel)).put
    ("<title> File: ".toList ++ fd.name ++ "</title>".toList ++ "\n".toList)

def WriteProtoFileFooter (os : OStream) (sectionLevel : Int) : OStream :=
  (os.closeSect (SectionLevel sectionLevel)).put "\n".toList

def WriteMessageInformalTableHeader (g : Globals) (os : OStream) (xmlID title comment : Str)
    (sectionLevel : Int) : OStream :=
  let paragraphComment := ParagraphFormatComment g comment
  let os := (os.openSect (SectionLevel sectionLevel)).put
    ("<title> Message: ".toList ++ title ++ "</title>".toList ++ "\n".toList
      ++ paragraphComment ++ "\n".toList
      ++ "<informaltable frame=\"all\"".toList
      ++ " xml:id=\"".toList ++ xmlID ++ "\">".toList ++ "\n".toList
      ++ "<tgroup cols=\"4\">".toList ++ "\n".toList
      ++ " <colspec colname=\"c1\" colnum=\"1\" colwidth=\"".toList)
  let os := os.put
    (optionOr g OPTION_NAME_FIELD_NAME_COLUMN_WIDTH DEFAULT_FIELD_NAME_COLUMN_WIDTH)
  let os := os.put
    ("*\" />".toList ++ "\n".toList
      ++ "<colspec colname=\"c2\" colnum=\"2\"".toList
      ++ " colwidth=\"".toList)
  let os := os.put
    (optionOr g OPTION_NAME_FIELD_TYPE_COLUMN_WIDTH DEFAULT_FIELD_TYPE_COLUMN_WIDTH)
  let os := os.put
    ("*\" />".toList ++ "\n".toList
      ++ "<colspec colname=\"c3\" colnum=\"3\"".toList
      ++ " colwidth=\"".toList)
  let os := os.put
    (optionOr g OPTION_NAME_FIELD_RULE_COLUMN_WIDTH DEFAULT_FIELD_RULES_COLUMN_WIDTH)
  let os := os.put
    ("*\" />".toList ++ "\n".toList
      ++ "<colspec colname=\"c4\" colnum=\"4\"".toList
      ++ " colwidth=\"".toList)
  let os := os.put
    (optionOr g OPTION_NAME_FIELD_DESC_COLUMN_WIDTH DEFAULT_FIELD_DESC_COLUMN_WIDTH)
  let os := os.put
    ("*\" />".toList ++ "\n".toList
      ++ "<thead>".toList ++ "\n".toList
      ++ "<row>".toList ++ "\n".toList
      ++ "<?dbhtml bgcolor=\"#".toList)
  let os := os.put g.s_columnHeaderColor
  let os := os.put
    ("\" ?>".toList ++ "\n".toList
      ++ "<?dbfo bgcolor=\"#".toList)
  let os := os.put g.s_columnHeaderColor
  os.put
    ("\" ?>".toList ++ "\n".toList
      ++ "\t<entry>Field</entry>".toList ++ "\n".toList
      ++ "\t<entry>Type</entry>".toList ++ "\n".toList
      ++ "\t<entry>Rule</entry>".toList ++ "\n".toList
      ++ "\t<entry>Description</entry>".toList ++ "\n".toList
      ++ "</row>".toList ++ "\n".toList
      ++ "</thead>".toList ++ "\n".toList
      ++ "<tbody>".toList ++ "\n".toList)

def WriteEnumInformalTableHeader (g : Globals) (os : OStream) (xmlID title description : Str)
    (sectionLevel : Int) : OStream :=
  let os := (os.openSect (SectionLevel sectionLevel)).put
    ("<title> Enum: ".toList ++ title ++ "</title>".toList ++ "\n".toList
      ++ "<para>".toList ++ description ++ "</para>".toList ++ "\n".toList
      ++ "<informaltable frame=\"all\"".toList
      ++ " xml:id=\"".toList ++ xmlID ++ "\">".toList ++ "\n".toList
      ++ "<tgroup cols=\"3\">".toList ++ "\n".toList
      ++ " <colspec colname=\"c1\" colnum=\"1\" colwidth=\"".toList)
  let os := os.put
    (optionOr g OPTION_NAME_FIELD_NAME_COLUMN_WIDTH DEFAULT_FIELD_NAME_COLUMN_WIDTH)
  let os := os.put
    ("*\" />".toList ++ "\n".toList
      ++ "<colspec colname=\"c2\" colnum=\"2\"".toList
      ++ " colwidth=\"".toList)
  let os := os.put
    (optionOr g OPTION_NAME_FIELD_TYPE_COLUMN_WIDTH DEFAULT_FIELD_TYPE_COLUMN_WIDTH)
  let os := os.put
    ("*\" />".toList ++ "\n".toList
      ++ "<colspec colname=\"c3\" colnum=\"3\"".toList
      ++ " colwidth=\"".toList)
  let os := os.put
    (optionOr g OPTION_NAME_FIELD_DESC_COLUMN_WIDTH DEFAULT_FIELD_RULES_COLUMN_WIDTH)
  let os := os.put
    ("*\" />".toList ++ "\n".toList
      ++ "<thead>".toList ++ "\n".toList
      ++ "<row>".toList ++ "\n".toList
      ++ "<?dbhtml bgcolor=\"#".toList)
  let os := os.put g.s_columnHeaderColor
  let os := os.put
    ("\" ?>".toList ++ "\n".toList
      ++ "<?dbfo bgcolor=\"#".toList)
  let os := os.put g.s_columnHeaderColor
  os.put
    ("\" ?>".toList ++ "\n".toList
      ++ "\t<entry>Element</entry>".toList ++ "\n".toList
      ++ "\t<entry>Value</entry>".toList ++ "\n".toList
      ++ "\t<entry>Description</entry>".toList ++ "\n".toList
      ++ "</row>".toList ++ "\n".toList
      ++ "</thead>".toList ++ "\n".toList
      ++ "<tbody>".toList ++ "\n".toList)

/-- The overload `WriteInformalTableFooter(os)`. -/
def WriteInformalTableFooter (os : OStream) : OStream :=
  os.put ("</tbody>".toList ++ "\n".toList
    ++ "</tgroup>".toList ++ "\n".toList
    ++ "</informaltable>".toList ++ "\n".toList)

def WriteCloseSection (os : OStream) (sectionLevel : Int) : OStream :=
  (os.closeSect (SectionLevel sectionLevel)).put "\n".toList

/-- The overload `WriteInformalTableFooter(os, sectionLevel)`. -/
def WriteInformalTableFooterSection (os : OStream) (sectionLevel : Int) : OStream :=
  ((os.put ("</tbody>".toList ++ "\n".toList
    ++ "</tgroup>".toList ++ "\n".toList
    ++ "</informaltable>".toList ++ "\n".toList)).closeSect (SectionLevel sectionLevel)).put
    "\n".toList

def WriteMessageInformalTableEntry (g : Globals) (os : OStream)
    (fieldname type occurrence defaultString comment : Str) (alternateColor : Bool) : OStream :=
  let paragraphComment := ParagraphFormatComment g comment
  let cellcolor := if alternateColor then g.s_rowColorAlt else g.s_rowColor
  let os := os.put
    ("<row>".toList
      ++ "<?dbhtml bgcolor=\"#".toList ++ cellcolor ++ "\" ?>".toList ++ "\n".toList
      ++ "<?dbfo bgcolor=\"#".toList ++ cellcolor ++ "\" ?>".toList ++ "\n".toList
      ++ "\t<entry>".toList ++ fieldname ++ "</entry>".toList ++ "\n".toList
      ++ "\t<entry>".toList ++ type ++ "</entry>".toList ++ "\n".toList
      ++ "\t<entry>".toList ++ occurrence ++ "</entry>".toList ++ "\n".toList
      ++ "\t<entry>".toList ++ paragraphComment)
  let os :=
    if defaultString ≠ [] then
      if paragraphComment = [] then os.put (defaultString ++ "\n".toList)
      else os.put ("<para>".toList ++ defaultString ++ "</para>".toList ++ "\n".toList)
    else os
  let os := os.put ("</entry>".toList ++ "\n".toList)
  os.put ("</row>".toList ++ "\n".toList ++ "\n".toList)

def WriteEnumInformalTableEntry (g : Globals) (os : OStream) (fieldname : Str) (enumValue : Int)
    (comment : Str) (alternateColor : Bool) : OStream :=
  let paragraphComment := ParagraphFormatComment g comment
  let cellcolor := if alternateColor then g.s_rowColorAlt else g.s_rowColor
  os.put
    ("<row>".toList ++ "\n".toList
      ++ "<?dbhtml bgcolor=\"#".toList ++ cellcolor ++ "\" ?>".toList ++ "\n".toList
      ++ "<?dbfo bgcolor=\"#".toList ++ cellcolor ++ "\" ?>".toList ++ "\n".toList
      ++ "\t<entry>".toList ++ fieldname ++ "</entry>".toList ++ "\n".toList
      ++ "\t<entry>".toList ++ showInt enumValue ++ "</entry>".toList ++ "\n".toList
      ++ "\t<entry>".toList ++ paragraphComment ++ "</entry>".toList ++ "\n".toList
      ++ "</row>".toList ++ "\n".toList
      ++ "\n".toList)

/-! ## Tables and the descriptor walker (lines 1003-1258) -/

/-- The loop of `WriteMessageFieldEntries` from index `i` on; the list holds
`field(i)`, `field(i+1)`, ... -/
def WriteMessageFieldEntriesFrom (g : Globals) : OStream → List FieldDescriptor → Nat → OStream
  | os, [], _ => os
  | os, fd :: rest, i =>
    let labelStr : Str :=
      match fd.label with
      | .LABEL_OPTIONAL => "optional".toList
      | .LABEL_REPEATED => "repeated".toList
      | .LABEL_REQUIRED => "required".toList
    let typeName : Str :=
      match fd.type with
      | .TYPE_MESSAGE => MakeXLink fd.message_type.full_name fd.message_type.name
      | .TYPE_ENUM => MakeXLink fd.enum_type.full_name fd.enum_type.name
      | _ =>
        if g.s_includeScalarValueTable then MakeXLinkScalarTable fd.type.type_name
        else fd.type.type_name
    let alternateColor : Bool := decide (i % 2 ≠ 0)
    WriteMessageFieldEntriesFrom g
      (WriteMessageInformalTableEntry g os fd.name typeName labelStr
        (MakeDefaultValueString g fd) (GetDescriptorComment fd.source_location) alternateColor)
      rest (i + 1)

def WriteMessageFieldEntries (g : Globals) (os : OStream) (messageDescriptor : Descriptor) :
    OStream :=
  WriteMessageFieldEntriesFrom g os messageDescriptor.fields 0

/-- The loop of `WriteEnumFieldEntries` from index `i` on; the list holds
`value(i)`, `value(i+1)`, ... -/
def WriteEnumFieldEntriesFrom (g : Globals) : OStream → List EnumValueDescriptor → Nat → OStream
  | os, [], _ => os
  | os, value :: rest, i =>
    let alternateColor : Bool := decide (i % 2 ≠ 0)
    WriteEnumFieldEntriesFrom g
      (WriteEnumInformalTableEntry g os value.name (i : Int)
        (GetDescriptorComment value.source_location) alternateColor)
      rest (i + 1)

def WriteEnumFieldEntries (g : Globals) (os : OStream) (enumDescriptor : EnumDescriptor) :
    OStream :=
  WriteEnumFieldEntriesFrom g os enumDescriptor.values 0

/-- The template `WriteEnumTable`, on the enums `enum_type(0) ..` of the file
or message descriptor it is called with. -/
def WriteEnumTable (g : Globals) : List EnumDescriptor → OStream → Str → Int → OStream
  | [], os, _, _ => os
  | enumDescriptor :: rest, os, pfx, sect =>
    let xmlID := replace enumDescriptor.full_name '.' '_'
    let enumName : Str :=
      if pfx ≠ [] then pfx ++ ".".toList ++ enumDescriptor.name
      else enumDescriptor.name
    let os := WriteEnumInformalTableHeader g os xmlID enumName
      (GetDescriptorComment enumDescriptor.source_location) sect
    let os := WriteEnumFieldEntries g os enumDescriptor
    let os := WriteInformalTableFooterSection os sect
    WriteEnumTable g rest os pfx sect

/-- Returns the stream and the flag `true` if a table was written. -/
def WriteMessageTable (g : Globals) (os : OStream) (messageDescriptor : Descriptor)
    (descriptorName : Str) (sectionLevel : Int) : OStream × Bool :=
  if messageDescriptor.field_count > 0 then
    let xmlID := replace messageDescriptor.full_name '.' '_'
    let os := WriteMessageInformalTableHeader g os xmlID descriptorName
      (GetDescriptorComment messageDescriptor.source_location) (SectionLevel sectionLevel)
    let os := WriteMessageFieldEntries g os messageDescriptor
    let os := WriteInformalTableFooter os
    (os, true)
  else (os, false)

mutual
/-- The function `WriteMessage` (lines 1205-1258). The parameter `depth` is an
`int`; `depth+1` is evaluated in every call and is the sum in `Int` here: the
same value as in the code unless `depth` is 2147483647. -/
def WriteMessage (g : Globals) (os : OStream) : Descriptor → Str → Int → OStream
  | .mk name full_name source_location fields enum_types nested_types, pfx, depth =>
    let messageDescriptor := Descriptor.mk name full_name source_location fields enum_types
      nested_types
    let descriptorName : Str :=
      if pfx ≠ [] then pfx ++ ".".toList ++ name
      else name
    let written := WriteMessageTable g os messageDescriptor descriptorName depth
    let os := written.1
    let messageWritten := written.2
    let os := WriteEnumTable g enum_types os descriptorName (depth + 1)
    let os := WriteMessageNested g os nested_types descriptorName (depth + 1)
    if messageWritten then WriteCloseSection os depth
    else os
/-- The loop of `WriteMessage` over `nested_type(0) ..` (lines 1240-1250). -/
def WriteMessageNested (g : Globals) (os : OStream) : List Descriptor → Str → Int → OStream
  | [], _, _ => os
  | nested :: rest, descriptorName, depth =>
    WriteMessageNested g (WriteMessage g os nested descriptorName depth) rest descriptorName depth
end

/-! ## The scalar value table (lines 287-406, 1268-1324) -/

def NUM_SCALAR_TABLE_TYPE : Nat := 15

def NUM_SCALAR_TABLE_COLUMN : Nat := 4

def s_scalarTable : List (List Str) :=
  [
    ["double".toList,
     "".toList,
     "double".toList,
     "double".toList],
    ["float".toList,
     "".toList,
     "float".toList,
     "float".toList],
    ["int32".toList,
     "Uses variable-length encoding. Inefficient for encoding \t\t\t\tnegative numbers - if your field is likely to have negative \t\t\t\tvalues, use sint32 instead.".toList,
     "int32".toList,
     "int".toList],
    ["int64".toList,
     "Uses variable-length encoding. Inefficient for encoding \t\t\t\tnegative numbers - if your field is likely to have negative \t\t\t\tvalues, use sint64 instead.".toList,
     "int64".toList,
     "long".toList],
    ["uint32".toList,
     "Uses variable-length encoding.".toList,
     "uint32".toList,
     "int".toList],
    ["uint64".toList,
     "\tUses variable-length encoding.".toList,
     "uint64".toList,
     "long".toList],
    ["sint32".toList,
     "Uses variable-length encoding. Signed int value. These \t\t\t\tmore efficiently encode negative numbers than regular int32s.".toList,
     "int32".toList,
     "int".toList],
    ["sint64".toList,
     "Uses variable-length encoding. Signed int value. These more\t\t\t\tefficiently encode negative numbers than regular int64s.".toList,
     "int64".toList,
     "long".toList],
    ["fixed32".toList,
     "Always four bytes. More efficient than uint32 if values are \t\t\t\toften greater than 2^28.".toList,
     "uint32".toList,
     "int".toList],
    ["fixed64".toList,
     "Always eight bytes. More efficient than uint64 if values \t\t\t\tare often greater than 2^56.".toList,
     "uint64".toList,
     "long".toList],
    ["sfixed32".toList,
     "Always four bytes..".toList,
     "int32".toList,
     "int".toList],
    ["sfixed64".toList,
     "Always eight bytes.".toList,
     "int64".toList,
     "long".toList],
    ["bool".toList,
     "".toList,
     "bool".toList,
     "boolean".toList],
    ["string".toList,
     "\tA string must always contain UTF-8 encoded or 7-bit ASCII text.".toList,
     "string".toList,
     "String".toList],
    ["bytes".toList,
     "May contain any arbitrary sequence of bytes.".toList,
     "string".toList,
     "ByteString".toList]
  ]

/-- The inner loop of `WriteScalarValueTable` over the columns of one row. -/
def WriteScalarValueTableColumns : OStream → List Str → OStream
  | os, [] => os
  | os, cell :: rest =>
    WriteScalarValueTableColumns (os.put ("<entry>".toList ++ cell ++ "</entry>".toList
      ++ "\n".toList)) rest

/-- The outer loop of `WriteScalarValueTable` from row `i` on. -/
def WriteScalarValueTableRows (g : Globals) : OStream → List (List Str) → Nat → OStream
  | os, [], _ => os
  | os, row :: rest, i =>
    let cellcolor := if i % 2 = 1 then g.s_rowColorAlt else g.s_rowColor
    let os := os.put
      ("<row>".toList
        ++ "<?dbhtml bgcolor=\"#".toList ++ cellcolor ++ "\" ?>".toList ++ "\n".toList
        ++ "<?dbfo bgcolor=\"#".toList ++ cellcolor ++ "\" ?>".toList ++ "\n".toList)
    let os := WriteScalarValueTableColumns os row
    let os := os.put ("</row>".toList ++ "\n".toList)
    WriteScalarValueTableRows g os rest (i + 1)

def WriteScalarValueTable (g : Globals) (os : OStream) : OStream :=
  let os := (os.openSect 1).put
    ("<title>Scalar Value Types</title>".toList ++ "\n".toList
      ++ "<para> A scalar message field can have one of the following types - \t\t\t   the table shows the type specified in the .proto file, and the \t\t\t   corresponding type in the automatically generated class: </para>".toList
      ++ "\n".toList
      ++ "<informaltable frame=\"all\"".toList
      ++ " xml:id=\"".toList ++ SCALAR_VALUE_TYPES_TABLE_XML_ID ++ "\">".toList ++ "\n".toList
      ++ "<tgroup cols=\"4\">".toList ++ "\n".toList
      ++ " <colspec colname=\"c1\" colnum=\"1\" colwidth=\"2*\"/>".toList ++ "\n".toList
      ++ " <colspec colname=\"c2\" colnum=\"2\" colwidth=\"6*\"/>".toList ++ "\n".toList
      ++ " <colspec colname=\"c3\" colnum=\"3\" colwidth=\"2*\"/>".toList ++ "\n".toList
      ++ " <colspec colname=\"c4\" colnum=\"4\" colwidth=\"2*\"/>".toList ++ "\n".toList
      ++ "<thead>".toList ++ "\n".toList
      ++ "<row>".toList ++ "\n".toList
      ++ "<?dbhtml bgcolor=\"#".toList ++ g.s_columnHeaderColor ++ "\" ?>".toList ++ "\n".toList
      ++ "<?dbfo bgcolor=\"#".toList ++ g.s_columnHeaderColor ++ "\" ?>".toList ++ "\n".toList
      ++ "<entry>Type</entry>".toList ++ "\n".toList
      ++ "<entry>Notes</entry>".toList ++ "\n".toList
      ++ "<entry>C++ Type</entry>".toList ++ "\n".toList
      ++ "<entry>Java Type</entry>".toList ++ "\n".toList
      ++ "</row>".toList ++ "\n".toList
      ++ "</thead>".toList ++ "\n".toList
      ++ "<tbody>".toList ++ "\n".toList)
  let os := WriteScalarValueTableRows g os s_scalarTable 0
  ((os.put ("</tbody>".toList ++ "\n".toList
    ++ "</tgroup>".toList ++ "\n".toList
    ++ "</informaltable>".toList ++ "\n".toList)).closeSect 1).put "\n".toList

/-! ## `DocbookGenerator::Generate`, the rendering part (lines 1615-1631) -/

/-- The loop of `Generate` over the top-level messages `message_type(0) ..`. -/
def GenerateMessages (g : Globals) : OStream → List Descriptor → OStream
  | os, [] => os
  | os, message :: rest =>
    GenerateMessages g (WriteMessage g os message [] (g.s_startingSectionLevel + 1)) rest

/-- The stream `os` of `Generate` when it reaches line 1633: the document
rendered for one file, before it is handed to the template merger. -/
def GenerateStream (g : Globals) (file : FileDescriptor) : OStream :=
  let os : OStream := []
  let os := WriteProtoFileHeader os file g.s_startingSectionLevel
  let os := GenerateMessages g os file.message_types
  let os := WriteEnumTable g file.enum_types os [] (g.s_startingSectionLevel + 1)
  WriteProtoFileFooter os g.s_startingSectionLevel

/-! ## The properties file and the constructor (lines 85-113, 1400-1415, 1488-1587) -/

/-- The files the constructor reads: the content of a path, `none` when the
file cannot be opened. -/
abbrev FileSystem := Str → Option Str

/-- The lines `std::getline` returns one after the other on a stream with this
content. -/
def getlines : Str → List Str
  | [] => []
  | c :: cs =>
    if c = '\n' then [] :: getlines cs
    else
      match getlines cs with
      | [] => [[c]]
      | line :: lines => (c :: line) :: lines

/-- The assignment `options[k] = v` on a `std::map`. -/
def mapAssign (options : List (Str × Str)) (k v : Str) : List (Str × Str) :=
  (k, v) :: options.filter fun entry => entry.1 ≠ k

/-- One round of the `while` loop of `ParseProperty`. -/
def ParsePropertyLine (options : List (Str × Str)) (line : Str) : List (Str × Str) :=
  let line := Trim line
  if line ≠ [] ∧ line.head? = some '#' then options
  else
    match find line "=".toList 0 with
    | none => options
    | some p =>
      if p > 0 then
        let k := Trim (line.take p)
        let v := Trim (line.drop (p + 1))
        if k ≠ [] ∧ v ≠ [] then mapAssign options k v else options
      else options

def ParseProperty (fs : FileSystem) (filePath : Str) : List (Str × Str) :=
  match fs (c_str filePath) with
  | some content => (getlines content).foldl ParsePropertyLine []
  | none => []

def GetFileContent (fs : FileSystem) (filename : Str) : Str :=
  match fs filename with
  | some contents => contents
  | none => []

/-- The call `s.find_last_of(".")`; `none` is `string::npos`. -/
def find_last_of (s : Str) (c : Char) : Option Nat :=
  match find s.reverse [c] 0 with
  | some i => some (s.length - 1 - i)
  | none => none

/-- The test `std::isspace` of the C locale. -/
def isSpace (c : Char) : Bool :=
  decide (c = ' ' ∨ (9 ≤ c.toNat ∧ c.toNat ≤ 13))

/-- The extraction `buffer >> n` of an `int` from the text of an option:
leading white space, an optional sign and the decimal digits that follow. The
variable is 0 when there is no digit and the nearest `int` bound when the
number does not fit. -/
def extractInt (text : Str) : Int :=
  let t := text.dropWhile isSpace
  let negative : Bool := t.head? = some '-'
  let t := if t.head? = some '-' ∨ t.head? = some '+' then t.drop 1 else t
  let digits := t.takeWhile Char.isDigit
  if digits = [] then 0
  else
    let n : Nat := digits.foldl (fun acc c => 10 * acc + (c.toNat - 48)) 0
    let v : Int := if negative then -(n : Int) else (n : Int)
    if v > 2147483647 then 2147483647
    else if v < -2147483648 then -2147483648
    else v

/-- A flag option: `"0"` is false, any other value true (lines 1522-1529). -/
def flagOption (g : Globals) (name : Str) (current : Bool) : Bool :=
  match g.s_docbookOptions.lookup name with
  | some v => if v = "0".toList then false else true
  | none => current

/-- Lines 1533-1547: the custom template. `none` is the `std::out_of_range`
that `insert` throws when the path has no `.` (`lastindex` is then -1). -/
def loadCustomTemplate (fs : FileSystem) (g : Globals) : Option Globals :=
  match g.s_docbookOptions.lookup OPTION_NAME_CUSTOM_TEMPLATE_FILE with
  | none => some g
  | some path =>
    let g := { g with s_customTemplateFile := GetFileContent fs (c_str path) }
    if g.s_customTemplateFile ≠ [] then
      let g := { g with s_customTemplateFileName := path, s_docbookOuputFileName := path }
      match find_last_of g.s_docbookOuputFileName '.' with
      | none => none
      | some lastindex =>
        let inserted := g.s_docbookOuputFileName.take lastindex ++ "-out".toList
          ++ g.s_docbookOuputFileName.drop lastindex
        some { g with s_docbookOuputFileName := inserted }
    else some g

/-- Lines 1549-1560: the starting section level. -/
def loadStartingSectionLevel (g : Globals) : Globals :=
  match g.s_docbookOptions.lookup OPTION_NAME_STARTING_SECTION_LEVEL with
  | none => g
  | some v =>
    let g := { g with s_startingSectionLevel := extractInt v }
    if g.s_startingSectionLevel ≤ 0 ∨
        g.s_startingSectionLevel > MAX_ALLOWED_SECTION_LEVEL_OPTION then
      { g with s_startingSectionLevel := 1 }
    else g

/-- The constructor: the file-scope variables after it has run, from their
initial values. -/
def DocbookGenerator (fs : FileSystem) : Option Globals :=
  let g : Globals := {}
  let g := { g with s_docbookOptions := ParseProperty fs "docbook.properties".toList }
  let rowColor := optionOr g OPTION_NAME_ROW_COLOR g.s_rowColor
  let g := { g with s_rowColor := rowColor }
  let rowColorAlt := optionOr g OPTION_NAME_ROW_COLOR_ALT g.s_rowColorAlt
  let g := { g with s_rowColorAlt := rowColorAlt }
  let columnHeaderColor := optionOr g OPTION_NAME_COLUMN_HEADER_COLOR g.s_columnHeaderColor
  let g := { g with s_columnHeaderColor := columnHeaderColor }
  let includeScalarValueTable :=
    flagOption g OPTION_NAME_INCLUDE_SCALAR_VALUE_TABLE g.s_includeScalarValueTable
  let g := { g with s_includeScalarValueTable := includeScalarValueTable }
  match loadCustomTemplate fs g with
  | none => none
  | some g =>
    let g := loadStartingSectionLevel g
    let includeTimestamp := flagOption g OPTION_NAME_INCLUDE_TIMESTAMP g.s_includeTimestamp
    let g := { g with s_includeTimestamp := includeTimestamp }
    let preserve :=
      flagOption g OPTION_NAME_PRESERVE_COMMENT_LINE_BREAKS g.s_preserve_comment_line_breaks
    some { g with s_preserve_comment_line_breaks := preserve }

/-! ## The generator context and `Generate` (lines 1335-1392, 1438-1479, 1609-1640) -/

/-- One write through the generator context: the stream that `Open` or
`OpenForInsert` returns for a file, and the text printed raw into it. -/
inductive ContextWrite where
  /-- The call `context.Open(fileName)`, then `PrintRaw(content)`. -/
  | Open (fileName content : Str)
  /-- The call `context.OpenForInsert(fileName, insertionPoint)`, then
  `PrintRaw(content)`. -/
  | OpenForInsert (fileName insertionPoint content : Str)
  deriving DecidableEq, Repr

/-- The `GeneratorContext` as the generator meets it: the writes made so far,
in order, and for the write number `k` of the run (from 0) whether its printer
ends in the failed state. -/
structure GeneratorContext where
  writes : List ContextWrite := []
  failing : Nat → Bool := fun _ => false

/-- Open a stream, print into it; the result of `printer.failed()` comes with
the context. -/
def GeneratorContext.print (context : GeneratorContext) (w : ContextWrite) :
    GeneratorContext × Bool :=
  ({ context with writes := context.writes ++ [w] }, context.failing context.writes.length)

def MakeTemplateFile (g : Globals) (context : GeneratorContext) : GeneratorContext :=
  if g.s_customTemplateFileName = [] then
    let defaultTemplateOs : OStream := []
    let defaultTemplateOs := WriteDocbookHeader defaultTemplateOs
    let defaultTemplateOs := defaultTemplateOs.put
      (INSERTION_POINT_START_TAG ++ DEFAULT_INSERTION_POINT ++ INSERTION_POINT_END_TAG
        ++ "\n".toList)
    let defaultTemplateOs :=
      if g.s_includeScalarValueTable then WriteScalarValueTable g defaultTemplateOs
      else defaultTemplateOs
    let defaultTemplateOs := WriteDocbookFooter g defaultTemplateOs
    (context.print (ContextWrite.Open g.s_docbookOuputFileName
      (c_str defaultTemplateOs.str))).1
  else
    let context := (context.print (ContextWrite.Open g.s_docbookOuputFileName
      (c_str g.s_customTemplateFile))).1
    if g.s_includeScalarValueTable then
      let os := WriteScalarValueTable g []
      (context.print (ContextWrite.OpenForInsert g.s_docbookOuputFileName
        SCALAR_TABLE_INSERTION_POINT (c_str os.str))).1
    else context

/-- Returns the context, the result (`true` if success) and the error string
the caller passed, replaced by the message on failure. -/
def WriteToDocBookFile (g : Globals) (os : OStream) (context : GeneratorContext) (error : Str)
    (fileName : Str) : GeneratorContext × Bool × Str :=
  if g.s_customTemplateFileName = [] then
    let printed := context.print (ContextWrite.OpenForInsert g.s_docbookOuputFileName
      DEFAULT_INSERTION_POINT (c_str os.str))
    if printed.2 then (printed.1, false, "CodeGenerator detected write error.".toList)
    else (printed.1, true, error)
  else
    let printed := context.print (ContextWrite.OpenForInsert g.s_docbookOuputFileName
      fileName (c_str os.str))
    if printed.2 then (printed.1, false, "CodeGenerator detected write error.".toList)
    else (printed.1, true, error)

/-- The result of one call of `DocbookGenerator::Generate`: the file-scope
variables and the context after the call, the value returned and the error
string. -/
structure GenerateResult where
  globals : Globals
  context : GeneratorContext
  ok : Bool
  error : Str

def Generate (g : Globals) (file : FileDescriptor) (context : GeneratorContext) (error : Str) :
    GenerateResult :=
  let os := GenerateStream g file
  let bootstrapped : Globals × GeneratorContext :=
    if g.s_templateFileMade = false then
      let g1 := { g with s_templateFileMade := true }
      (g1, MakeTemplateFile g1 context)
    else (g, context)
  let written := WriteToDocBookFile bootstrapped.1 os bootstrapped.2 error file.name
  { globals := bootstrapped.1, context := written.1, ok := written.2.1, error := written.2.2 }

/-- A run: `Generate` called once per input file, one call after the other, on
the same file-scope variables and context, each call with an empty error
string. The results of the calls are returned in order. -/
def GenerateRun (g : Globals) (context : GeneratorContext) :
    List FileDescriptor → Globals × GeneratorContext × List GenerateResult
  | [] => (g, context, [])
  | file :: rest =>
    let r := Generate g file context []
    let tail := GenerateRun r.globals r.context rest
    (tail.1, tail.2.1, r :: tail.2.2)

/-! ## Notions the properties are stated with -/

/-- A stream item that is not a section tag. -/
def Piece.isText : Piece → Bool
  | .text _ => true
  | _ => false

/-- Reading one stream item against the stack of the sections that are open
(innermost first): an opening tag pushes its level, a closing tag must close
the innermost open section and have its level (`none` otherwise). -/
def sectionStep (stack : List Int) : Piece → Option (List Int)
  | .text _ => some stack
  | .sectOpen level => some (level :: stack)
  | .sectClose level =>
    match stack with
    | [] => none
    | top :: rest => if top = level then some rest else none

/-- Reading a whole stream from a stack of open sections; the result is the
stack at the end, or `none` if some closing tag did not match. -/
def sectionRun : List Int → OStream → Option (List Int)
  | stack, [] => some stack
  | stack, p :: ps =>
    match sectionStep stack p with
    | some stack1 => sectionRun stack1 ps
    | none => none

/-- The level of a section tag; `none` for text. -/
def Piece.level : Piece → Option Int
  | .text _ => none
  | .sectOpen level => some level
  | .sectClose level => some level

/-- A file system that holds one file. -/
def singleFile (path content : Str) : FileSystem :=
  fun p => if p = path then some content else none

/-- Every section tag of the stream has a level that `SectionLevel` returns for
some requested level. -/
def Clamped (a : OStream) : Prop :=
  ∀ p ∈ a, ∀ level : Int, p.level = some level → ∃ requested : Int, level = SectionLevel requested

/-- Balanced section tags, in both readings: read against any stack of open
sections the stream ends with the same stack and no closing tag fails to match;
and the opening and closing tags of every level are equally many. -/
def Balanced (a : OStream) : Prop :=
  (∀ stack : List Int, sectionRun stack a = some stack) ∧
    ∀ level : Int, a.count (Piece.sectOpen level) = a.count (Piece.sectClose level)

/-- The character map of the specification (section 4.4, Sanitizer): the text
that stands for one character of the input. -/
def specCharImage (preserveLineBreaks : Bool) : Char → Str
  | '&' => "&amp;".toList
  | '"' => "&quot;".toList
  | '\'' => "&apos;".toList
  | '<' => "&lt;".toList
  | '>' => "&gt;".toList
  | '\r' => " ".toList
  | '\x00' => " ".toList
  | '\n' => if preserveLineBreaks then "<sbr/>".toList else []
  | c => [c]

/-- The five escape sequences of the sanitizer, without their leading `&`. -/
def escapeTails : List Str :=
  ["amp;".toList, "quot;".toList, "apos;".toList, "lt;".toList, "gt;".toList]

/-- The whitespace characters of a comment: space, tab, carriage return,
newline. -/
def isCommentSpace (c : Char) : Bool :=
  c = ' ' ∨ c = '\t' ∨ c = '\r' ∨ c = '\n'

/-- The colour of the row at 0-based index `i` of a table: the primary row
colour when `i` is even, the alternate row colour when `i` is odd. -/
def rowColour (g : Globals) (i : Nat) : Str :=
  if i % 2 = 0 then g.s_rowColor else g.s_rowColorAlt

/-- A row of a message table, by its colour and its four cells: Field, Type,
Rule, Description. -/
def messageRowText (colour field type rule description : Str) : Str :=
  "<row><?dbhtml bgcolor=\"#".toList ++ colour ++ "\" ?>\n".toList
    ++ "<?dbfo bgcolor=\"#".toList ++ colour ++ "\" ?>\n".toList
    ++ "\t<entry>".toList ++ field ++ "</entry>\n".toList
    ++ "\t<entry>".toList ++ type ++ "</entry>\n".toList
    ++ "\t<entry>".toList ++ rule ++ "</entry>\n".toList
    ++ "\t<entry>".toList ++ description ++ "</entry>\n".toList
    ++ "</row>\n\n".toList

/-- A row of an enum table, by its colour and its three cells: Element, Value,
Description. -/
def enumRowText (colour element value description : Str) : Str :=
  "<row>\n<?dbhtml bgcolor=\"#".toList ++ colour ++ "\" ?>\n".toList
    ++ "<?dbfo bgcolor=\"#".toList ++ colour ++ "\" ?>\n".toList
    ++ "\t<entry>".toList ++ element ++ "</entry>\n".toList
    ++ "\t<entry>".toList ++ value ++ "</entry>\n".toList
    ++ "\t<entry>".toList ++ description ++ "</entry>\n".toList
    ++ "</row>\n\n".toList

/-- The anchor of a qualified name (specification, section 3): every dot
replaced by an underscore. -/
def anchor (qualifiedName : Str) : Str :=
  qualifiedName.map fun c => if c = '.' then '_' else c

/-- A clickable reference: the text `label`, linked to the anchor `target`
(`href` is `#` followed by the anchor). -/
def linkText (target label : Str) : Str :=
  "<emphasis role=\"underline\" xlink:href=\"#".toList ++ target ++ "\">".toList ++ label
    ++ "</emphasis>".toList

/-- The Type cell of a field as the specification gives it (section 4.2): a
link to the anchor of the referenced type, labelled with its simple name, for a
message or enum reference; otherwise a link to the scalar value table labelled
with the type name if that table is enabled, and the plain type name if not. -/
def specTypeCell (g : Globals) (fd : FieldDescriptor) : Str :=
  if fd.type = FieldType.TYPE_MESSAGE then
    linkText (anchor fd.message_type.full_name) fd.message_type.name
  else if fd.type = FieldType.TYPE_ENUM then
    linkText (anchor fd.enum_type.full_name) fd.enum_type.name
  else if g.s_includeScalarValueTable then
    linkText "protobuf_scalar_value_types".toList fd.type.type_name
  else fd.type.type_name

/-- The Rule cell of a field: its multiplicity. -/
def specRuleCell : Label → Str
  | .LABEL_OPTIONAL => "optional".toList
  | .LABEL_REPEATED => "repeated".toList
  | .LABEL_REQUIRED => "required".toList

/-- The annotation part of a Description cell as the specification gives it
(section 4.2), for the comment paragraphs `P` and the default-value annotation
`D`: nothing if `D` is empty, `D` unwrapped if the comment is empty, `D` in a
paragraph block of its own otherwise; the annotation ends its line. -/
def annotationPart (P D : Str) : Str :=
  if D = [] then []
  else if P = [] then D ++ "\n".toList
  else "<para>".toList ++ D ++ "</para>".toList ++ "\n".toList

/-- The Description cell of a field: the comment paragraphs, then the
annotation part. -/
def specDescriptionCell (g : Globals) (fd : FieldDescriptor) : Str :=
  ParagraphFormatComment g (GetDescriptorComment fd.source_location)
    ++ annotationPart (ParagraphFormatComment g (GetDescriptorComment fd.source_location))
        (MakeDefaultValueString g fd)

/-- The row of the field `fd` at index `i` of a message table. -/
def fieldRowText (g : Globals) (i : Nat) (fd : FieldDescriptor) : Str :=
  messageRowText (rowColour g i) fd.name (specTypeCell g fd) (specRuleCell fd.label)
    (specDescriptionCell g fd)

/-- The row of the enum value `v` at index `i` of an enum table: the Value
cell holds the index. -/
def enumValueRowText (g : Globals) (i : Nat) (v : EnumValueDescriptor) : Str :=
  enumRowText (rowColour g i) v.name (Nat.toDigits 10 i)
    (ParagraphFormatComment g (GetDescriptorComment v.source_location))

/-- The decimal representation of an integer, with a leading `-` when it is
negative. -/
def decimal (v : Int) : Str :=
  if v < 0 then '-' :: Nat.toDigits 10 (-v).toNat else Nat.toDigits 10 v.toNat

/-- The number of positions of `s` at which the text `pat` occurs. -/
def occurrences (pat : Str) : Str → Nat
  | [] => if pat.isPrefixOf [] then 1 else 0
  | c :: cs => (if pat.isPrefixOf (c :: cs) then 1 else 0) + occurrences pat cs

/-- The writes of the bootstrap step `MakeTemplateFile`, in order. -/
def bootstrapWrites (g : Globals) : List ContextWrite :=
  (MakeTemplateFile g {}).writes

/-- The marker at which the rendered document of a file is appended: the
primary marker `insertion_point` without a custom template, the name of the
input file with one. -/
def appendMarker (g : Globals) (file : FileDescriptor) : Str :=
  if g.s_customTemplateFileName = [] then "insertion_point".toList else file.name

/-- The append of the rendered document of `file` to the output artifact. -/
def appendWrite (g : Globals) (file : FileDescriptor) : ContextWrite :=
  ContextWrite.OpenForInsert g.s_docbookOuputFileName (appendMarker g file)
    (c_str (GenerateStream g file).str)

/-- Whether a write creates the artifact (`Open`): only the bootstrap step
does that. -/
def ContextWrite.isOpen : ContextWrite → Bool
  | .Open _ _ => true
  | .OpenForInsert _ _ _ => false

/-- Whether a write is an append at the marker `marker`. -/
def ContextWrite.isInsertAt (marker : Str) : ContextWrite → Bool
  | .Open _ _ => false
  | .OpenForInsert _ insertionPoint _ => decide (insertionPoint = marker)

/-- The display name of one step (specification, section 4.1): the prefix, a
dot and the local name when the prefix is not empty, the local name alone when
it is. -/
def displayStep (pfx localName : Str) : Str :=
  if pfx ≠ [] then pfx ++ ".".toList ++ localName else localName

/-- The display name at the end of a nesting path of local names, from the
prefix `pfx`: one step for each name. -/
def displayPath (pfx : Str) : List Str → Str
  | [] => pfx
  | localName :: rest => displayPath (displayStep pfx localName) rest

/-- The names of `path` joined by dots. -/
def dotJoined : List Str → Str
  | [] => []
  | [localName] => localName
  | localName :: rest => localName ++ ".".toList ++ dotJoined rest

mutual
/-- The messages that `WriteMessage` visits from the message `top`: `top` and,
through nested message declarations, every message below it, in the order of
the visit; each comes with the local names on the way, from the name of `top`
to its own. -/
def Descriptor.reached : Descriptor → List (List Str × Descriptor)
  | .mk name full_name source_location fields enum_types nested_types =>
    ([name], Descriptor.mk name full_name source_location fields enum_types nested_types)
      :: (Descriptor.reachedList nested_types).map fun p => (name :: p.1, p.2)
/-- The messages reached from the messages of a list, one after the other. -/
def Descriptor.reachedList : List Descriptor → List (List Str × Descriptor)
  | [] => []
  | m :: rest => m.reached ++ Descriptor.reachedList rest
end

/-- The messages declared in `file`, at the top level or nested in another
message, each with its nesting path. -/
def FileDescriptor.messages (file : FileDescriptor) : List (List Str × Descriptor) :=
  Descriptor.reachedList file.message_types

/-- The enums declared in `file`, at file scope or in a message. -/
def FileDescriptor.enums (file : FileDescriptor) : List EnumDescriptor :=
  file.enum_types ++ file.messages.flatMap fun p => p.2.enum_types

/-- The text that opens a message table, after the section tag: the title line
with the display name `title`, the line of the comment paragraphs, and the
table element with its `xml:id`. -/
def messageHeadText (g : Globals) (xmlID title comment : Str) : Str :=
  "<title> Message: ".toList ++ title ++ "</title>".toList ++ "\n".toList
    ++ ParagraphFormatComment g comment ++ "\n".toList
    ++ "<informaltable frame=\"all\"".toList
    ++ " xml:id=\"".toList ++ xmlID ++ "\">".toList ++ "\n".toList
    ++ "<tgroup cols=\"4\">".toList ++ "\n".toList
    ++ " <colspec colname=\"c1\" colnum=\"1\" colwidth=\"".toList

/-- The text that opens an enum table, after the section tag: the title line
with the display name `title`, the description, and the table element with its
`xml:id`. -/
def enumHeadText (xmlID title description : Str) : Str :=
  "<title> Enum: ".toList ++ title ++ "</title>".toList ++ "\n".toList
    ++ "<para>".toList ++ description ++ "</para>".toList ++ "\n".toList
    ++ "<informaltable frame=\"all\"".toList
    ++ " xml:id=\"".toList ++ xmlID ++ "\">".toList ++ "\n".toList
    ++ "<tgroup cols=\"3\">".toList ++ "\n".toList
    ++ " <colspec colname=\"c1\" colnum=\"1\" colwidth=\"".toList

/-- A file in which the field `M.e` refers to the message `Empty`, declared in
the same file without fields: `message M { optional Empty e = 1; }
message Empty {}`. -/
def fileWithEmptyMessage : FileDescriptor :=
  { name := "a.proto".toList,
    message_types :=
      [Descriptor.mk "M".toList "M".toList none
        [{ name := "e".toList, label := Label.LABEL_OPTIONAL, type := FieldType.TYPE_MESSAGE,
           message_type := { full_name := "Empty".toList, name := "Empty".toList } }] [] [],
       Descriptor.mk "Empty".toList "Empty".toList none [] [] []] }

/-- A file of the package `pkg` in which the fields of `M` refer to the message
`N`, which has a field, and to the enums `E`, declared at file scope, and
`N.K`, declared in `N`. -/
def fileWithLinks : FileDescriptor :=
  { name := "b.proto".toList,
    message_types :=
      [Descriptor.mk "M".toList "pkg.M".toList none
        [{ name := "n".toList, label := Label.LABEL_OPTIONAL, type := FieldType.TYPE_MESSAGE,
           message_type := { full_name := "pkg.N".toList, name := "N".toList } },
         { name := "e".toList, label := Label.LABEL_REPEATED, type := FieldType.TYPE_ENUM,
           enum_type := { full_name := "pkg.E".toList, name := "E".toList } },
         { name := "k".toList, label := Label.LABEL_REQUIRED, type := FieldType.TYPE_ENUM,
           enum_type := { full_name := "pkg.N.K".toList, name := "K".toList } }] [] [],
       Descriptor.mk "N".toList "pkg.N".toList none
        [{ name := "x".toList, label := Label.LABEL_OPTIONAL, type := FieldType.TYPE_INT32 }]
        [{ name := "K".toList, full_name := "pkg.N.K".toList, values := [],
           source_location := none }] []],
    enum_types :=
      [{ name := "E".toList, full_name := "pkg.E".toList, values := [],
         source_location := none }] }

/-- The content of a text file with these lines: a newline between two lines,
none after the last. -/
def joinLines : List Str → Str
  | [] => []
  | [line] => line
  | line :: rest => line ++ "\n".toList ++ joinLines rest

/-- The text of the primary insertion marker, as `MakeTemplateFile` writes it
on a line of its own. -/
def primaryMarker : Str :=
  INSERTION_POINT_START_TAG ++ DEFAULT_INSERTION_POINT ++ INSERTION_POINT_END_TAG

/-- The fresh wrapper document as the specification gives it (section 4.5): the
wrapper header, the line of the primary insertion marker, the scalar value
table if and only if it is enabled, the wrapper footer. -/
def freshDocument (g : Globals) : OStream :=
  WriteDocbookHeader []
    ++ [Piece.text (primaryMarker ++ "\n".toList)]
    ++ (if g.s_includeScalarValueTable then WriteScalarValueTable g [] else [])
    ++ WriteDocbookFooter g []

/-- The file-scope variables after the constructor has read the properties file
`row_color=<!-- @@protoc_insertion_point(insertion_point) -->`. -/
def markerRowColour : Globals :=
  { s_docbookOptions :=
      [("row_color".toList, "<!-- @@protoc_insertion_point(insertion_point) -->".toList)],
    s_rowColor := "<!-- @@protoc_insertion_point(insertion_point) -->".toList }

/-- The file-scope variables after the constructor has read a properties file
whose row colour is `ff`, a NUL character, `ff`. -/
def nulRowColour : Globals :=
  { s_docbookOptions := [("row_color".toList, "ff\x00ff".toList)],
    s_rowColor := "ff\x00ff".toList }

/-! ### The range of the depth

The parameter `depth` of `WriteMessage` is an `int` of 32 bits, and each level
of nesting hands on `depth+1`. -/

mutual
/-- How many times `depth+1` is stacked in a call of `WriteMessage` for a
message: once in the call itself, which evaluates `depth+1` for every message
(line 1233), and then as many times as in the nested message with the greatest
count. -/
def Descriptor.depthSteps : Descriptor → Nat
  | .mk _ _ _ _ _ nested_types => Descriptor.depthStepsList nested_types + 1
/-- The greatest count among the messages of a list, 0 for the empty list. -/
def Descriptor.depthStepsList : List Descriptor → Nat
  | [] => 0
  | m :: rest => max m.depthSteps (Descriptor.depthStepsList rest)
end

/-- A message `Outer` with one field and one nested message `Inner`. -/
def messageWithNested : Descriptor :=
  .mk "Outer".toList "Outer".toList none
    [{ name := "id".toList, label := Label.LABEL_OPTIONAL, type := FieldType.TYPE_INT32 }]
    []
    [.mk "Inner".toList "Outer.Inner".toList none
      [{ name := "id".toList, label := Label.LABEL_OPTIONAL, type := FieldType.TYPE_INT32 }] [] []]

/-! ### The field descriptors that the protobuf library builds -/

/-- The types that may be packed, the library's `IsTypePackable`: every type
but strings, bytes, groups and messages. -/
def FieldType.packable : FieldType → Bool
  | .TYPE_STRING | .TYPE_GROUP | .TYPE_MESSAGE | .TYPE_BYTES => false
  | _ => true

/-- What holds of every field descriptor that the protobuf library builds, as
far as `MakeDefaultValueString` reads the descriptor: `is_packed()` is true only
of a repeated field of a packable type, and `has_default_value()` is true only
of a field that is not repeated and is neither a message nor a group (the
descriptor builder refuses a default on a repeated field and on a field of
message or group type). The generator receives no other field descriptor. -/
def FieldDescriptor.built (fd : FieldDescriptor) : Bool :=
  (!fd.is_packed || (fd.label == Label.LABEL_REPEATED && fd.type.packable))
  && (!fd.has_default_value
      || (fd.label != Label.LABEL_REPEATED && fd.type != FieldType.TYPE_MESSAGE
          && fd.type != FieldType.TYPE_GROUP))

/-- A packed repeated field `samples` of type int32. -/
def packedField : FieldDescriptor :=
  { name := "samples".toList, label := Label.LABEL_REPEATED, type := FieldType.TYPE_INT32,
    is_packed := true }

/-- A file with one message of one field: `message M { optional int32 x = 1; }`. -/
def fileWithOneField : FileDescriptor :=
  { name := "a.proto".toList,
    message_types :=
      [Descriptor.mk "M".toList "M".toList none
        [{ name := "x".toList, label := Label.LABEL_OPTIONAL, type := FieldType.TYPE_INT32 }]
        [] []] }

/-! # Properties -/

/-! ## Streams: what a writer adds -/

theorem put_eq (os : OStream) (s : Str) : os.put s = os ++ [Piece.text s] := rfl

theorem openSect_eq (os : OStream) (l : Int) : os.openSect l = os ++ [Piece.sectOpen l] := rfl

theorem closeSect_eq (os : OStream) (l : Int) : os.closeSect l = os ++ [Piece.sectClose l] := rfl

theorem str_append (a b : OStream) : OStream.str (a ++ b) = OStream.str a ++ OStream.str b := by
  simp [OStream.str]

theorem WriteProtoFileHeader_frame (os : OStream) (fd : FileDescriptor) (l : Int) :
    WriteProtoFileHeader os fd l = os ++ WriteProtoFileHeader [] fd l := by
  simp [WriteProtoFileHeader, put_eq, openSect_eq]

theorem WriteProtoFileFooter_frame (os : OStream) (l : Int) :
    WriteProtoFileFooter os l = os ++ WriteProtoFileFooter [] l := by
  simp [WriteProtoFileFooter, put_eq, closeSect_eq]

theorem WriteCloseSection_frame (os : OStream) (l : Int) :
    WriteCloseSection os l = os ++ WriteCloseSection [] l := by
  simp [WriteCloseSection, put_eq, closeSect_eq]

theorem WriteInformalTableFooter_frame (os : OStream) :
    WriteInformalTableFooter os = os ++ WriteInformalTableFooter [] := by
  simp [WriteInformalTableFooter, put_eq]

theorem WriteInformalTableFooterSection_frame (os : OStream) (l : Int) :
    WriteInformalTableFooterSection os l = os ++ WriteInformalTableFooterSection [] l := by
  simp [WriteInformalTableFooterSection, put_eq, closeSect_eq]

theorem WriteMessageInformalTableHeader_frame (g : Globals) (os : OStream) (x t c : Str)
    (l : Int) :
    WriteMessageInformalTableHeader g os x t c l
      = os ++ WriteMessageInformalTableHeader g [] x t c l := by
  simp [WriteMessageInformalTableHeader, put_eq, openSect_eq]

theorem WriteEnumInformalTableHeader_frame (g : Globals) (os : OStream) (x t c : Str)
    (l : Int) :
    WriteEnumInformalTableHeader g os x t c l
      = os ++ WriteEnumInformalTableHeader g [] x t c l := by
  simp [WriteEnumInformalTableHeader, put_eq, openSect_eq]

theorem WriteMessageInformalTableEntry_frame (g : Globals) (os : OStream)
    (f t o d c : Str) (a : Bool) :
    WriteMessageInformalTableEntry g os f t o d c a
      = os ++ WriteMessageInformalTableEntry g [] f t o d c a := by
  simp only [WriteMessageInformalTableEntry, put_eq]
  split_ifs <;> simp

theorem WriteEnumInformalTableEntry_frame (g : Globals) (os : OStream)
    (f : Str) (v : Int) (c : Str) (a : Bool) :
    WriteEnumInformalTableEntry g os f v c a
      = os ++ WriteEnumInformalTableEntry g [] f v c a := by
  simp [WriteEnumInformalTableEntry, put_eq]

theorem WriteMessageFieldEntriesFrom_frame (g : Globals) (fds : List FieldDescriptor) :
    ∀ (os : OStream) (i : Nat),
      WriteMessageFieldEntriesFrom g os fds i = os ++ WriteMessageFieldEntriesFrom g [] fds i := by
  induction fds with
  | nil => intro os i; simp [WriteMessageFieldEntriesFrom]
  | cons fd rest ih =>
    intro os i
    simp only [WriteMessageFieldEntriesFrom]
    rw [ih, WriteMessageInformalTableEntry_frame, ih (WriteMessageInformalTableEntry g [] _ _ _ _ _ _)]
    simp

theorem WriteEnumFieldEntriesFrom_frame (g : Globals) (vs : List EnumValueDescriptor) :
    ∀ (os : OStream) (i : Nat),
      WriteEnumFieldEntriesFrom g os vs i = os ++ WriteEnumFieldEntriesFrom g [] vs i := by
  induction vs with
  | nil => intro os i; simp [WriteEnumFieldEntriesFrom]
  | cons v rest ih =>
    intro os i
    simp only [WriteEnumFieldEntriesFrom]
    rw [ih, WriteEnumInformalTableEntry_frame, ih (WriteEnumInformalTableEntry g [] _ _ _ _)]
    simp

theorem WriteEnumTable_frame (g : Globals) (es : List EnumDescriptor) :
    ∀ (os : OStream) (pfx : Str) (sect : Int),
      WriteEnumTable g es os pfx sect = os ++ WriteEnumTable g es [] pfx sect := by
  induction es with
  | nil => intro os pfx sect; simp [WriteEnumTable]
  | cons e rest ih =>
    intro os pfx sect
    simp only [WriteEnumTable, WriteEnumFieldEntries]
    rw [ih, WriteInformalTableFooterSection_frame, WriteEnumFieldEntriesFrom_frame,
      WriteEnumInformalTableHeader_frame]
    conv_rhs => rw [ih, WriteInformalTableFooterSection_frame, WriteEnumFieldEntriesFrom_frame]
    simp

theorem WriteMessageTable_frame (g : Globals) (os : OStream) (m : Descriptor) (n : Str)
    (l : Int) :
    WriteMessageTable g os m n l
      = (os ++ (WriteMessageTable g [] m n l).1, (WriteMessageTable g [] m n l).2) := by
  simp only [WriteMessageTable, WriteMessageFieldEntries]
  split_ifs
  · rw [WriteInformalTableFooter_frame, WriteMessageFieldEntriesFrom_frame,
      WriteMessageInformalTableHeader_frame]
    conv_rhs => rw [WriteInformalTableFooter_frame, WriteMessageFieldEntriesFrom_frame]
    simp
  · simp

mutual
theorem WriteMessage_frame (g : Globals) :
    ∀ (m : Descriptor) (os : OStream) (pfx : Str) (d : Int),
      WriteMessage g os m pfx d = os ++ WriteMessage g [] m pfx d
  | .mk name full_name loc fields enums nested, os, pfx, d => by
    simp only [WriteMessage]
    rw [WriteMessageTable_frame]
    simp only []
    rw [WriteMessageNested_frame g nested, WriteEnumTable_frame]
    conv_rhs => rw [WriteMessageNested_frame g nested, WriteEnumTable_frame]
    split_ifs <;> (try rw [WriteCloseSection_frame]) <;>
      (try conv_rhs => rw [WriteCloseSection_frame]) <;> simp
theorem WriteMessageNested_frame (g : Globals) :
    ∀ (ms : List Descriptor) (os : OStream) (n : Str) (d : Int),
      WriteMessageNested g os ms n d = os ++ WriteMessageNested g [] ms n d
  | [], os, n, d => by simp [WriteMessageNested]
  | m :: ms, os, n, d => by
    simp only [WriteMessageNested]
    rw [WriteMessageNested_frame g ms, WriteMessage_frame g m,
      WriteMessageNested_frame g ms (WriteMessage g [] m n d)]
    simp
end

theorem WriteMessageNested_eq_flatMap (g : Globals) (n : Str) (d : Int) :
    ∀ ms : List Descriptor,
      WriteMessageNested g [] ms n d = ms.flatMap fun m => WriteMessage g [] m n d := by
  intro ms
  induction ms with
  | nil => simp [WriteMessageNested]
  | cons m ms ih =>
    simp only [WriteMessageNested, List.flatMap_cons]
    rw [WriteMessageNested_frame, ih]

theorem WriteEnumTable_eq_flatMap (g : Globals) (pfx : Str) (sect : Int) :
    ∀ es : List EnumDescriptor,
      WriteEnumTable g es [] pfx sect = es.flatMap fun e => WriteEnumTable g [e] [] pfx sect := by
  intro es
  induction es with
  | nil => simp [WriteEnumTable]
  | cons e es ih =>
    simp only [List.flatMap_cons]
    rw [← ih]
    simp only [WriteEnumTable]
    rw [WriteEnumTable_frame]

theorem SectionLevel_idem (n : Int) : SectionLevel (SectionLevel n) = SectionLevel n := by
  unfold SectionLevel MAX_SECTION_LEVEL
  split_ifs <;> omega

theorem WriteMessageInformalTableHeader_shape (g : Globals) (x t c : Str) (l : Int) :
    ∃ body : OStream, WriteMessageInformalTableHeader g [] x t c l
      = Piece.sectOpen (SectionLevel l) :: body ∧ body.all Piece.isText = true := by
  refine ⟨(WriteMessageInformalTableHeader g [] x t c l).tail, ?_, ?_⟩ <;>
    simp [WriteMessageInformalTableHeader, put_eq, openSect_eq, Piece.isText]

theorem WriteMessageInformalTableEntry_isText (g : Globals) (f t o d c : Str) (a : Bool) :
    (WriteMessageInformalTableEntry g [] f t o d c a).all Piece.isText = true := by
  simp only [WriteMessageInformalTableEntry, put_eq]
  split_ifs <;> simp [Piece.isText]

theorem WriteMessageFieldEntriesFrom_isText (g : Globals) (fds : List FieldDescriptor) :
    ∀ i : Nat, (WriteMessageFieldEntriesFrom g [] fds i).all Piece.isText = true := by
  induction fds with
  | nil => intro i; simp [WriteMessageFieldEntriesFrom]
  | cons fd rest ih =>
    intro i
    simp only [WriteMessageFieldEntriesFrom]
    rw [WriteMessageFieldEntriesFrom_frame, List.all_append, ih,
      WriteMessageInformalTableEntry_isText]
    rfl

theorem WriteMessageTable_shape (g : Globals) (m : Descriptor) (n : Str) (d : Int)
    (h : m.field_count > 0) :
    ∃ body : OStream, WriteMessageTable g [] m n d
      = (Piece.sectOpen (SectionLevel d) :: body, true) ∧ body.all Piece.isText = true := by
  obtain ⟨hd, hhd, htext⟩ := WriteMessageInformalTableHeader_shape g
    (replace m.full_name '.' '_') n (GetDescriptorComment m.source_location) (SectionLevel d)
  refine ⟨hd ++ WriteMessageFieldEntriesFrom g [] m.fields 0 ++ WriteInformalTableFooter [], ?_, ?_⟩
  · simp only [WriteMessageTable, WriteMessageFieldEntries, if_pos h]
    rw [WriteInformalTableFooter_frame, WriteMessageFieldEntriesFrom_frame, hhd,
      SectionLevel_idem]
    simp
  · simp only [List.all_append, htext, WriteMessageFieldEntriesFrom_isText]
    simp [WriteInformalTableFooter, put_eq, Piece.isText]

theorem WriteMessageTable_empty (g : Globals) (os : OStream) (m : Descriptor) (n : Str) (d : Int)
    (h : ¬ m.field_count > 0) : WriteMessageTable g os m n d = (os, false) := by
  simp only [WriteMessageTable, if_neg h]

/-- The output of `WriteMessage`, part by part. -/
theorem WriteMessage_output (g : Globals) (os : OStream) (m : Descriptor) (pfx : Str)
    (d : Int) :
    let displayName : Str := if pfx ≠ [] then pfx ++ ".".toList ++ m.name else m.name
    WriteMessage g os m pfx d
      = os
        ++ (if m.field_count > 0 then (WriteMessageTable g [] m displayName d).1 else [])
        ++ (m.enum_types.flatMap fun e => WriteEnumTable g [e] [] displayName (d + 1))
        ++ (m.nested_types.flatMap fun n => WriteMessage g [] n displayName (d + 1))
        ++ (if m.field_count > 0
            then [Piece.sectClose (SectionLevel d), Piece.text "\n".toList] else [])
    ∧ (m.field_count > 0 →
        ∃ body : OStream, (WriteMessageTable g [] m displayName d).1
          = Piece.sectOpen (SectionLevel d) :: body ∧ body.all Piece.isText = true) := by
  cases m with
  | mk name full_name loc fields enums nested =>
    intro displayName
    have hdn : displayName = if pfx ≠ [] then pfx ++ ".".toList ++ name else name := rfl
    clear_value displayName
    constructor
    · rw [WriteMessage_frame]
      simp only [WriteMessage, Descriptor.enum_types, Descriptor.nested_types]
      rw [← hdn, WriteMessageNested_frame, WriteEnumTable_frame, WriteMessageNested_eq_flatMap,
        WriteEnumTable_eq_flatMap]
      by_cases h : (Descriptor.mk name full_name loc fields enums nested).field_count > 0
      · obtain ⟨body, hb, -⟩ := WriteMessageTable_shape g _ displayName d h
        simp only [if_pos h]
        rw [hb]
        simp [WriteCloseSection, put_eq, closeSect_eq]
      · have hb := WriteMessageTable_empty g [] _ displayName d h
        simp only [if_neg h]
        rw [hb]
        simp
    · intro h
      obtain ⟨body, hb, ht⟩ := WriteMessageTable_shape g _ displayName d h
      exact ⟨body, by rw [hb], ht⟩

theorem depthStepsList_le (l : List Descriptor) (n : Descriptor) (h : n ∈ l) :
    n.depthSteps ≤ Descriptor.depthStepsList l := by
  induction l with
  | nil => cases h
  | cons x xs ih =>
    rw [Descriptor.depthStepsList]
    rcases List.mem_cons.mp h with rfl | h
    · exact le_max_left _ _
    · exact le_trans (ih h) (le_max_right _ _)

theorem depthSteps_eq (m : Descriptor) :
    m.depthSteps = Descriptor.depthStepsList m.nested_types + 1 := by
  cases m with
  | mk name full_name loc fields enums nested =>
    rw [Descriptor.depthSteps]
    rfl

theorem depthSteps_nested (m n : Descriptor) (h : n ∈ m.nested_types) :
    n.depthSteps + 1 ≤ m.depthSteps := by
  rw [depthSteps_eq m]
  exact Nat.succ_le_succ (depthStepsList_le _ _ h)

/-- The depths that `WriteMessage` hands on stay in the range of `int` when
the depth it is called with leaves room for the nesting below it. -/
theorem WriteMessage_depths (m : Descriptor) (d : Int)
    (hlo : -2147483648 ≤ d) (hhi : d + m.depthSteps ≤ 2147483647) :
    (-2147483648 ≤ d + 1 ∧ d + 1 ≤ 2147483647)
    ∧ (∀ n ∈ m.nested_types, d + 1 + n.depthSteps ≤ 2147483647) := by
  constructor
  · have := depthSteps_eq m
    omega
  · intro n hn
    have := depthSteps_nested m n hn
    omega

/-- C1. Let `d` be a depth in the range of the 32-bit `int` that the code
passes, with room for the nesting of the message `m`: no `depth+1` evaluated
in the call or under it exceeds 2147483647. Then the output of `WriteMessage`
for `m`, a prefix and `d` is, in this order: the message table (only if `m` has
a field), which opens a section at level `SectionLevel d` and holds no other
section tag; the tables of the enums nested in `m`, one after the other in
declaration order, at depth `d+1` under the display name of `m`; the output of
`WriteMessage` for each nested message, in declaration order, at depth `d+1`
with the display name of `m` as prefix; and the closing tag of level
`SectionLevel d` (only if `m` has a field). A message without fields adds no
table and no tag of its own. The depth `d+1` is in the range of `int` again,
with room for the nesting of each nested message. -/
theorem C1_WriteMessage_output (g : Globals) (os : OStream) (m : Descriptor) (pfx : Str)
    (d : Int) (hlo : -2147483648 ≤ d) (hhi : d + m.depthSteps ≤ 2147483647) :
    let displayName : Str := if pfx ≠ [] then pfx ++ ".".toList ++ m.name else m.name
    WriteMessage g os m pfx d
      = os
        ++ (if m.field_count > 0 then (WriteMessageTable g [] m displayName d).1 else [])
        ++ (m.enum_types.flatMap fun e => WriteEnumTable g [e] [] displayName (d + 1))
        ++ (m.nested_types.flatMap fun n => WriteMessage g [] n displayName (d + 1))
        ++ (if m.field_count > 0
            then [Piece.sectClose (SectionLevel d), Piece.text "\n".toList] else [])
    ∧ (m.field_count > 0 →
        ∃ body : OStream, (WriteMessageTable g [] m displayName d).1
          = Piece.sectOpen (SectionLevel d) :: body ∧ body.all Piece.isText = true)
    ∧ (-2147483648 ≤ d + 1 ∧ d + 1 ≤ 2147483647)
    ∧ (∀ n ∈ m.nested_types, d + 1 + n.depthSteps ≤ 2147483647) :=
  ⟨(WriteMessage_output g os m pfx d).1, (WriteMessage_output g os m pfx d).2,
    WriteMessage_depths m d hlo hhi⟩

/-- C1 at the message `Outer` and the greatest depth that leaves room for its
nested message: the table of `Outer`, the output for `Inner` at depth
2147483646, the closing tag of level 5. -/
theorem C1_WriteMessage_output_witness :
    (-2147483648 : Int) ≤ 2147483645
    ∧ (2147483645 : Int) + messageWithNested.depthSteps ≤ 2147483647
    ∧ WriteMessage {} [] messageWithNested [] 2147483645
      = (WriteMessageTable {} [] messageWithNested "Outer".toList 2147483645).1
        ++ (messageWithNested.nested_types.flatMap fun n =>
              WriteMessage {} [] n "Outer".toList 2147483646)
        ++ [Piece.sectClose 5, Piece.text "\n".toList] :=
  ⟨by decide, by decide,
    (C1_WriteMessage_output {} [] messageWithNested [] 2147483645 (by decide) (by decide)).1⟩

/-! ## Balance of the section tags -/

theorem sectionRun_append (a b : OStream) :
    ∀ stack : List Int,
      sectionRun stack (a ++ b) = (sectionRun stack a).bind fun s => sectionRun s b := by
  induction a with
  | nil => intro stack; simp [sectionRun]
  | cons p ps ih =>
    intro stack
    simp only [List.cons_append, sectionRun]
    cases sectionStep stack p with
    | none => simp
    | some s => simp [ih]

theorem sectionRun_isText (a : OStream) (h : a.all Piece.isText = true) :
    ∀ stack : List Int, sectionRun stack a = some stack := by
  induction a with
  | nil => intro stack; simp [sectionRun]
  | cons p ps ih =>
    intro stack
    simp only [List.all_cons, Bool.and_eq_true] at h
    cases p with
    | text s => simp [sectionRun, sectionStep, ih h.2]
    | sectOpen l => simp [Piece.isText] at h
    | sectClose l => simp [Piece.isText] at h

theorem count_isText (a : OStream) (h : a.all Piece.isText = true) (p : Piece)
    (hp : p.isText = false) : a.count p = 0 := by
  rw [List.count_eq_zero]
  intro hmem
  have := List.all_eq_true.mp h p hmem
  rw [hp] at this
  exact Bool.noConfusion this

theorem balanced_nil : Balanced [] := by
  constructor
  · intro stack; rfl
  · intro level; rfl

theorem balanced_of_isText {a : OStream} (h : a.all Piece.isText = true) : Balanced a := by
  constructor
  · exact sectionRun_isText a h
  · intro level
    rw [count_isText a h (Piece.sectOpen level) rfl, count_isText a h (Piece.sectClose level) rfl]

theorem balanced_append {a b : OStream} (ha : Balanced a) (hb : Balanced b) :
    Balanced (a ++ b) := by
  constructor
  · intro stack
    rw [sectionRun_append, ha.1 stack]
    exact hb.1 stack
  · intro level
    rw [List.count_append, List.count_append, ha.2 level, hb.2 level]

theorem balanced_wrap {a : OStream} (level : Int) (ha : Balanced a) :
    Balanced (Piece.sectOpen level :: (a ++ [Piece.sectClose level])) := by
  constructor
  · intro stack
    simp only [sectionRun, sectionStep]
    rw [sectionRun_append, ha.1]
    simp [sectionRun, sectionStep]
  · intro l
    simp only [List.count_cons, List.count_append, List.count_nil, ha.2 l]
    by_cases h : level = l <;> simp [h]

theorem balanced_flatMap {α : Type} (xs : List α) (f : α → OStream)
    (h : ∀ x ∈ xs, Balanced (f x)) : Balanced (xs.flatMap f) := by
  induction xs with
  | nil => exact balanced_nil
  | cons x xs ih =>
    rw [List.flatMap_cons]
    exact balanced_append (h x (List.mem_cons_self x xs))
      (ih fun y hy => h y (List.mem_cons_of_mem x hy))

theorem WriteEnumInformalTableHeader_shape (g : Globals) (x t c : Str) (l : Int) :
    ∃ body : OStream, WriteEnumInformalTableHeader g [] x t c l
      = Piece.sectOpen (SectionLevel l) :: body ∧ body.all Piece.isText = true := by
  refine ⟨(WriteEnumInformalTableHeader g [] x t c l).tail, ?_, ?_⟩ <;>
    simp [WriteEnumInformalTableHeader, put_eq, openSect_eq, Piece.isText]

theorem WriteEnumFieldEntriesFrom_isText (g : Globals) (vs : List EnumValueDescriptor) :
    ∀ i : Nat, (WriteEnumFieldEntriesFrom g [] vs i).all Piece.isText = true := by
  induction vs with
  | nil => intro i; simp [WriteEnumFieldEntriesFrom]
  | cons v rest ih =>
    intro i
    simp only [WriteEnumFieldEntriesFrom]
    rw [WriteEnumFieldEntriesFrom_frame, List.all_append, ih]
    simp [WriteEnumInformalTableEntry, put_eq, Piece.isText]

/-- One enum table: an opening tag of level `SectionLevel sect`, text, the
closing tag of the same level, and a line end. -/
theorem WriteEnumTable_single_shape (g : Globals) (e : EnumDescriptor) (pfx : Str) (sect : Int) :
    ∃ body : OStream, WriteEnumTable g [e] [] pfx sect
      = Piece.sectOpen (SectionLevel sect)
          :: (body ++ [Piece.sectClose (SectionLevel sect)]) ++ [Piece.text "\n".toList]
      ∧ body.all Piece.isText = true := by
  obtain ⟨hd, hhd, htext⟩ := WriteEnumInformalTableHeader_shape g
    (replace e.full_name '.' '_')
    (if pfx ≠ [] then pfx ++ ".".toList ++ e.name else e.name)
    (GetDescriptorComment e.source_location) sect
  refine ⟨hd ++ WriteEnumFieldEntriesFrom g [] e.values 0
    ++ [Piece.text ("</tbody>".toList ++ "\n".toList ++ "</tgroup>".toList ++ "\n".toList
      ++ "</informaltable>".toList ++ "\n".toList)], ?_, ?_⟩
  · simp only [WriteEnumTable, WriteEnumFieldEntries]
    rw [WriteInformalTableFooterSection_frame, WriteEnumFieldEntriesFrom_frame, hhd]
    simp [WriteInformalTableFooterSection, put_eq, closeSect_eq]
  · simp only [List.all_append, htext, WriteEnumFieldEntriesFrom_isText]
    simp [Piece.isText]

theorem WriteEnumTable_balanced (g : Globals) (es : List EnumDescriptor) (pfx : Str)
    (sect : Int) : Balanced (WriteEnumTable g es [] pfx sect) := by
  rw [WriteEnumTable_eq_flatMap]
  apply balanced_flatMap
  intro e _
  obtain ⟨body, hb, ht⟩ := WriteEnumTable_single_shape g e pfx sect
  rw [hb]
  exact balanced_append (balanced_wrap _ (balanced_of_isText ht)) (balanced_of_isText rfl)

mutual
theorem WriteMessage_balanced (g : Globals) :
    ∀ (m : Descriptor) (pfx : Str) (d : Int), Balanced (WriteMessage g [] m pfx d)
  | .mk name full_name loc fields enums nested, pfx, d => by
    have key := (WriteMessage_output g [] (.mk name full_name loc fields enums nested) pfx d)
    simp only [Descriptor.name, Descriptor.enum_types, Descriptor.nested_types] at key
    obtain ⟨hout, hshape⟩ := key
    rw [hout]
    have hn := WriteMessageNested_balanced g nested
      (if pfx ≠ [] then pfx ++ ".".toList ++ name else name) (d + 1)
    rw [WriteMessageNested_eq_flatMap] at hn
    have he := WriteEnumTable_balanced g enums
      (if pfx ≠ [] then pfx ++ ".".toList ++ name else name) (d + 1)
    rw [WriteEnumTable_eq_flatMap] at he
    by_cases h : (Descriptor.mk name full_name loc fields enums nested).field_count > 0
    · obtain ⟨body, hb, ht⟩ := hshape h
      simp only [if_pos h, hb, List.nil_append]
      have : Balanced (Piece.sectOpen (SectionLevel d) ::
          ((body ++ (enums.flatMap fun e => WriteEnumTable g [e] []
              (if pfx ≠ [] then pfx ++ ".".toList ++ name else name) (d + 1))
            ++ (nested.flatMap fun n => WriteMessage g [] n
              (if pfx ≠ [] then pfx ++ ".".toList ++ name else name) (d + 1)))
            ++ [Piece.sectClose (SectionLevel d)])) :=
        balanced_wrap _ (balanced_append (balanced_append (balanced_of_isText ht) he) hn)
      have h2 := balanced_append this (balanced_of_isText (a := [Piece.text "\n".toList]) rfl)
      simpa using h2
    · simp only [if_neg h, List.nil_append, List.append_nil]
      exact balanced_append he hn
theorem WriteMessageNested_balanced (g : Globals) :
    ∀ (ms : List Descriptor) (n : Str) (d : Int), Balanced (WriteMessageNested g [] ms n d)
  | [], n, d => by simp only [WriteMessageNested]; exact balanced_nil
  | m :: ms, n, d => by
    simp only [WriteMessageNested]
    rw [WriteMessageNested_frame]
    exact balanced_append (WriteMessage_balanced g m n d) (WriteMessageNested_balanced g ms n d)
end

theorem GenerateMessages_frame (g : Globals) (ms : List Descriptor) :
    ∀ os : OStream, GenerateMessages g os ms = os ++ GenerateMessages g [] ms := by
  induction ms with
  | nil => intro os; simp [GenerateMessages]
  | cons m ms ih =>
    intro os
    simp only [GenerateMessages]
    rw [ih, WriteMessage_frame, ih (WriteMessage g [] m _ _)]
    simp

theorem GenerateMessages_eq_flatMap (g : Globals) (ms : List Descriptor) :
    GenerateMessages g [] ms
      = ms.flatMap fun m => WriteMessage g [] m [] (g.s_startingSectionLevel + 1) := by
  induction ms with
  | nil => simp [GenerateMessages]
  | cons m ms ih =>
    simp only [GenerateMessages, List.flatMap_cons]
    rw [GenerateMessages_frame, ih]

/-- The document of one file, part by part. -/
theorem GenerateStream_eq (g : Globals) (file : FileDescriptor) :
    GenerateStream g file
      = [Piece.sectOpen (SectionLevel g.s_startingSectionLevel),
          Piece.text ("<title> File: ".toList ++ file.name ++ "</title>".toList ++ "\n".toList)]
        ++ (file.message_types.flatMap fun m =>
              WriteMessage g [] m [] (g.s_startingSectionLevel + 1))
        ++ (file.enum_types.flatMap fun e =>
              WriteEnumTable g [e] [] [] (g.s_startingSectionLevel + 1))
        ++ [Piece.sectClose (SectionLevel g.s_startingSectionLevel), Piece.text "\n".toList] := by
  simp only [GenerateStream]
  rw [WriteProtoFileFooter_frame, WriteEnumTable_frame, GenerateMessages_frame,
    GenerateMessages_eq_flatMap, WriteEnumTable_eq_flatMap]
  simp [WriteProtoFileHeader, WriteProtoFileFooter, put_eq, openSect_eq, closeSect_eq]

theorem GenerateStream_balanced (g : Globals) (file : FileDescriptor) :
    Balanced (GenerateStream g file) := by
  rw [GenerateStream_eq]
  have hm : Balanced (file.message_types.flatMap fun m =>
      WriteMessage g [] m [] (g.s_startingSectionLevel + 1)) :=
    balanced_flatMap _ _ fun m _ => WriteMessage_balanced g m [] _
  have he : Balanced (file.enum_types.flatMap fun e =>
      WriteEnumTable g [e] [] [] (g.s_startingSectionLevel + 1)) :=
    balanced_flatMap _ _ fun e _ => WriteEnumTable_balanced g [e] [] _
  have htitle : Balanced [Piece.text ("<title> File: ".toList ++ file.name
      ++ "</title>".toList ++ "\n".toList)] := balanced_of_isText rfl
  have h1 := balanced_wrap (SectionLevel g.s_startingSectionLevel)
    (balanced_append (balanced_append htitle hm) he)
  have h2 := balanced_append h1 (balanced_of_isText (a := [Piece.text "\n".toList]) rfl)
  simpa using h2

/-- C2. The section tags the walker writes are balanced, for every schema tree,
every prefix and every depth (any integer): the output of `WriteMessage`, the
output of `WriteEnumTable` and the whole document of a file, read against a
stack of open sections, close with every closing tag the innermost open section,
which has the level of the tag, and leave the stack as it was (empty, for the
document of a file); and the tags `<sectL>` and `</sectL>` are equally many for
every level `L`. Messages without fields change nothing. -/
theorem C2_section_tags_balanced (g : Globals) (file : FileDescriptor) :
    (∀ (m : Descriptor) (pfx : Str) (d : Int), Balanced (WriteMessage g [] m pfx d))
    ∧ (∀ (es : List EnumDescriptor) (pfx : Str) (d : Int),
        Balanced (WriteEnumTable g es [] pfx d))
    ∧ sectionRun [] (GenerateStream g file) = some []
    ∧ ∀ level : Int,
        (GenerateStream g file).count (Piece.sectOpen level)
          = (GenerateStream g file).count (Piece.sectClose level) :=
  ⟨WriteMessage_balanced g, WriteEnumTable_balanced g,
    (GenerateStream_balanced g file).1 [], (GenerateStream_balanced g file).2⟩

/-! ## The sanitizer -/

theorem sanitizeLoop_eq (g : Globals) (s : Str) :
    ∀ acc : Str, sanitizeLoop g s acc = acc ++ s.flatMap (sanitizeChar g) := by
  induction s with
  | nil => intro acc; simp [sanitizeLoop]
  | cons c cs ih => intro acc; simp [sanitizeLoop, ih]

theorem SanitizeCommentForXML_eq (g : Globals) (s : Str) :
    SanitizeCommentForXML g s = s.flatMap (sanitizeChar g) := by
  simp [SanitizeCommentForXML, sanitizeLoop_eq]

theorem sanitizeChar_eq_spec (g : Globals) (c : Char) :
    sanitizeChar g c = specCharImage g.s_preserve_comment_line_breaks c := by
  by_cases h1 : c = '&'
  · subst h1; rfl
  by_cases h2 : c = '"'
  · subst h2; rfl
  by_cases h3 : c = '\''
  · subst h3; rfl
  by_cases h4 : c = '<'
  · subst h4; rfl
  by_cases h5 : c = '>'
  · subst h5; rfl
  by_cases h6 : c = '\r'
  · subst h6; rfl
  by_cases h7 : c = '\x00'
  · subst h7; rfl
  by_cases h8 : c = '\n'
  · subst h8; rfl
  have h7b : c ≠ Char.ofNat 0 := h7
  unfold specCharImage
  split <;> first | contradiction | simp [sanitizeChar, h1, h2, h3, h4, h5, h6, h7b, h8]

/-- C3. `SanitizeCommentForXML` is the concatenation, in order, of the images of
the characters of its input under the character map of the specification, and
so it distributes over concatenation. -/
theorem C3_sanitize_is_charwise (g : Globals) (s : Str) :
    SanitizeCommentForXML g s = s.flatMap (specCharImage g.s_preserve_comment_line_breaks)
    ∧ ∀ a b : Str, SanitizeCommentForXML g (a ++ b)
        = SanitizeCommentForXML g a ++ SanitizeCommentForXML g b := by
  constructor
  · rw [SanitizeCommentForXML_eq]
    congr 1
    funext c
    exact sanitizeChar_eq_spec g c
  · intro a b
    simp [SanitizeCommentForXML_eq]

theorem flatMap_occurrence (f : Char → Str) (c : Char) :
    ∀ (s pre suf : Str), s.flatMap f = pre ++ c :: suf →
      ∃ (s1 : Str) (x : Char) (s2 p q : Str), s = s1 ++ x :: s2 ∧ f x = p ++ c :: q
        ∧ pre = s1.flatMap f ++ p ∧ suf = q ++ s2.flatMap f := by
  intro s
  induction s with
  | nil => intro pre suf h; simp at h
  | cons x xs ih =>
    intro pre suf h
    rw [List.flatMap_cons, List.append_eq_append_iff] at h
    rcases h with ⟨a, hpre, hxs⟩ | ⟨b, hfx, hb⟩
    · obtain ⟨s1, y, s2, p, q, hs, hfy, hp, hq⟩ := ih a suf hxs
      exact ⟨x :: s1, y, s2, p, q, by simp [hs], hfy, by simp [hpre, hp], hq⟩
    · cases b with
      | nil =>
        simp only [List.nil_append] at hb
        obtain ⟨s1, y, s2, p, q, hs, hfy, hp, hq⟩ := ih [] suf (by simpa using hb.symm)
        refine ⟨x :: s1, y, s2, p, q, by simp [hs], hfy, ?_, hq⟩
        simp only [List.append_nil] at hfx
        simp [hfx, ← hp]
      | cons b0 b =>
        simp only [List.cons_append, List.cons.injEq] at hb
        obtain ⟨hc, hsuf⟩ := hb
        subst hc
        exact ⟨[], x, xs, pre, b, by simp, hfx, by simp, hsuf⟩

theorem sanitizeChar_amp (g : Globals) (x : Char) (p q : Str)
    (h : sanitizeChar g x = p ++ '&' :: q) : p = [] ∧ q ∈ escapeTails := by
  unfold sanitizeChar at h
  split_ifs at h <;>
    simp [List.cons_eq_append_iff, List.nil_eq_append_iff] at h
  all_goals first
    | (obtain ⟨rfl, rfl⟩ := h; simp [escapeTails])
    | (obtain ⟨-, rfl, -⟩ := h; contradiction)

theorem sanitizeChar_lt (g : Globals) (x : Char) (p q : Str)
    (h : sanitizeChar g x = p ++ '<' :: q) :
    g.s_preserve_comment_line_breaks = true ∧ p = [] ∧ q = "sbr/>".toList := by
  unfold sanitizeChar at h
  split_ifs at h <;>
    simp [List.cons_eq_append_iff, List.nil_eq_append_iff] at h
  all_goals first
    | (obtain ⟨rfl, rfl⟩ := h; simp_all)
    | (obtain ⟨-, rfl, -⟩ := h; contradiction)

theorem sanitizeChar_gt (g : Globals) (x : Char) (p q : Str)
    (h : sanitizeChar g x = p ++ '>' :: q) :
    g.s_preserve_comment_line_breaks = true ∧ p = "<sbr/".toList ∧ q = [] := by
  unfold sanitizeChar at h
  split_ifs at h <;>
    simp [List.cons_eq_append_iff, List.nil_eq_append_iff] at h
  all_goals first
    | (obtain ⟨-, rfl, -⟩ := h; contradiction)
    | (obtain ⟨_, rfl, _, rfl, _, rfl, _, rfl, _, rfl, rfl, rfl⟩ := h; simp_all)

theorem mem_sanitizeChar (g : Globals) (x c : Char) (h : c ∈ sanitizeChar g x) :
    c ≠ '"' ∧ c ≠ '\'' ∧ (g.s_preserve_comment_line_breaks = false → c ≠ '<' ∧ c ≠ '>') := by
  unfold sanitizeChar at h
  split_ifs at h <;> simp at h
  all_goals (rcases h with rfl | rfl | rfl | rfl | rfl | rfl <;> simp_all)

/-- C4, as the claim states it, fails: with line-break preservation enabled a
newline is written as `<sbr/>`, so `<` and `>` do occur in the result. -/
theorem C4_counterexample :
    SanitizeCommentForXML { s_preserve_comment_line_breaks := true } "a\nb".toList
      = "a<sbr/>b".toList
    ∧ '<' ∈ SanitizeCommentForXML { s_preserve_comment_line_breaks := true } "a\nb".toList
    ∧ '>' ∈ SanitizeCommentForXML { s_preserve_comment_line_breaks := true } "a\nb".toList := by
  decide

/-- C4, amended. In the result of `SanitizeCommentForXML`, for either setting of
line-break preservation: `"` and `'` do not occur; with preservation disabled
`<` and `>` do not occur either; with preservation enabled every `<` is the
first and every `>` the last character of a line-break marker `<sbr/>`; and every
`&` is the first character of one of `&amp;` `&quot;` `&apos;` `&lt;` `&gt;`. -/
theorem C4_sanitize_no_raw_markup (g : Globals) (s : Str) :
    '"' ∉ SanitizeCommentForXML g s
    ∧ '\'' ∉ SanitizeCommentForXML g s
    ∧ (g.s_preserve_comment_line_breaks = false →
        '<' ∉ SanitizeCommentForXML g s ∧ '>' ∉ SanitizeCommentForXML g s)
    ∧ (∀ pre suf : Str, SanitizeCommentForXML g s = pre ++ '<' :: suf →
        g.s_preserve_comment_line_breaks = true ∧ "sbr/>".toList <+: suf)
    ∧ (∀ pre suf : Str, SanitizeCommentForXML g s = pre ++ '>' :: suf →
        g.s_preserve_comment_line_breaks = true ∧ "<sbr/".toList <:+ pre)
    ∧ (∀ pre suf : Str, SanitizeCommentForXML g s = pre ++ '&' :: suf →
        ∃ t ∈ escapeTails, t <+: suf) := by
  rw [SanitizeCommentForXML_eq]
  refine ⟨?_, ?_, ?_, ?_, ?_, ?_⟩
  · intro h
    obtain ⟨x, -, hx⟩ := List.mem_flatMap.mp h
    exact (mem_sanitizeChar g x _ hx).1 rfl
  · intro h
    obtain ⟨x, -, hx⟩ := List.mem_flatMap.mp h
    exact (mem_sanitizeChar g x _ hx).2.1 rfl
  · intro hp
    constructor
    · intro h
      obtain ⟨x, -, hx⟩ := List.mem_flatMap.mp h
      exact ((mem_sanitizeChar g x _ hx).2.2 hp).1 rfl
    · intro h
      obtain ⟨x, -, hx⟩ := List.mem_flatMap.mp h
      exact ((mem_sanitizeChar g x _ hx).2.2 hp).2 rfl
  · intro pre suf h
    obtain ⟨s1, x, s2, p, q, -, hfx, -, hq⟩ := flatMap_occurrence _ _ _ _ _ h
    obtain ⟨hg, -, rfl⟩ := sanitizeChar_lt g x p q hfx
    exact ⟨hg, by rw [hq]; exact List.prefix_append _ _⟩
  · intro pre suf h
    obtain ⟨s1, x, s2, p, q, -, hfx, hp, -⟩ := flatMap_occurrence _ _ _ _ _ h
    obtain ⟨hg, rfl, -⟩ := sanitizeChar_gt g x p q hfx
    exact ⟨hg, by rw [hp]; exact List.suffix_append _ _⟩
  · intro pre suf h
    obtain ⟨s1, x, s2, p, q, -, hfx, -, hq⟩ := flatMap_occurrence _ _ _ _ _ h
    obtain ⟨-, hmem⟩ := sanitizeChar_amp g x p q hfx
    exact ⟨q, hmem, by rw [hq]; exact List.prefix_append _ _⟩

/-! ## Default values of bytes fields, anchors -/

/-- C5, the code at the failing input. The default `[0x01, 0xFF]` of a bytes
field is rendered as `01 FFFFFFFF `, not as `01 FF `: the byte `0xFF` is a
negative `char`, it is converted to the `int` -1 and printed as the eight hex
digits of the `unsigned int` `2^32 - 1`; `setw(2)` does not shorten it. -/
theorem C5_bytes_default_sign_extended :
    MakeDefaultValueString {}
        { name := "b".toList, label := Label.LABEL_OPTIONAL, type := FieldType.TYPE_BYTES,
          has_default_value := true, default_value := DefaultValue.string ['\x01', '\xff'] }
      = "\n[default = 01 FFFFFFFF  ]".toList
    ∧ hexBytesLoop ['\x01', '\xff'] [] = "01 FFFFFFFF ".toList
    ∧ hexBytesLoop ['\x01', '\x7f'] [] = "01 7F ".toList := by
  decide

/-- C6, the code at the failing input. The qualified names `a.b` (message `b`
nested in message `a`) and `a_b` (a top-level message) are different and have
the same anchor `a_b`: the same `xml:id` and the same link target. -/
theorem C6_anchor_collision :
    "a.b".toList ≠ "a_b".toList
    ∧ replace "a.b".toList '.' '_' = replace "a_b".toList '.' '_'
    ∧ MakeXLink "a.b".toList "x".toList = MakeXLink "a_b".toList "x".toList := by
  decide

/-! ## Section levels -/

theorem clamped_nil : Clamped [] := by
  intro p hp; simp at hp

theorem clamped_of_isText {a : OStream} (h : a.all Piece.isText = true) : Clamped a := by
  intro p hp level hl
  have := List.all_eq_true.mp h p hp
  cases p <;> simp [Piece.isText, Piece.level] at this hl

theorem clamped_append {a b : OStream} (ha : Clamped a) (hb : Clamped b) : Clamped (a ++ b) := by
  intro p hp
  rcases List.mem_append.mp hp with h | h
  · exact ha p h
  · exact hb p h

theorem clamped_sectOpen (n : Int) : Clamped [Piece.sectOpen (SectionLevel n)] := by
  intro p hp level hl
  simp only [List.mem_singleton] at hp
  subst hp
  simp only [Piece.level, Option.some.injEq] at hl
  exact ⟨n, hl.symm⟩

theorem clamped_sectClose (n : Int) : Clamped [Piece.sectClose (SectionLevel n)] := by
  intro p hp level hl
  simp only [List.mem_singleton] at hp
  subst hp
  simp only [Piece.level, Option.some.injEq] at hl
  exact ⟨n, hl.symm⟩

theorem clamped_flatMap {α : Type} (xs : List α) (f : α → OStream)
    (h : ∀ x ∈ xs, Clamped (f x)) : Clamped (xs.flatMap f) := by
  intro p hp
  obtain ⟨x, hx, hpx⟩ := List.mem_flatMap.mp hp
  exact h x hx p hpx

theorem WriteEnumTable_clamped (g : Globals) (es : List EnumDescriptor) (pfx : Str)
    (sect : Int) : Clamped (WriteEnumTable g es [] pfx sect) := by
  rw [WriteEnumTable_eq_flatMap]
  apply clamped_flatMap
  intro e _
  obtain ⟨body, hb, ht⟩ := WriteEnumTable_single_shape g e pfx sect
  rw [hb]
  have h1 : Clamped ([Piece.sectOpen (SectionLevel sect)] ++ body
      ++ [Piece.sectClose (SectionLevel sect)] ++ [Piece.text "\n".toList]) :=
    clamped_append (clamped_append (clamped_append (clamped_sectOpen _) (clamped_of_isText ht))
      (clamped_sectClose _)) (clamped_of_isText rfl)
  simpa using h1

mutual
theorem WriteMessage_clamped (g : Globals) :
    ∀ (m : Descriptor) (pfx : Str) (d : Int), Clamped (WriteMessage g [] m pfx d)
  | .mk name full_name loc fields enums nested, pfx, d => by
    have key := (WriteMessage_output g [] (.mk name full_name loc fields enums nested) pfx d)
    simp only [Descriptor.name, Descriptor.enum_types, Descriptor.nested_types] at key
    obtain ⟨hout, hshape⟩ := key
    rw [hout]
    have hn := WriteMessageNested_clamped g nested
      (if pfx ≠ [] then pfx ++ ".".toList ++ name else name) (d + 1)
    rw [WriteMessageNested_eq_flatMap] at hn
    have he := WriteEnumTable_clamped g enums
      (if pfx ≠ [] then pfx ++ ".".toList ++ name else name) (d + 1)
    rw [WriteEnumTable_eq_flatMap] at he
    by_cases h : (Descriptor.mk name full_name loc fields enums nested).field_count > 0
    · obtain ⟨body, hb, ht⟩ := hshape h
      simp only [if_pos h, hb, List.nil_append]
      have h1 : Clamped ([Piece.sectOpen (SectionLevel d)] ++ body) :=
        clamped_append (clamped_sectOpen _) (clamped_of_isText ht)
      have h2 : Clamped ([Piece.sectClose (SectionLevel d)] ++ [Piece.text "\n".toList]) :=
        clamped_append (clamped_sectClose _) (clamped_of_isText rfl)
      exact clamped_append (clamped_append (clamped_append h1 he) hn) h2
    · simp only [if_neg h, List.nil_append, List.append_nil]
      exact clamped_append he hn
theorem WriteMessageNested_clamped (g : Globals) :
    ∀ (ms : List Descriptor) (n : Str) (d : Int), Clamped (WriteMessageNested g [] ms n d)
  | [], n, d => by simp only [WriteMessageNested]; exact clamped_nil
  | m :: ms, n, d => by
    simp only [WriteMessageNested]
    rw [WriteMessageNested_frame]
    exact clamped_append (WriteMessage_clamped g m n d) (WriteMessageNested_clamped g ms n d)
end

theorem GenerateStream_clamped (g : Globals) (file : FileDescriptor) :
    Clamped (GenerateStream g file) := by
  rw [GenerateStream_eq]
  have hm : Clamped (file.message_types.flatMap fun m =>
      WriteMessage g [] m [] (g.s_startingSectionLevel + 1)) :=
    clamped_flatMap _ _ fun m _ => WriteMessage_clamped g m [] _
  have he : Clamped (file.enum_types.flatMap fun e =>
      WriteEnumTable g [e] [] [] (g.s_startingSectionLevel + 1)) :=
    clamped_flatMap _ _ fun e _ => WriteEnumTable_clamped g [e] [] _
  have h1 : Clamped [Piece.sectOpen (SectionLevel g.s_startingSectionLevel),
      Piece.text ("<title> File: ".toList ++ file.name ++ "</title>".toList ++ "\n".toList)] :=
    clamped_append (clamped_sectOpen _) (clamped_of_isText (a := [Piece.text _]) rfl)
  have h2 : Clamped [Piece.sectClose (SectionLevel g.s_startingSectionLevel),
      Piece.text "\n".toList] :=
    clamped_append (clamped_sectClose _) (clamped_of_isText (a := [Piece.text _]) rfl)
  exact clamped_append (clamped_append (clamped_append h1 hm) he) h2

theorem WriteScalarValueTableColumns_frame (cells : List Str) :
    ∀ os : OStream,
      WriteScalarValueTableColumns os cells = os ++ WriteScalarValueTableColumns [] cells := by
  induction cells with
  | nil => intro os; simp [WriteScalarValueTableColumns]
  | cons c cs ih =>
    intro os
    simp only [WriteScalarValueTableColumns, put_eq]
    rw [ih, ih ([] ++ _)]
    simp

theorem WriteScalarValueTableColumns_isText (cells : List Str) :
    (WriteScalarValueTableColumns [] cells).all Piece.isText = true := by
  induction cells with
  | nil => rfl
  | cons c cs ih =>
    simp only [WriteScalarValueTableColumns, put_eq]
    rw [WriteScalarValueTableColumns_frame, List.all_append, ih]
    rfl

theorem WriteScalarValueTableRows_frame (g : Globals) (rows : List (List Str)) :
    ∀ (os : OStream) (i : Nat),
      WriteScalarValueTableRows g os rows i = os ++ WriteScalarValueTableRows g [] rows i := by
  induction rows with
  | nil => intro os i; simp [WriteScalarValueTableRows]
  | cons r rs ih =>
    intro os i
    simp only [WriteScalarValueTableRows, put_eq]
    rw [ih, WriteScalarValueTableColumns_frame]
    conv_rhs => rw [ih, WriteScalarValueTableColumns_frame]
    simp

theorem WriteScalarValueTableRows_isText (g : Globals) (rows : List (List Str)) :
    ∀ i : Nat, (WriteScalarValueTableRows g [] rows i).all Piece.isText = true := by
  induction rows with
  | nil => intro i; rfl
  | cons r rs ih =>
    intro i
    simp only [WriteScalarValueTableRows, put_eq]
    rw [WriteScalarValueTableRows_frame, WriteScalarValueTableColumns_frame]
    simp only [List.all_append, ih, WriteScalarValueTableColumns_isText]
    rfl

theorem WriteScalarValueTable_clamped (g : Globals) :
    Clamped (WriteScalarValueTable g []) := by
  simp only [WriteScalarValueTable, put_eq, openSect_eq, closeSect_eq]
  rw [WriteScalarValueTableRows_frame]
  have h1 : Clamped [Piece.sectOpen 1] := clamped_sectOpen 1
  have h2 : Clamped [Piece.sectClose 1] := clamped_sectClose 1
  refine clamped_append (clamped_append (clamped_append (clamped_append ?_ ?_) ?_) h2) ?_
  · exact clamped_append (clamped_append clamped_nil h1) (clamped_of_isText rfl)
  · exact clamped_of_isText (WriteScalarValueTableRows_isText g _ _)
  · exact clamped_of_isText rfl
  · exact clamped_of_isText rfl

/-- The text of a section tag of a clamped level: `<sectL>` or `</sectL>` with
one digit `L` from 1 to 5. -/
theorem sectionTag_text (n : Int) :
    ∃ c ∈ ['1', '2', '3', '4', '5'],
      (Piece.sectOpen (SectionLevel n)).str = "<sect".toList ++ [c] ++ ">".toList
      ∧ (Piece.sectClose (SectionLevel n)).str = "</sect".toList ++ [c] ++ ">".toList := by
  have h1 : 1 ≤ SectionLevel n := by
    unfold SectionLevel MAX_SECTION_LEVEL; split_ifs <;> omega
  have h2 : SectionLevel n ≤ 5 := by
    unfold SectionLevel MAX_SECTION_LEVEL; split_ifs <;> omega
  generalize SectionLevel n = k at h1 h2
  interval_cases k
  · exact ⟨'1', by decide, by decide, by decide⟩
  · exact ⟨'2', by decide, by decide, by decide⟩
  · exact ⟨'3', by decide, by decide, by decide⟩
  · exact ⟨'4', by decide, by decide, by decide⟩
  · exact ⟨'5', by decide, by decide, by decide⟩

/-- C7. `SectionLevel n` is 5 when `n > 5`, 1 when `n ≤ 0` and `n` otherwise; so
it lies in `[1, 5]`, is idempotent and monotone, and the tag written for it is
`<sectL>` / `</sectL>` with one digit `L` from 1 to 5. Every section tag in the
document of a file has a level that `SectionLevel` returned for the requested
level; the only other section, that of the scalar value table, has the constant
level 1, which is a value of the clamp. -/
theorem C7_SectionLevel_clamp (n : Int) :
    SectionLevel n = (if n > 5 then 5 else if n ≤ 0 then 1 else n)
    ∧ 1 ≤ SectionLevel n ∧ SectionLevel n ≤ 5
    ∧ SectionLevel (SectionLevel n) = SectionLevel n
    ∧ (∀ m : Int, n ≤ m → SectionLevel n ≤ SectionLevel m)
    ∧ (∃ c ∈ ['1', '2', '3', '4', '5'],
        (Piece.sectOpen (SectionLevel n)).str = "<sect".toList ++ [c] ++ ">".toList
        ∧ (Piece.sectClose (SectionLevel n)).str = "</sect".toList ++ [c] ++ ">".toList)
    ∧ (∀ (g : Globals) (file : FileDescriptor), Clamped (GenerateStream g file))
    ∧ (∀ g : Globals, Clamped (WriteScalarValueTable g [])) := by
  refine ⟨rfl, ?_, ?_, SectionLevel_idem n, ?_, sectionTag_text n, GenerateStream_clamped,
    WriteScalarValueTable_clamped⟩
  · unfold SectionLevel MAX_SECTION_LEVEL; split_ifs <;> omega
  · unfold SectionLevel MAX_SECTION_LEVEL; split_ifs <;> omega
  · intro m h; unfold SectionLevel MAX_SECTION_LEVEL; split_ifs <;> omega

/-! ## The constructor -/

theorem loadCustomTemplate_keeps (fs : FileSystem) (g g1 : Globals)
    (h : loadCustomTemplate fs g = some g1) :
    g1.s_docbookOptions = g.s_docbookOptions
    ∧ g1.s_startingSectionLevel = g.s_startingSectionLevel := by
  unfold loadCustomTemplate at h
  split at h
  · simp only [Option.some.injEq] at h
    subst h
    exact ⟨rfl, rfl⟩
  · simp only [] at h
    split_ifs at h
    · split at h
      · exact Option.noConfusion h
      · simp only [Option.some.injEq] at h
        subst h
        exact ⟨rfl, rfl⟩
    · simp only [Option.some.injEq] at h
      subst h
      exact ⟨rfl, rfl⟩

theorem loadStartingSectionLevel_level (g : Globals) :
    (loadStartingSectionLevel g).s_startingSectionLevel
      = match g.s_docbookOptions.lookup OPTION_NAME_STARTING_SECTION_LEVEL with
        | none => g.s_startingSectionLevel
        | some text => if 1 ≤ extractInt text ∧ extractInt text ≤ 4 then extractInt text else 1 := by
  unfold loadStartingSectionLevel MAX_ALLOWED_SECTION_LEVEL_OPTION
  split
  · rfl
  · simp only []
    split_ifs <;> first | rfl | omega

/-- The starting section level after the constructor has run. -/
theorem DocbookGenerator_level (fs : FileSystem) (g : Globals)
    (h : DocbookGenerator fs = some g) :
    g.s_startingSectionLevel
      = match (ParseProperty fs "docbook.properties".toList).lookup
          OPTION_NAME_STARTING_SECTION_LEVEL with
        | none => 1
        | some text => if 1 ≤ extractInt text ∧ extractInt text ≤ 4 then extractInt text else 1 := by
  unfold DocbookGenerator at h
  simp only [] at h
  split at h
  · exact Option.noConfusion h
  · rename_i g1 hg1
    simp only [Option.some.injEq] at h
    subst h
    obtain ⟨hopt, hlvl⟩ := loadCustomTemplate_keeps _ _ _ hg1
    simp only [flagOption]
    rw [loadStartingSectionLevel_level, hopt, hlvl]

/-- C8, as the claim states it, fails: the configured level 5 resolves to 1,
not to the nearest bound 4. -/
theorem C8_counterexample :
    (DocbookGenerator
        (singleFile "docbook.properties".toList "starting_section_level=5".toList)).map
      (fun g => g.s_startingSectionLevel) = some 1 := by
  decide

/-- C8, amended. When `starting_section_level` is configured and the integer
read from its text is `n`, the resolved starting section level is `n` when
`1 ≤ n ≤ 4` and 1, the default, otherwise (for `n < 1` and for `n > 4` alike). -/
theorem C8_starting_section_level (fs : FileSystem) (g : Globals) (text : Str) (n : Int)
    (hgen : DocbookGenerator fs = some g)
    (hopt : (ParseProperty fs "docbook.properties".toList).lookup
      OPTION_NAME_STARTING_SECTION_LEVEL = some text)
    (hn : extractInt text = n) :
    g.s_startingSectionLevel = if 1 ≤ n ∧ n ≤ 4 then n else 1 := by
  rw [DocbookGenerator_level fs g hgen, hopt, ← hn]

/-- C8, amended, at the properties file `row_color=eeeeee`,
`starting_section_level = 3`: the constructor returns and the level is 3. -/
theorem C8_starting_section_level_witness :
    ∃ g : Globals,
      DocbookGenerator (singleFile "docbook.properties".toList
        "row_color=eeeeee\nstarting_section_level = 3\n".toList) = some g
      ∧ g.s_startingSectionLevel = 3 :=
  ⟨_, rfl, C8_starting_section_level
    (singleFile "docbook.properties".toList
      "row_color=eeeeee\nstarting_section_level = 3\n".toList) _ "3".toList 3
    rfl (by decide) (by decide)⟩

/-! ## The paragraph formatter -/

theorem findFrom_some (pat : Str) :
    ∀ (s : Str) (k i : Nat), findFrom pat s k = some i →
      ∃ j : Nat, i = k + j ∧ pat <+: s.drop j := by
  intro s
  induction s with
  | nil =>
    intro k i h
    simp only [findFrom] at h
    split_ifs at h with hp
    · simp only [Option.some.injEq] at h
      exact ⟨0, by omega, by simp [hp]⟩
  | cons c cs ih =>
    intro k i h
    simp only [findFrom] at h
    split_ifs at h with hp
    · simp only [Option.some.injEq] at h
      exact ⟨0, by omega, by simpa using List.isPrefixOf_iff_prefix.mp hp⟩
    · obtain ⟨j, hj, hpre⟩ := ih (k + 1) i h
      exact ⟨j + 1, by omega, by simpa using hpre⟩

theorem find_some (p pat : Str) (pos i : Nat) (h : find p pat pos = some i) :
    pos ≤ i ∧ pat <+: p.drop i := by
  unfold find at h
  split_ifs at h
  obtain ⟨j, hj, hpre⟩ := findFrom_some pat _ _ _ h
  refine ⟨by omega, ?_⟩
  rw [List.drop_drop] at hpre
  convert hpre using 2

theorem count_drop_le (p : Str) (c : Char) (a b : Nat) (h : a ≤ b) :
    (p.drop b).count c ≤ (p.drop a).count c := by
  have : p.drop b = (p.drop a).drop (b - a) := by
    rw [List.drop_drop]; congr 1; omega
  rw [this]
  exact (List.drop_sublist _ _).count_le c

/-- One round of the loop leaves fewer newlines behind the index. -/
theorem paragraphLoop_measure (p : Str) (pos i : Nat)
    (h : find p "\n\n".toList pos = some i) :
    ((replaceAt p i 2 "</para>\n<para>".toList).drop (i + 3)).count '\n'
      < (p.drop pos).count '\n' := by
  obtain ⟨hle, hpre⟩ := find_some _ _ _ _ h
  obtain ⟨rest, hrest⟩ := hpre
  have hlen : i ≤ p.length := by
    by_contra hc
    rw [List.drop_of_length_le (by omega)] at hrest
    simp at hrest
  have hdrop2 : p.drop (i + 2) = rest := by
    have : p.drop (i + 2) = (p.drop i).drop 2 := by
      rw [List.drop_drop]
    rw [this, ← hrest]
    rfl
  have hnew : (replaceAt p i 2 "</para>\n<para>".toList).drop (i + 3)
      = "ara>\n<para>".toList ++ rest := by
    unfold replaceAt
    rw [hdrop2, List.append_assoc, List.drop_append_eq_append_drop, List.length_take,
      Nat.min_eq_left hlen]
    have h1 : (p.take i).drop (i + 3) = [] := by
      apply List.drop_of_length_le
      rw [List.length_take]; omega
    have h2 : i + 3 - i = 3 := by omega
    rw [h1, h2]
    rfl
  have hold : (p.drop i).count '\n' = 2 + rest.count '\n' := by
    rw [← hrest]
    simp [List.count_cons]
    omega
  have hmono := count_drop_le p '\n' pos i hle
  rw [hnew, List.count_append]
  have : ("ara>\n<para>".toList).count '\n' = 1 := by decide
  omega

/-- The fuel of `paragraphLoop` is never used up: more fuel than the newlines
behind the index gives the same result as any larger fuel. -/
theorem paragraphLoop_fuel :
    ∀ (fuel extra : Nat) (p : Str) (i : Nat), (p.drop i).count '\n' < fuel →
      paragraphLoop (fuel + extra) p i = paragraphLoop fuel p i := by
  intro fuel
  induction fuel with
  | zero => intro extra p i h; omega
  | succ fuel ih =>
    intro extra p i h
    have : fuel + 1 + extra = (fuel + extra) + 1 := by omega
    rw [this]
    simp only [paragraphLoop]
    cases hf : find p "\n\n".toList i with
    | none => rfl
    | some j =>
      simp only []
      apply ih
      have := paragraphLoop_measure p i j hf
      omega

/-- With no two adjacent newlines there is nothing to replace. -/
theorem findFrom_none_of_not_mem (c : Char) (pat : Str) :
    ∀ (s : Str) (k : Nat), c ∉ s → findFrom (c :: pat) s k = none := by
  intro s
  induction s with
  | nil => intro k _; simp [findFrom]
  | cons x xs ih =>
    intro k h
    simp only [List.mem_cons, not_or] at h
    simp only [findFrom]
    have hne : ¬ ((c :: pat).isPrefixOf (x :: xs) = true) := by
      simp [List.isPrefixOf, h.1]
    rw [if_neg hne]
    exact ih (k + 1) h.2

theorem paragraphLoop_no_newline (fuel : Nat) (p : Str) (h : '\n' ∉ p) :
    paragraphLoop fuel p 0 = p := by
  cases fuel with
  | zero => rfl
  | succ fuel =>
    simp only [paragraphLoop, find, Nat.zero_le, if_true, List.drop_zero]
    have : findFrom "\n\n".toList p 0 = none := findFrom_none_of_not_mem '\n' ['\n'] p 0 h
    rw [this]

theorem paragraphLoop_enough (p : Str) (extra : Nat) :
    paragraphLoop (p.length + 1 + extra) p 0 = paragraphLoop (p.length + 1) p 0 := by
  apply paragraphLoop_fuel
  have := List.count_le_length '\n' p
  simp only [List.drop_zero]
  omega

theorem trimBack_eq_nil_iff (s : Str) : trimBack s = [] ↔ ∀ c ∈ s, isBlank c = true := by
  unfold trimBack
  rw [List.reverse_eq_nil_iff, List.dropWhile_eq_nil_iff]
  simp

theorem trimBack_getLast (s : Str) (c : Char) (h : (trimBack s).getLast? = some c) :
    isBlank c = false := by
  unfold trimBack at h
  rw [List.getLast?_reverse] at h
  have := List.head?_dropWhile_not isBlank s.reverse
  rw [h] at this
  simpa using this

theorem Trim_eq_nil_iff (s : Str) : Trim s = [] ↔ ∀ c ∈ s, isBlank c = true := by
  constructor
  · intro h
    rw [← trimBack_eq_nil_iff]
    unfold Trim trimFront at h
    rw [List.dropWhile_eq_nil_iff] at h
    cases hl : (trimBack s).getLast? with
    | none => simpa using hl
    | some c =>
      have h1 := trimBack_getLast s c hl
      have h2 := h c (List.mem_of_getLast?_eq_some hl)
      rw [h1] at h2
      exact Bool.noConfusion h2
  · intro h
    unfold Trim trimFront
    rw [(trimBack_eq_nil_iff s).mpr h]
    rfl

theorem SanitizeCommentForXML_no_newline (g : Globals) (s : Str) :
    '\n' ∉ SanitizeCommentForXML g s := by
  rw [SanitizeCommentForXML_eq]
  intro h
  obtain ⟨x, -, hx⟩ := List.mem_flatMap.mp h
  unfold sanitizeChar at hx
  split_ifs at hx <;> simp at hx
  all_goals (subst hx; contradiction)

/-- The result of `ParagraphFormatComment` by cases: nothing for a comment that is blank after
sanitizing, one paragraph block otherwise. -/
theorem ParagraphFormatComment_eq (g : Globals) (c : Str) :
    ParagraphFormatComment g c
      = if Trim (SanitizeCommentForXML g c) = [] then []
        else "<para>".toList ++ SanitizeCommentForXML g c ++ "</para>".toList := by
  unfold ParagraphFormatComment
  simp only []
  split_ifs with h
  · rfl
  · rw [paragraphLoop_no_newline]
    intro hmem
    rw [List.mem_append] at hmem
    rcases hmem with hmem | hmem
    · revert hmem; decide
    · exact SanitizeCommentForXML_no_newline g c hmem

theorem sanitizeChar_space_blank (g : Globals) (x : Char) (hx : isCommentSpace x = true)
    (hg : g.s_preserve_comment_line_breaks = false ∨ x ≠ '\n') :
    ∀ c ∈ sanitizeChar g x, isBlank c = true := by
  simp only [isCommentSpace, decide_eq_true_eq] at hx
  rcases hx with rfl | rfl | rfl | rfl
  · intro c hc
    have hc2 : c = ' ' := by simpa [sanitizeChar] using hc
    subst hc2; decide
  · intro c hc
    have hc2 : c = '\t' := by simpa [sanitizeChar] using hc
    subst hc2; decide
  · intro c hc
    have hc2 : c = ' ' := by simpa [sanitizeChar] using hc
    subst hc2; decide
  · rcases hg with hg | hg
    · intro c hc
      simp [sanitizeChar, hg] at hc
    · exact absurd rfl hg

/-- C9, the code at the failing input. The comment `a\n\nb` holds one
double-newline boundary and is rendered as one paragraph block, for either
setting of line-break preservation: the newlines are removed (or replaced by
`<sbr/>`) by the sanitizer before the loop looks for `"\n\n"`. -/
theorem C9_double_newline_single_paragraph :
    ParagraphFormatComment {} "a\n\nb".toList = "<para>ab</para>".toList
    ∧ ParagraphFormatComment { s_preserve_comment_line_breaks := true } "a\n\nb".toList
        = "<para>a<sbr/><sbr/>b</para>".toList := by
  decide

/-- C10, the code at the failing input. With line-break preservation enabled, a
comment of whitespace that holds a newline is rendered as a paragraph block:
the comment that is a single newline, and the comment `"\n "` that
`GetDescriptorComment` returns for a declaration under one empty `//` line.
Both are blank for `Trim`, but the blank test (line 474) is applied to the
sanitized text, in which the newline has become `<sbr/>`. With preservation
disabled the same comments give the empty string. -/
theorem C10_newline_comment_paragraph :
    ParagraphFormatComment { s_preserve_comment_line_breaks := true } "\n".toList
      = "<para><sbr/></para>".toList
    ∧ GetDescriptorComment (some ⟨"\n".toList, []⟩) = "\n ".toList
    ∧ ParagraphFormatComment { s_preserve_comment_line_breaks := true } "\n ".toList
        = "<para><sbr/> </para>".toList
    ∧ Trim "\n".toList = [] ∧ Trim "\n ".toList = []
    ∧ ParagraphFormatComment {} "\n".toList = []
    ∧ ParagraphFormatComment {} "\n ".toList = [] := by
  decide

/-- Which comments of whitespace characters only (space, tab, carriage return,
newline; the empty comment too) `ParagraphFormatComment` renders as the empty
string: those without a newline, and all of them when line-break preservation
is disabled; with preservation enabled and a newline in the comment it returns
one paragraph block around the sanitized text. -/
theorem ParagraphFormatComment_whitespace (g : Globals) (c : Str)
    (h : ∀ x ∈ c, isCommentSpace x = true) :
    (ParagraphFormatComment g c = []
      ↔ (g.s_preserve_comment_line_breaks = false ∨ '\n' ∉ c))
    ∧ (g.s_preserve_comment_line_breaks = true → '\n' ∈ c →
        ParagraphFormatComment g c
          = "<para>".toList ++ SanitizeCommentForXML g c ++ "</para>".toList) := by
  have hB : g.s_preserve_comment_line_breaks = true → '\n' ∈ c →
      ¬ Trim (SanitizeCommentForXML g c) = [] := by
    intro hg hn ht
    rw [Trim_eq_nil_iff] at ht
    have hmem : '<' ∈ SanitizeCommentForXML g c := by
      rw [SanitizeCommentForXML_eq, List.mem_flatMap]
      exact ⟨'\n', hn, by simp [sanitizeChar, hg]⟩
    have := ht '<' hmem
    revert this
    decide
  constructor
  · rw [ParagraphFormatComment_eq]
    constructor
    · intro hnil
      by_contra hcon
      simp only [not_or, Bool.not_eq_false, not_not] at hcon
      rw [if_neg (hB hcon.1 hcon.2)] at hnil
      simp at hnil
    · intro hg
      have ht : Trim (SanitizeCommentForXML g c) = [] := by
        rw [Trim_eq_nil_iff, SanitizeCommentForXML_eq]
        intro ch hch
        obtain ⟨x, hx, hcx⟩ := List.mem_flatMap.mp hch
        refine sanitizeChar_space_blank g x (h x hx) ?_ ch hcx
        rcases hg with hg | hg
        · exact Or.inl hg
        · exact Or.inr (fun hxe => hg (hxe ▸ hx))
      rw [if_pos ht]
  · intro hg hn
    rw [ParagraphFormatComment_eq, if_neg (hB hg hn)]

/-- The comments `" \t\r\n "` (preservation disabled) and `" \t\r "`
(preservation enabled) are rendered as the empty string. -/
theorem ParagraphFormatComment_whitespace_example :
    ParagraphFormatComment {} " \t\r\n ".toList = []
    ∧ ParagraphFormatComment { s_preserve_comment_line_breaks := true } " \t\r ".toList = [] :=
  ⟨((ParagraphFormatComment_whitespace {} " \t\r\n ".toList (by decide)).1).mpr (Or.inl rfl),
    ((ParagraphFormatComment_whitespace { s_preserve_comment_line_breaks := true }
      " \t\r ".toList
      (by decide)).1).mpr (Or.inr (by decide))⟩

/-! ## Rows of the tables -/

theorem str_nil : OStream.str [] = [] := rfl

theorem str_text (s : Str) : OStream.str [Piece.text s] = s := by
  simp [OStream.str, Piece.str]

theorem str_cons_text (s : Str) (os : OStream) :
    OStream.str (Piece.text s :: os) = s ++ OStream.str os := by
  simp [OStream.str, Piece.str]

theorem replace_eq_anchor (s : Str) : replace s '.' '_' = anchor s := rfl

theorem MakeXLink_eq (messageName displayName : Str) :
    MakeXLink messageName displayName = linkText (anchor messageName) displayName := by
  simp [MakeXLink, linkText, replace_eq_anchor]

theorem MakeXLinkScalarTable_eq (displayName : Str) :
    MakeXLinkScalarTable displayName
      = linkText "protobuf_scalar_value_types".toList displayName := by
  simp [MakeXLinkScalarTable, linkText, SCALAR_VALUE_TYPES_TABLE_XML_ID]

/-- The text of one row of a message table, cell by cell. -/
theorem WriteMessageInformalTableEntry_str (g : Globals) (f t o d c : Str) (a : Bool) :
    (WriteMessageInformalTableEntry g [] f t o d c a).str
      = messageRowText (if a then g.s_rowColorAlt else g.s_rowColor) f t o
          (ParagraphFormatComment g c ++ annotationPart (ParagraphFormatComment g c) d) := by
  simp only [WriteMessageInformalTableEntry, put_eq, annotationPart, messageRowText]
  by_cases hd : d = []
  · simp [hd, OStream.str, Piece.str]
  · by_cases hp : ParagraphFormatComment g c = []
    · simp [hd, hp, OStream.str, Piece.str]
    · simp [hd, hp, OStream.str, Piece.str]

/-- The text of one row of an enum table, cell by cell. -/
theorem WriteEnumInformalTableEntry_str (g : Globals) (f : Str) (v : Int) (c : Str) (a : Bool) :
    (WriteEnumInformalTableEntry g [] f v c a).str
      = enumRowText (if a then g.s_rowColorAlt else g.s_rowColor) f (showInt v)
          (ParagraphFormatComment g c) := by
  simp [WriteEnumInformalTableEntry, put_eq, enumRowText, OStream.str, Piece.str]

theorem alternate_colour (g : Globals) (i : Nat) :
    (if decide (i % 2 ≠ 0) = true then g.s_rowColorAlt else g.s_rowColor) = rowColour g i := by
  unfold rowColour
  by_cases h : i % 2 = 0 <;> simp [h]

theorem showInt_natCast (n : Nat) : showInt (n : Int) = Nat.toDigits 10 n := by
  unfold showInt showNat
  have : ¬ ((n : Int) < 0) := by omega
  simp [this]

/-- The cells the loop of `WriteMessageFieldEntries` computes for a field. -/
theorem WriteMessageFieldEntriesFrom_cons (g : Globals) (os : OStream) (fd : FieldDescriptor)
    (rest : List FieldDescriptor) (i : Nat) :
    WriteMessageFieldEntriesFrom g os (fd :: rest) i
      = WriteMessageFieldEntriesFrom g
          (WriteMessageInformalTableEntry g os fd.name (specTypeCell g fd) (specRuleCell fd.label)
            (MakeDefaultValueString g fd) (GetDescriptorComment fd.source_location)
            (decide (i % 2 ≠ 0)))
          rest (i + 1) := by
  have ht : ∀ t : Str, t = specTypeCell g fd →
      ∀ l : Str, l = specRuleCell fd.label →
      WriteMessageFieldEntriesFrom g
          (WriteMessageInformalTableEntry g os fd.name t l
            (MakeDefaultValueString g fd) (GetDescriptorComment fd.source_location)
            (decide (i % 2 ≠ 0)))
          rest (i + 1)
        = WriteMessageFieldEntriesFrom g
          (WriteMessageInformalTableEntry g os fd.name (specTypeCell g fd) (specRuleCell fd.label)
            (MakeDefaultValueString g fd) (GetDescriptorComment fd.source_location)
            (decide (i % 2 ≠ 0)))
          rest (i + 1) := by
    intro t ht l hl
    rw [ht, hl]
  simp only [WriteMessageFieldEntriesFrom]
  apply ht
  · unfold specTypeCell
    split
    · rename_i h; simp [h, MakeXLink_eq]
    · rename_i h; simp [h, MakeXLink_eq]
    · rename_i h1 h2
      have e1 : fd.type ≠ FieldType.TYPE_MESSAGE := fun e => h1 e
      have e2 : fd.type ≠ FieldType.TYPE_ENUM := fun e => h2 e
      simp [e1, e2, MakeXLinkScalarTable_eq]
  · cases fd.label <;> rfl

theorem WriteMessageFieldEntriesFrom_str (g : Globals) (fds : List FieldDescriptor) :
    ∀ (os : OStream) (i : Nat),
      (WriteMessageFieldEntriesFrom g os fds i).str
        = os.str ++ (fds.enumFrom i).flatMap fun p => fieldRowText g p.1 p.2 := by
  induction fds with
  | nil => intro os i; simp [WriteMessageFieldEntriesFrom]
  | cons fd rest ih =>
    intro os i
    rw [WriteMessageFieldEntriesFrom_cons, ih, WriteMessageInformalTableEntry_frame, str_append,
      WriteMessageInformalTableEntry_str, alternate_colour]
    simp [List.enumFrom, fieldRowText, specDescriptionCell]

theorem WriteEnumFieldEntriesFrom_str (g : Globals) (vs : List EnumValueDescriptor) :
    ∀ (os : OStream) (i : Nat),
      (WriteEnumFieldEntriesFrom g os vs i).str
        = os.str ++ (vs.enumFrom i).flatMap fun p => enumValueRowText g p.1 p.2 := by
  induction vs with
  | nil => intro os i; simp [WriteEnumFieldEntriesFrom]
  | cons v rest ih =>
    intro os i
    simp only [WriteEnumFieldEntriesFrom]
    rw [ih, WriteEnumInformalTableEntry_frame, str_append,
      WriteEnumInformalTableEntry_str, alternate_colour, showInt_natCast]
    simp [List.enumFrom, enumValueRowText]

/-- The row written by `WriteMessageInformalTableEntry`, after any stream. -/
theorem WriteMessageInformalTableEntry_row (g : Globals) (os : OStream) (f t o d c : Str)
    (a : Bool) :
    (WriteMessageInformalTableEntry g os f t o d c a).str
      = os.str ++ messageRowText (if a then g.s_rowColorAlt else g.s_rowColor) f t o
          (ParagraphFormatComment g c ++ annotationPart (ParagraphFormatComment g c) d) := by
  rw [WriteMessageInformalTableEntry_frame, str_append, WriteMessageInformalTableEntry_str]

/-! ## Comments in headers and rows -/

theorem WriteEnumInformalTableEntry_row (g : Globals) (os : OStream) (f : Str) (v : Int)
    (c : Str) (a : Bool) :
    (WriteEnumInformalTableEntry g os f v c a).str
      = os.str ++ enumRowText (if a then g.s_rowColorAlt else g.s_rowColor) f (showInt v)
          (ParagraphFormatComment g c) := by
  rw [WriteEnumInformalTableEntry_frame, str_append, WriteEnumInformalTableEntry_str]

/-- A comment of whitespace only gives no paragraph, unless line breaks are
preserved and it holds a newline. -/
theorem ParagraphFormatComment_blank (g : Globals) (c : Str)
    (hc : ∀ x ∈ c, isCommentSpace x = true)
    (hg : g.s_preserve_comment_line_breaks = false ∨ '\n' ∉ c) :
    ParagraphFormatComment g c = [] := by
  rw [ParagraphFormatComment_eq]
  have ht : Trim (SanitizeCommentForXML g c) = [] := by
    rw [Trim_eq_nil_iff, SanitizeCommentForXML_eq]
    intro ch hch
    obtain ⟨x, hx, hcx⟩ := List.mem_flatMap.mp hch
    refine sanitizeChar_space_blank g x (hc x hx) ?_ ch hcx
    rcases hg with hg | hg
    · exact Or.inl hg
    · exact Or.inr (fun hxe => hg (hxe ▸ hx))
  rw [if_pos ht]

theorem ParagraphFormatComment_nil (g : Globals) : ParagraphFormatComment g [] = [] := by
  rw [ParagraphFormatComment_eq]
  rfl

/-- The header of a message table: the opening tag, then the text that holds
the title line, the line of the comment paragraphs and the `xml:id`, then more
text. -/
theorem WriteMessageInformalTableHeader_head (g : Globals) (x t c : Str) (l : Int) :
    ∃ rest : OStream, WriteMessageInformalTableHeader g [] x t c l
      = Piece.sectOpen (SectionLevel l)
        :: Piece.text ("<title> Message: ".toList ++ t ++ "</title>".toList ++ "\n".toList
            ++ ParagraphFormatComment g c ++ "\n".toList
            ++ "<informaltable frame=\"all\"".toList
            ++ " xml:id=\"".toList ++ x ++ "\">".toList ++ "\n".toList
            ++ "<tgroup cols=\"4\">".toList ++ "\n".toList
            ++ " <colspec colname=\"c1\" colnum=\"1\" colwidth=\"".toList)
        :: rest
      ∧ rest.all Piece.isText = true := by
  refine ⟨(WriteMessageInformalTableHeader g [] x t c l).drop 2, ?_, ?_⟩
  · simp only [WriteMessageInformalTableHeader, put_eq, openSect_eq, List.nil_append,
      List.cons_append, List.append_assoc, List.singleton_append, List.drop_succ_cons,
      List.drop_zero]
  · simp only [WriteMessageInformalTableHeader, put_eq, openSect_eq, List.nil_append,
      List.cons_append, List.append_assoc, List.singleton_append, List.drop_succ_cons,
      List.drop_zero]
    rfl

/-- The header of an enum table: the opening tag, then the text that holds the
title line, the description between `<para>` and `</para>` and the `xml:id`,
then more text. -/
theorem WriteEnumInformalTableHeader_head (g : Globals) (x t d : Str) (l : Int) :
    ∃ rest : OStream, WriteEnumInformalTableHeader g [] x t d l
      = Piece.sectOpen (SectionLevel l)
        :: Piece.text ("<title> Enum: ".toList ++ t ++ "</title>".toList ++ "\n".toList
            ++ "<para>".toList ++ d ++ "</para>".toList ++ "\n".toList
            ++ "<informaltable frame=\"all\"".toList
            ++ " xml:id=\"".toList ++ x ++ "\">".toList ++ "\n".toList
            ++ "<tgroup cols=\"3\">".toList ++ "\n".toList
            ++ " <colspec colname=\"c1\" colnum=\"1\" colwidth=\"".toList)
        :: rest
      ∧ rest.all Piece.isText = true := by
  refine ⟨(WriteEnumInformalTableHeader g [] x t d l).drop 2, ?_, ?_⟩
  · simp only [WriteEnumInformalTableHeader, put_eq, openSect_eq, List.nil_append,
      List.cons_append, List.append_assoc, List.singleton_append, List.drop_succ_cons,
      List.drop_zero]
  · simp only [WriteEnumInformalTableHeader, put_eq, openSect_eq, List.nil_append,
      List.cons_append, List.append_assoc, List.singleton_append, List.drop_succ_cons,
      List.drop_zero]
    rfl

/-- C11, the code at the failing inputs. An enum without a comment gets a
paragraph element all the same, `<para></para>` when it has no source location
and `<para> </para>` when it has one with empty comments: the header of an enum
table writes the comment text between `<para>` and `</para>` as it is (line
851), where the header of a message table, the row of a field and the row of an
enum value pass it through `ParagraphFormatComment`. And with line-break
preservation enabled, a message whose comment is a single newline gets the
paragraph `<para><sbr/> </para>`: the blank test of `ParagraphFormatComment`
comes after the newline has become `<sbr/>`. -/
theorem C11_blank_comment_paragraph :
    "<sect2><title> Enum: E</title>\n<para></para>\n".toList
        <+: (WriteEnumTable {} [{ name := "E".toList, full_name := "E".toList }] [] [] 2).str
    ∧ "<sect2><title> Enum: E</title>\n<para> </para>\n".toList
        <+: (WriteEnumTable {}
              [{ name := "E".toList, full_name := "E".toList,
                 source_location := some ⟨[], []⟩ }] [] [] 2).str
    ∧ "<sect2><title> Message: M</title>\n<para><sbr/> </para>\n".toList
        <+: (WriteMessageInformalTableHeader { s_preserve_comment_line_breaks := true } []
              "M".toList "M".toList (GetDescriptorComment (some ⟨"\n".toList, []⟩)) 2).str := by
  decide

/-- The header of a message table depends on the comment through its
paragraphs only. -/
theorem WriteMessageInformalTableHeader_congr (g : Globals) (os : OStream) (x t c1 c2 : Str)
    (l : Int) (h : ParagraphFormatComment g c1 = ParagraphFormatComment g c2) :
    WriteMessageInformalTableHeader g os x t c1 l
      = WriteMessageInformalTableHeader g os x t c2 l := by
  simp only [WriteMessageInformalTableHeader, h]

/-- Where a blank comment is treated as no comment. For a message, a field and
an enum value whose comment text is empty or whitespace only, when line-break
preservation is disabled or the comment holds no newline, the comment gives no
paragraphs; the header of the message table is the header written for the empty
comment, with an empty line between the title line and the table; the
Description cell of the field holds the default-value annotation only,
unwrapped, or nothing; the Description cell of the enum value is empty. -/
theorem blank_comment_no_paragraph (g : Globals) (c : Str)
    (hc : ∀ x ∈ c, isCommentSpace x = true)
    (hg : g.s_preserve_comment_line_breaks = false ∨ '\n' ∉ c) :
    ParagraphFormatComment g c = []
    ∧ (∀ (os : OStream) (x t : Str) (l : Int),
        WriteMessageInformalTableHeader g os x t c l
          = WriteMessageInformalTableHeader g os x t [] l)
    ∧ (∀ (x t : Str) (l : Int), ∃ rest : OStream,
        WriteMessageInformalTableHeader g [] x t c l
          = Piece.sectOpen (SectionLevel l)
            :: Piece.text ("<title> Message: ".toList ++ t ++ "</title>".toList ++ "\n".toList
                ++ "\n".toList
                ++ "<informaltable frame=\"all\"".toList
                ++ " xml:id=\"".toList ++ x ++ "\">".toList ++ "\n".toList
                ++ "<tgroup cols=\"4\">".toList ++ "\n".toList
                ++ " <colspec colname=\"c1\" colnum=\"1\" colwidth=\"".toList)
            :: rest)
    ∧ (∀ (os : OStream) (f t o D : Str) (a : Bool),
        (WriteMessageInformalTableEntry g os f t o D c a).str
          = os.str ++ messageRowText (if a then g.s_rowColorAlt else g.s_rowColor) f t o
              (if D = [] then [] else D ++ "\n".toList))
    ∧ (∀ (os : OStream) (f : Str) (v : Int) (a : Bool),
        (WriteEnumInformalTableEntry g os f v c a).str
          = os.str ++ enumRowText (if a then g.s_rowColorAlt else g.s_rowColor) f (showInt v)
              []) := by
  have hP := ParagraphFormatComment_blank g c hc hg
  refine ⟨hP, ?_, ?_, ?_, ?_⟩
  · intro os x t l
    exact WriteMessageInformalTableHeader_congr g os x t c [] l
      (by rw [hP, ParagraphFormatComment_nil])
  · intro x t l
    obtain ⟨rest, hr, -⟩ := WriteMessageInformalTableHeader_head g x t c l
    refine ⟨rest, ?_⟩
    rw [hr, hP]
    simp
  · intro os f t o D a
    rw [WriteMessageInformalTableEntry_row, hP]
    simp [annotationPart]
  · intro os f v a
    rw [WriteEnumInformalTableEntry_row, hP]

/-- The comment of a node without comments (one space), with line-break
preservation enabled, and a comment of blanks and newlines with preservation
disabled, give no paragraphs. -/
theorem blank_comment_no_paragraph_example :
    ParagraphFormatComment { s_preserve_comment_line_breaks := true } " ".toList = []
    ∧ ParagraphFormatComment {} " \n\t\n".toList = [] :=
  ⟨(blank_comment_no_paragraph { s_preserve_comment_line_breaks := true } " ".toList
      (by decide) (Or.inr (by decide))).1,
    (blank_comment_no_paragraph {} " \n\t\n".toList (by decide) (Or.inl rfl)).1⟩

/-- C12, the code at the failing input. The comment `a<b>&` of an enum reaches
the document as it is, between `<para>` and `</para>` of the header of the enum
table; the same comment on a message is written escaped. -/
theorem C12_enum_comment_raw :
    "<sect2><title> Enum: E</title>\n<para>a<b>& </para>\n".toList
        <+: (WriteEnumTable {}
              [{ name := "E".toList, full_name := "E".toList,
                 source_location := some ⟨"a<b>&".toList, []⟩ }] [] [] 2).str
    ∧ "<sect2><title> Message: M</title>\n<para>a&lt;b&gt;&amp; </para>\n".toList
        <+: (WriteMessageTable {} []
              (Descriptor.mk "M".toList "M".toList (some ⟨"a<b>&".toList, []⟩)
                [{ name := "x".toList, label := Label.LABEL_OPTIONAL,
                   type := FieldType.TYPE_INT32 }] [] [])
              "M".toList 2).1.str := by
  decide

/-- C13. The Description cell of the row written by
`WriteMessageInformalTableEntry` is `P`, the paragraphs of the comment, followed
by the annotation part for the default-value annotation `D`: nothing when `D`
is empty; `D` unwrapped (and a line end) when `D` is not empty and `P` is; the
block `<para>` `D` `</para>` (and a line end) after `P` when neither is empty. -/
theorem C13_description_cell (g : Globals) (os : OStream) (f t o D c : Str) (a : Bool) :
    let P := ParagraphFormatComment g c
    let colour := if a then g.s_rowColorAlt else g.s_rowColor
    (D = [] →
      (WriteMessageInformalTableEntry g os f t o D c a).str
        = os.str ++ messageRowText colour f t o P)
    ∧ (D ≠ [] → P = [] →
      (WriteMessageInformalTableEntry g os f t o D c a).str
        = os.str ++ messageRowText colour f t o (D ++ "\n".toList))
    ∧ (D ≠ [] → P ≠ [] →
      (WriteMessageInformalTableEntry g os f t o D c a).str
        = os.str ++ messageRowText colour f t o
            (P ++ ("<para>".toList ++ D ++ "</para>".toList ++ "\n".toList))) := by
  intro P colour
  refine ⟨?_, ?_, ?_⟩
  · intro hD
    rw [WriteMessageInformalTableEntry_row]
    simp [annotationPart, hD, P, colour]
  · intro hD hP
    rw [WriteMessageInformalTableEntry_row]
    have hP2 : ParagraphFormatComment g c = [] := hP
    simp [annotationPart, hD, hP2, colour]
  · intro hD hP
    rw [WriteMessageInformalTableEntry_row]
    have hP2 : ¬ ParagraphFormatComment g c = [] := hP
    simp [annotationPart, hD, hP2, P, colour]

/-! ## Default values -/

theorem digitChar_mem (k : Nat) (h : k < 10) : Nat.digitChar k ∈ "0123456789".toList := by
  interval_cases k <;> decide

theorem toDigitsCore_mem (fuel : Nat) :
    ∀ (n : Nat) (acc : List Char), (∀ c ∈ acc, c ∈ "0123456789".toList) →
      ∀ c ∈ Nat.toDigitsCore 10 fuel n acc, c ∈ "0123456789".toList := by
  induction fuel with
  | zero => intro n acc h c hc; exact h c (by simpa [Nat.toDigitsCore] using hc)
  | succ fuel ih =>
    intro n acc h c hc
    have hacc : ∀ c ∈ Nat.digitChar (n % 10) :: acc, c ∈ "0123456789".toList := by
      intro c hc
      rcases List.mem_cons.mp hc with rfl | hc
      · exact digitChar_mem _ (Nat.mod_lt _ (by decide))
      · exact h c hc
    simp only [Nat.toDigitsCore] at hc
    split_ifs at hc
    · exact hacc c hc
    · exact ih _ _ hacc c hc

/-- The decimal digits of a natural number are digits. -/
theorem toDigits_mem (n : Nat) : ∀ c ∈ Nat.toDigits 10 n, c ∈ "0123456789".toList :=
  toDigitsCore_mem _ _ _ (by simp)

theorem showInt_eq_decimal (v : Int) : showInt v = decimal v := by
  unfold showInt showNat decimal
  split_ifs with h
  · congr 2; omega
  · congr 1; omega

theorem decimal_no_lt (v : Int) : '<' ∉ decimal v := by
  unfold decimal
  intro h
  split_ifs at h
  · rcases List.mem_cons.mp h with h | h
    · exact absurd h (by decide)
    · exact absurd (toDigits_mem _ _ h) (by decide)
  · exact absurd (toDigits_mem _ _ h) (by decide)

/-- A comment that is empty or one space gives no paragraph. -/
theorem ParagraphFormatComment_no_comment (g : Globals) (located : Bool) :
    ParagraphFormatComment g
      (GetDescriptorComment (if located then some ⟨[], []⟩ else none)) = [] := by
  rw [ParagraphFormatComment_eq]
  cases located
  · simp only [GetDescriptorComment, SanitizeCommentForXML_eq]
    rfl
  · have : SanitizeCommentForXML g (GetDescriptorComment
        (if true = true then some ⟨[], []⟩ else none)) = [' '] := by
      simp [GetDescriptorComment, SanitizeCommentForXML_eq, sanitizeChar]
    rw [this]
    rfl

theorem infix_mem {a b : Str} (h : a <:+: b) (c : Char) (hc : c ∈ a) : c ∈ b := by
  obtain ⟨s, t, rfl⟩ := h
  simp [hc]

/-- The row of a single `optional int32` field with default `v` and no comment. -/
theorem int32_default_row (g : Globals) (os : OStream) (name : Str) (v : Int) (located : Bool)
    (mname full : Str) (mloc : Option SourceLocation) (enums : List EnumDescriptor)
    (nested : List Descriptor) :
    let fd : FieldDescriptor :=
      { name := name, label := Label.LABEL_OPTIONAL, type := FieldType.TYPE_INT32,
        is_packed := false, has_default_value := true, default_value := DefaultValue.int32 v,
        source_location := if located then some ⟨[], []⟩ else none }
    let cell : Str := "\n[default = ".toList ++ decimal v ++ " ]".toList ++ "\n".toList
    (WriteMessageFieldEntries g os (Descriptor.mk mname full mloc [fd] enums nested)).str
        = os.str ++ messageRowText g.s_rowColor name (specTypeCell g fd) "optional".toList cell
    ∧ ("[default = ".toList ++ decimal v ++ " ]".toList) <:+: cell
    ∧ ¬ ("<para>".toList <:+: cell) := by
  intro fd cell
  refine ⟨?_, ?_, ?_⟩
  · have hP : ParagraphFormatComment g (GetDescriptorComment fd.source_location) = [] :=
      ParagraphFormatComment_no_comment g located
    have hD : MakeDefaultValueString g fd
        = "\n[default = ".toList ++ decimal v ++ " ]".toList := by
      simp [MakeDefaultValueString, defaultLiteral, appendPacked, MakePackedString, fd,
        FieldDescriptor.default_value_int32, showInt_eq_decimal]
    have hne : MakeDefaultValueString g fd ≠ [] := by rw [hD]; simp
    simp only [WriteMessageFieldEntries, Descriptor.fields]
    rw [WriteMessageFieldEntriesFrom_str]
    simp only [List.enumFrom, List.flatMap_cons, List.flatMap_nil, List.append_nil, fieldRowText,
      specDescriptionCell, hP, annotationPart, if_neg hne, List.nil_append, if_true, hD]
    rfl
  · exact ⟨"\n".toList, "\n".toList, by simp [cell]⟩
  · intro h
    have hmem := infix_mem h '<' (by decide)
    simp only [cell, List.mem_append] at hmem
    rcases hmem with ((hmem | hmem) | hmem) | hmem
    · revert hmem; decide
    · exact decimal_no_lt v hmem
    · revert hmem; decide
    · revert hmem; decide

/-- C14. A message with a single non-packed `optional int32` field that
declares the default `v` and has no comment (no source location, or one with
empty comments) renders one row whose Description cell is a line end, the text
`[default = ` decimal of `v` ` ]` and a line end: it contains that text, with a
leading `-` for a negative `v`, and no `<para>`. -/
theorem C14_int32_default_cell (g : Globals) (os : OStream) (name : Str) (v : Int)
    (located : Bool) (mname full : Str) (mloc : Option SourceLocation)
    (enums : List EnumDescriptor) (nested : List Descriptor) :
    let fd : FieldDescriptor :=
      { name := name, label := Label.LABEL_OPTIONAL, type := FieldType.TYPE_INT32,
        is_packed := false, has_default_value := true, default_value := DefaultValue.int32 v,
        source_location := if located then some ⟨[], []⟩ else none }
    let cell : Str := "\n[default = ".toList ++ decimal v ++ " ]".toList ++ "\n".toList
    ((WriteMessageFieldEntries g os (Descriptor.mk mname full mloc [fd] enums nested)).str
        = os.str ++ messageRowText g.s_rowColor name (specTypeCell g fd) "optional".toList cell
      ∧ ("[default = ".toList ++ decimal v ++ " ]".toList) <:+: cell
      ∧ ¬ ("<para>".toList <:+: cell))
    ∧ decimal 5 = "5".toList ∧ decimal (-12) = "-12".toList
    ∧ decimal 2147483647 = "2147483647".toList
    ∧ decimal (-2147483648) = "-2147483648".toList := by
  intro fd cell
  exact ⟨int32_default_row g os name v located mname full mloc enums nested,
    by decide, by decide, by decide, by decide⟩

/-- C15, the code at the failing input. The default 4294967295 of a `fixed32`
field is rendered as `-1`, and the default 18446744073709551615 of a `fixed64`
field too: the `TYPE_FIXED32` / `TYPE_FIXED64` cases print
`default_value_int32()` / `default_value_int64()`, signed values, where the
`TYPE_UINT32` / `TYPE_UINT64` cases print the unsigned accessors and render the
same defaults as themselves. -/
theorem C15_fixed_default_signed :
    MakeDefaultValueString {}
        { name := "x".toList, label := Label.LABEL_OPTIONAL, type := FieldType.TYPE_FIXED32,
          has_default_value := true, default_value := DefaultValue.uint32 4294967295 }
      = "\n[default = -1 ]".toList
    ∧ MakeDefaultValueString {}
        { name := "x".toList, label := Label.LABEL_OPTIONAL, type := FieldType.TYPE_FIXED64,
          has_default_value := true,
          default_value := DefaultValue.uint64 18446744073709551615 }
      = "\n[default = -1 ]".toList
    ∧ MakeDefaultValueString {}
        { name := "x".toList, label := Label.LABEL_OPTIONAL, type := FieldType.TYPE_UINT32,
          has_default_value := true, default_value := DefaultValue.uint32 4294967295 }
      = "\n[default = 4294967295 ]".toList
    ∧ MakeDefaultValueString {}
        { name := "x".toList, label := Label.LABEL_OPTIONAL, type := FieldType.TYPE_UINT64,
          has_default_value := true,
          default_value := DefaultValue.uint64 18446744073709551615 }
      = "\n[default = 18446744073709551615 ]".toList
    ∧ MakeDefaultValueString {}
        { name := "x".toList, label := Label.LABEL_OPTIONAL, type := FieldType.TYPE_FIXED32,
          has_default_value := true, default_value := DefaultValue.uint32 2147483647 }
      = "\n[default = 2147483647 ]".toList := by
  decide

/-- What `MakeDefaultValueString` returns, by the three things it looks at: the
default flag, the type (through the literal of the `switch`) and the packed
flag. -/
theorem MakeDefaultValueString_cases (g : Globals) (fd : FieldDescriptor) :
    MakeDefaultValueString g fd
      = if fd.has_default_value = true then
          match defaultLiteral g fd with
          | none => []
          | some literal =>
            "\n[default = ".toList ++ literal ++ " ]".toList
              ++ (if fd.is_packed = true then " [packed = true]".toList else [])
        else if fd.is_packed = true then " [packed = true]".toList else [] := by
  unfold MakeDefaultValueString appendPacked MakePackedString
  by_cases hd : fd.has_default_value = true <;> by_cases hp : fd.is_packed = true
  · simp only [hd, hp, if_true]
    cases defaultLiteral g fd <;> simp
  · simp only [hd, hp, if_true]
    cases defaultLiteral g fd <;> simp
  · simp [hd, hp]
  · simp [hd, hp]

theorem defaultLiteral_eq_none_iff (g : Globals) (fd : FieldDescriptor) :
    defaultLiteral g fd = none ↔ fd.type = FieldType.TYPE_MESSAGE := by
  unfold defaultLiteral
  cases fd.type <;> simp

/-- The packed annotation in the model at large: it ends the string of a
packed field unless the field reports a default and is of message type, where
the `switch` returns the empty string at its `default:` label. -/
theorem MakeDefaultValueString_packed (g : Globals) (fd : FieldDescriptor) :
    (fd.is_packed = true →
      ¬ (fd.has_default_value = true ∧ fd.type = FieldType.TYPE_MESSAGE) →
      " [packed = true]".toList <:+ MakeDefaultValueString g fd)
    ∧ (fd.is_packed = true → fd.has_default_value = true →
        fd.type = FieldType.TYPE_MESSAGE → MakeDefaultValueString g fd = [])
    ∧ (fd.has_default_value = false → fd.is_packed = false →
        MakeDefaultValueString g fd = []) := by
  rw [MakeDefaultValueString_cases]
  refine ⟨?_, ?_, ?_⟩
  · intro hp hn
    by_cases hd : fd.has_default_value = true
    · have hty : fd.type ≠ FieldType.TYPE_MESSAGE := fun e => hn ⟨hd, e⟩
      cases hl : defaultLiteral g fd with
      | none => exact absurd ((defaultLiteral_eq_none_iff g fd).mp hl) hty
      | some literal =>
        simp only [hd, hp, if_true]
        exact List.suffix_append _ _
    · simp only [hd, hp, if_true, if_false]
      exact List.suffix_refl _
  · intro hp hd hty
    simp only [hd, if_true, (defaultLiteral_eq_none_iff g fd).mpr hty]
  · intro hd hp
    simp [hd, hp]

/-- A packed field that the library builds declares no default. -/
theorem built_packed (fd : FieldDescriptor) (h : fd.built = true) (hp : fd.is_packed = true) :
    fd.has_default_value = false := by
  unfold FieldDescriptor.built at h
  cases hd : fd.has_default_value
  · rfl
  · simp [hp, hd] at h
    exact absurd h.1.1 h.2.1.1

/-- C16. For every field descriptor that the protobuf library builds: if the
packed flag is set, the string returned by `MakeDefaultValueString` ends with
` [packed = true]` (a space, then the annotation), and it is that annotation
alone, since the library lets no packed field declare a default; if the field
has no default and no packed flag, the empty string is returned. -/
theorem C16_packed_annotation (g : Globals) (fd : FieldDescriptor) (h : fd.built = true) :
    (fd.is_packed = true → " [packed = true]".toList <:+ MakeDefaultValueString g fd)
    ∧ (fd.is_packed = true → fd.has_default_value = false
        ∧ MakeDefaultValueString g fd = " [packed = true]".toList)
    ∧ (fd.has_default_value = false → fd.is_packed = false →
        MakeDefaultValueString g fd = []) := by
  rw [MakeDefaultValueString_cases]
  refine ⟨?_, ?_, ?_⟩
  · intro hp
    have hd := built_packed fd h hp
    simp [hd, hp]
  · intro hp
    have hd := built_packed fd h hp
    simp [hd, hp]
  · intro hd hp
    simp [hd, hp]

/-- C16 at a packed repeated int32 field. -/
theorem C16_packed_annotation_witness :
    packedField.built = true
    ∧ MakeDefaultValueString {} packedField = " [packed = true]".toList :=
  ⟨by decide, (( C16_packed_annotation {} packedField (by decide)).2.1 rfl).2⟩

/-- The rows of a message table, after any stream. -/
theorem WriteMessageFieldEntries_str (g : Globals) (os : OStream) (m : Descriptor) :
    (WriteMessageFieldEntries g os m).str
      = os.str ++ m.fields.enum.flatMap fun p => fieldRowText g p.1 p.2 := by
  simp only [WriteMessageFieldEntries, List.enum]
  rw [WriteMessageFieldEntriesFrom_str]

/-- The rows of an enum table, after any stream. -/
theorem WriteEnumFieldEntries_str (g : Globals) (os : OStream) (e : EnumDescriptor) :
    (WriteEnumFieldEntries g os e).str
      = os.str ++ e.values.enum.flatMap fun p => enumValueRowText g p.1 p.2 := by
  simp only [WriteEnumFieldEntries, List.enum]
  rw [WriteEnumFieldEntriesFrom_str]

/-- C18. In every message table and every enum table, whatever was written
before it, the row of the child at 0-based index `i` (in declaration order) has
the colour `rowColour g i`: the primary row colour when `i` is even, the
alternate row colour when `i` is odd; the first row has the primary colour. -/
theorem C18_row_colours (g : Globals) (os : OStream) (m : Descriptor) (e : EnumDescriptor) :
    (WriteMessageFieldEntries g os m).str
        = os.str ++ (m.fields.enum.flatMap fun p =>
            messageRowText (rowColour g p.1) p.2.name (specTypeCell g p.2)
              (specRuleCell p.2.label) (specDescriptionCell g p.2))
    ∧ (WriteEnumFieldEntries g os e).str
        = os.str ++ (e.values.enum.flatMap fun p =>
            enumRowText (rowColour g p.1) p.2.name (Nat.toDigits 10 p.1)
              (ParagraphFormatComment g (GetDescriptorComment p.2.source_location)))
    ∧ rowColour g 0 = g.s_rowColor
    ∧ (∀ i : Nat, i % 2 = 0 → rowColour g i = g.s_rowColor)
    ∧ (∀ i : Nat, i % 2 = 1 → rowColour g i = g.s_rowColorAlt) := by
  refine ⟨WriteMessageFieldEntries_str g os m, WriteEnumFieldEntries_str g os e, rfl, ?_, ?_⟩
  · intro i h; simp [rowColour, h]
  · intro i h; simp [rowColour, h]

theorem WriteEnumFieldEntriesFrom_length (g : Globals) (vs : List EnumValueDescriptor) :
    ∀ (os : OStream) (i : Nat),
      (WriteEnumFieldEntriesFrom g os vs i).length = os.length + vs.length := by
  induction vs with
  | nil => intro os i; simp [WriteEnumFieldEntriesFrom]
  | cons v rest ih =>
    intro os i
    simp only [WriteEnumFieldEntriesFrom]
    rw [ih]
    simp [WriteEnumInformalTableEntry, put_eq]
    omega

theorem WriteEnumFieldEntriesFrom_renumber (g : Globals) (renumber : EnumValueDescriptor → Int)
    (vs : List EnumValueDescriptor) :
    ∀ (os : OStream) (i : Nat),
      WriteEnumFieldEntriesFrom g os (vs.map fun v => { v with number := renumber v }) i
        = WriteEnumFieldEntriesFrom g os vs i := by
  induction vs with
  | nil => intro os i; rfl
  | cons v rest ih =>
    intro os i
    simp only [List.map_cons, WriteEnumFieldEntriesFrom]
    rw [ih]

/-- C19. For an enum with `n` values `WriteEnumFieldEntries` writes `n` rows, one
stream item each, in declaration order; the row at 0-based position `k` has the
name of the `k`-th value in the Element cell and the decimal digits of `k` in
the Value cell (0, 1, 2 for three values); the numeric tags declared for the
values do not enter: any other tags give the same rows. -/
theorem C19_enum_rows (g : Globals) (os : OStream) (e : EnumDescriptor) :
    (WriteEnumFieldEntries g os e).str
        = os.str ++ (e.values.enum.flatMap fun p =>
            enumRowText (rowColour g p.1) p.2.name (Nat.toDigits 10 p.1)
              (ParagraphFormatComment g (GetDescriptorComment p.2.source_location)))
    ∧ (WriteEnumFieldEntries g os e).length = os.length + e.values.length
    ∧ (∀ renumber : EnumValueDescriptor → Int,
        WriteEnumFieldEntries g os
            { e with values := e.values.map fun v => { v with number := renumber v } }
          = WriteEnumFieldEntries g os e)
    ∧ ([0, 1, 2].map fun k => Nat.toDigits 10 k) = ["0".toList, "1".toList, "2".toList] := by
  refine ⟨WriteEnumFieldEntries_str g os e, ?_, ?_, by decide⟩
  · simp only [WriteEnumFieldEntries]
    exact WriteEnumFieldEntriesFrom_length g _ os 0
  · intro renumber
    simp only [WriteEnumFieldEntries]
    exact WriteEnumFieldEntriesFrom_renumber g renumber _ os 0

/-- C20. The Type cell of the row of a field is `specTypeCell`: for a message
or enum reference a link with `href` `#` followed by the qualified name of the
referenced type with every `.` replaced by `_`, labelled with the simple name
of that type; for any other type a link with `href`
`#protobuf_scalar_value_types` labelled with the type name when the scalar
value table is enabled, and the plain type name, with no markup, when it is
disabled. -/
theorem C20_type_cell (g : Globals) (os : OStream) (fd : FieldDescriptor)
    (rest : List FieldDescriptor) (i : Nat) :
    (WriteMessageFieldEntriesFrom g os (fd :: rest) i).str
        = os.str
          ++ messageRowText (rowColour g i) fd.name (specTypeCell g fd) (specRuleCell fd.label)
              (specDescriptionCell g fd)
          ++ (WriteMessageFieldEntriesFrom g [] rest (i + 1)).str
    ∧ (fd.type = FieldType.TYPE_MESSAGE →
        specTypeCell g fd
          = "<emphasis role=\"underline\" xlink:href=\"#".toList
            ++ (fd.message_type.full_name.map fun c => if c = '.' then '_' else c)
            ++ "\">".toList ++ fd.message_type.name ++ "</emphasis>".toList)
    ∧ (fd.type = FieldType.TYPE_ENUM →
        specTypeCell g fd
          = "<emphasis role=\"underline\" xlink:href=\"#".toList
            ++ (fd.enum_type.full_name.map fun c => if c = '.' then '_' else c)
            ++ "\">".toList ++ fd.enum_type.name ++ "</emphasis>".toList)
    ∧ (fd.type ≠ FieldType.TYPE_MESSAGE → fd.type ≠ FieldType.TYPE_ENUM →
        g.s_includeScalarValueTable = true →
        specTypeCell g fd
          = "<emphasis role=\"underline\" xlink:href=\"#protobuf_scalar_value_types\">".toList
            ++ fd.type.type_name ++ "</emphasis>".toList)
    ∧ (fd.type ≠ FieldType.TYPE_MESSAGE → fd.type ≠ FieldType.TYPE_ENUM →
        g.s_includeScalarValueTable = false →
        specTypeCell g fd = fd.type.type_name) := by
  refine ⟨?_, ?_, ?_, ?_, ?_⟩
  · rw [WriteMessageFieldEntriesFrom_str, WriteMessageFieldEntriesFrom_str]
    simp [List.enumFrom, fieldRowText, str_nil]
  · intro h; simp [specTypeCell, h, linkText, anchor]
  · intro h; simp [specTypeCell, h, linkText, anchor]
  · intro h1 h2 h3; simp [specTypeCell, h1, h2, h3, linkText]
  · intro h1 h2 h3; simp [specTypeCell, h1, h2, h3]

/-! ## One paragraph block -/

theorem occurrences_sanitizeChar_open (g : Globals) (x : Char) (t : Str) :
    occurrences "<para>".toList (sanitizeChar g x ++ t) = occurrences "<para>".toList t := by
  unfold sanitizeChar
  split_ifs <;> simp [occurrences, List.isPrefixOf]
  intro h
  exact absurd h.symm (by assumption)

theorem occurrences_sanitizeChar_close (g : Globals) (x : Char) (t : Str) :
    occurrences "</para>".toList (sanitizeChar g x ++ t) = occurrences "</para>".toList t := by
  unfold sanitizeChar
  split_ifs <;> simp [occurrences, List.isPrefixOf]
  intro h
  exact absurd h.symm (by assumption)

theorem occurrences_sanitize_open (g : Globals) (c t : Str) :
    occurrences "<para>".toList (SanitizeCommentForXML g c ++ t)
      = occurrences "<para>".toList t := by
  rw [SanitizeCommentForXML_eq]
  induction c with
  | nil => rfl
  | cons x rest ih =>
    rw [List.flatMap_cons, List.append_assoc, occurrences_sanitizeChar_open, ih]

theorem occurrences_sanitize_close (g : Globals) (c t : Str) :
    occurrences "</para>".toList (SanitizeCommentForXML g c ++ t)
      = occurrences "</para>".toList t := by
  rw [SanitizeCommentForXML_eq]
  induction c with
  | nil => rfl
  | cons x rest ih =>
    rw [List.flatMap_cons, List.append_assoc, occurrences_sanitizeChar_close, ih]

theorem ParagraphFormatComment_blocks (g : Globals) (c : Str) :
    occurrences "<para>".toList (ParagraphFormatComment g c)
        = (if Trim (SanitizeCommentForXML g c) = [] then 0 else 1)
    ∧ occurrences "</para>".toList (ParagraphFormatComment g c)
        = (if Trim (SanitizeCommentForXML g c) = [] then 0 else 1) := by
  rw [ParagraphFormatComment_eq]
  split_ifs with h
  · exact ⟨rfl, rfl⟩
  · constructor
    · have h1 : occurrences "<para>".toList
          ("<para>".toList ++ SanitizeCommentForXML g c ++ "</para>".toList)
          = 1 + occurrences "<para>".toList (SanitizeCommentForXML g c ++ "</para>".toList) := by
        simp [occurrences, List.isPrefixOf]
      rw [h1, occurrences_sanitize_open]
      rfl
    · have h1 : occurrences "</para>".toList
          ("<para>".toList ++ SanitizeCommentForXML g c ++ "</para>".toList)
          = occurrences "</para>".toList (SanitizeCommentForXML g c ++ "</para>".toList) := by
        simp [occurrences, List.isPrefixOf]
      rw [h1, occurrences_sanitize_close]
      rfl

/-- C29. For every comment `c` and either setting of line-break preservation,
`ParagraphFormatComment` gives the empty string exactly when the sanitized
comment is empty after `Trim`, and otherwise exactly `<para>`, the sanitized
comment, `</para>`. The sanitized comment holds no newline character, so the
loop that replaces double newlines returns its argument whatever number of
rounds it is given, and the result holds at most one paragraph block: `<para>`
and `</para>` occur in it once each, or not at all when it is empty. -/
theorem C29_single_paragraph_block (g : Globals) (c : Str) :
    (ParagraphFormatComment g c = [] ↔ Trim (SanitizeCommentForXML g c) = [])
    ∧ (Trim (SanitizeCommentForXML g c) ≠ [] →
        ParagraphFormatComment g c
          = "<para>".toList ++ SanitizeCommentForXML g c ++ "</para>".toList)
    ∧ '\n' ∉ SanitizeCommentForXML g c
    ∧ (∀ fuel : Nat, paragraphLoop fuel ("<para>".toList ++ SanitizeCommentForXML g c) 0
        = "<para>".toList ++ SanitizeCommentForXML g c)
    ∧ occurrences "<para>".toList (ParagraphFormatComment g c)
        = (if ParagraphFormatComment g c = [] then 0 else 1)
    ∧ occurrences "</para>".toList (ParagraphFormatComment g c)
        = (if ParagraphFormatComment g c = [] then 0 else 1) := by
  have hiff : ParagraphFormatComment g c = [] ↔ Trim (SanitizeCommentForXML g c) = [] := by
    rw [ParagraphFormatComment_eq]
    split_ifs with h
    · simp [h]
    · simp [h]
  refine ⟨hiff, ?_, SanitizeCommentForXML_no_newline g c, ?_, ?_, ?_⟩
  · intro h
    rw [ParagraphFormatComment_eq, if_neg h]
  · intro fuel
    apply paragraphLoop_no_newline
    intro hmem
    rcases List.mem_append.mp hmem with hmem | hmem
    · revert hmem; decide
    · exact SanitizeCommentForXML_no_newline g c hmem
  · rw [(ParagraphFormatComment_blocks g c).1]
    simp only [hiff]
  · rw [(ParagraphFormatComment_blocks g c).2]
    simp only [hiff]

/-! ## The bootstrap latch does not enter the rendering -/

theorem SanitizeCommentForXML_latch (g : Globals) (b : Bool) (s : Str) :
    SanitizeCommentForXML { g with s_templateFileMade := b } s = SanitizeCommentForXML g s := by
  rw [SanitizeCommentForXML_eq, SanitizeCommentForXML_eq]
  rfl

theorem ParagraphFormatComment_latch (g : Globals) (b : Bool) (s : Str) :
    ParagraphFormatComment { g with s_templateFileMade := b } s = ParagraphFormatComment g s := by
  rw [ParagraphFormatComment_eq, ParagraphFormatComment_eq, SanitizeCommentForXML_latch]

theorem MakeDefaultValueString_latch (g : Globals) (b : Bool) (fd : FieldDescriptor) :
    MakeDefaultValueString { g with s_templateFileMade := b } fd = MakeDefaultValueString g fd := by
  have h : defaultLiteral { g with s_templateFileMade := b } fd = defaultLiteral g fd := by
    unfold defaultLiteral
    rw [SanitizeCommentForXML_latch]
  unfold MakeDefaultValueString
  rw [h]

theorem WriteMessageInformalTableEntry_latch (g : Globals) (b : Bool) (os : OStream)
    (f t o d c : Str) (a : Bool) :
    WriteMessageInformalTableEntry { g with s_templateFileMade := b } os f t o d c a
      = WriteMessageInformalTableEntry g os f t o d c a := by
  unfold WriteMessageInformalTableEntry
  rw [ParagraphFormatComment_latch]

theorem WriteEnumInformalTableEntry_latch (g : Globals) (b : Bool) (os : OStream)
    (f : Str) (v : Int) (c : Str) (a : Bool) :
    WriteEnumInformalTableEntry { g with s_templateFileMade := b } os f v c a
      = WriteEnumInformalTableEntry g os f v c a := by
  unfold WriteEnumInformalTableEntry
  rw [ParagraphFormatComment_latch]

theorem WriteMessageInformalTableHeader_latch (g : Globals) (b : Bool) (os : OStream)
    (x t c : Str) (l : Int) :
    WriteMessageInformalTableHeader { g with s_templateFileMade := b } os x t c l
      = WriteMessageInformalTableHeader g os x t c l := by
  unfold WriteMessageInformalTableHeader
  rw [ParagraphFormatComment_latch]
  rfl

theorem WriteEnumInformalTableHeader_latch (g : Globals) (b : Bool) (os : OStream)
    (x t c : Str) (l : Int) :
    WriteEnumInformalTableHeader { g with s_templateFileMade := b } os x t c l
      = WriteEnumInformalTableHeader g os x t c l := by
  rfl

theorem WriteMessageFieldEntriesFrom_latch (g : Globals) (b : Bool)
    (fs : List FieldDescriptor) :
    ∀ (os : OStream) (i : Nat),
      WriteMessageFieldEntriesFrom { g with s_templateFileMade := b } os fs i
        = WriteMessageFieldEntriesFrom g os fs i := by
  induction fs with
  | nil => intro os i; rfl
  | cons fd rest ih =>
    intro os i
    simp only [WriteMessageFieldEntriesFrom]
    rw [ih, WriteMessageInformalTableEntry_latch, MakeDefaultValueString_latch]

theorem WriteEnumFieldEntriesFrom_latch (g : Globals) (b : Bool)
    (vs : List EnumValueDescriptor) :
    ∀ (os : OStream) (i : Nat),
      WriteEnumFieldEntriesFrom { g with s_templateFileMade := b } os vs i
        = WriteEnumFieldEntriesFrom g os vs i := by
  induction vs with
  | nil => intro os i; rfl
  | cons v rest ih =>
    intro os i
    simp only [WriteEnumFieldEntriesFrom]
    rw [ih, WriteEnumInformalTableEntry_latch]

theorem WriteEnumTable_latch (g : Globals) (b : Bool) (es : List EnumDescriptor) :
    ∀ (os : OStream) (pfx : Str) (sect : Int),
      WriteEnumTable { g with s_templateFileMade := b } es os pfx sect
        = WriteEnumTable g es os pfx sect := by
  induction es with
  | nil => intro os pfx sect; rfl
  | cons e rest ih =>
    intro os pfx sect
    simp only [WriteEnumTable, WriteEnumFieldEntries]
    rw [ih, WriteEnumFieldEntriesFrom_latch, WriteEnumInformalTableHeader_latch]

theorem WriteMessageTable_latch (g : Globals) (b : Bool) (os : OStream) (m : Descriptor)
    (n : Str) (d : Int) :
    WriteMessageTable { g with s_templateFileMade := b } os m n d = WriteMessageTable g os m n d := by
  simp only [WriteMessageTable, WriteMessageFieldEntries]
  rw [WriteMessageFieldEntriesFrom_latch, WriteMessageInformalTableHeader_latch]

mutual
theorem WriteMessage_latch (g : Globals) (b : Bool) :
    ∀ (m : Descriptor) (os : OStream) (pfx : Str) (d : Int),
      WriteMessage { g with s_templateFileMade := b } os m pfx d = WriteMessage g os m pfx d
  | .mk name full_name loc fields enums nested, os, pfx, d => by
    simp only [WriteMessage]
    rw [WriteMessageTable_latch, WriteEnumTable_latch, WriteMessageNested_latch g b nested]
theorem WriteMessageNested_latch (g : Globals) (b : Bool) :
    ∀ (ms : List Descriptor) (os : OStream) (n : Str) (d : Int),
      WriteMessageNested { g with s_templateFileMade := b } os ms n d
        = WriteMessageNested g os ms n d
  | [], os, n, d => by simp [WriteMessageNested]
  | m :: ms, os, n, d => by
    simp only [WriteMessageNested]
    rw [WriteMessage_latch g b m, WriteMessageNested_latch g b ms]
end

theorem GenerateMessages_latch (g : Globals) (b : Bool) (ms : List Descriptor) :
    ∀ os : OStream, GenerateMessages { g with s_templateFileMade := b } os ms
      = GenerateMessages g os ms := by
  induction ms with
  | nil => intro os; rfl
  | cons m rest ih =>
    intro os
    simp only [GenerateMessages]
    rw [ih, WriteMessage_latch]

theorem GenerateStream_latch (g : Globals) (b : Bool) (file : FileDescriptor) :
    GenerateStream { g with s_templateFileMade := b } file = GenerateStream g file := by
  simp only [GenerateStream]
  rw [GenerateMessages_latch, WriteEnumTable_latch]

theorem WriteScalarValueTableRows_latch (g : Globals) (b : Bool) (rows : List (List Str)) :
    ∀ (os : OStream) (i : Nat),
      WriteScalarValueTableRows { g with s_templateFileMade := b } os rows i
        = WriteScalarValueTableRows g os rows i := by
  induction rows with
  | nil => intro os i; rfl
  | cons r rest ih =>
    intro os i
    simp only [WriteScalarValueTableRows]
    rw [ih]

theorem WriteScalarValueTable_latch (g : Globals) (b : Bool) (os : OStream) :
    WriteScalarValueTable { g with s_templateFileMade := b } os = WriteScalarValueTable g os := by
  unfold WriteScalarValueTable
  simp only []
  rw [WriteScalarValueTableRows_latch]

theorem WriteDocbookFooter_latch (g : Globals) (b : Bool) (os : OStream) :
    WriteDocbookFooter { g with s_templateFileMade := b } os = WriteDocbookFooter g os := by
  rfl

theorem MakeTemplateFile_latch (g : Globals) (b : Bool) (context : GeneratorContext) :
    MakeTemplateFile { g with s_templateFileMade := b } context = MakeTemplateFile g context := by
  unfold MakeTemplateFile
  simp only [WriteScalarValueTable_latch, WriteDocbookFooter_latch]

/-! ## The calls of `Generate` -/

theorem MakeTemplateFile_writes (g : Globals) (context : GeneratorContext) :
    (MakeTemplateFile g context).writes = context.writes ++ bootstrapWrites g
    ∧ (MakeTemplateFile g context).failing = context.failing := by
  unfold bootstrapWrites MakeTemplateFile GeneratorContext.print
  split_ifs <;> simp

theorem bootstrapWrites_eq (g : Globals) :
    bootstrapWrites g
      = if g.s_customTemplateFileName = [] then
          [ContextWrite.Open g.s_docbookOuputFileName
            (c_str (WriteDocbookFooter g
              (if g.s_includeScalarValueTable
                then WriteScalarValueTable g ((WriteDocbookHeader []).put
                  ("<!-- @@protoc_insertion_point(insertion_point) -->\n".toList))
                else (WriteDocbookHeader []).put
                  ("<!-- @@protoc_insertion_point(insertion_point) -->\n".toList))).str)]
        else
          ContextWrite.Open g.s_docbookOuputFileName (c_str g.s_customTemplateFile)
            :: (if g.s_includeScalarValueTable
                then [ContextWrite.OpenForInsert g.s_docbookOuputFileName "scalar_table".toList
                  (c_str (WriteScalarValueTable g []).str)]
                else []) := by
  unfold bootstrapWrites MakeTemplateFile GeneratorContext.print
  split_ifs <;> rfl

theorem latch_set (g : Globals) (h : ¬ g.s_templateFileMade = false) :
    { g with s_templateFileMade := true } = g := by
  cases g
  simp_all

/-- One call of `Generate`, field by field. -/
theorem Generate_eq (g : Globals) (file : FileDescriptor) (context : GeneratorContext)
    (error : Str) :
    (Generate g file context error).globals = { g with s_templateFileMade := true }
    ∧ (Generate g file context error).context.writes
        = context.writes ++ (if g.s_templateFileMade = false then bootstrapWrites g else [])
          ++ [appendWrite g file]
    ∧ (Generate g file context error).context.failing = context.failing
    ∧ (Generate g file context error).ok
        = !context.failing (context.writes.length
            + (if g.s_templateFileMade = false then bootstrapWrites g else []).length)
    ∧ (Generate g file context error).error
        = if (Generate g file context error).ok then error
          else "CodeGenerator detected write error.".toList := by
  by_cases h : g.s_templateFileMade = false
  · have hw := MakeTemplateFile_writes g context
    simp only [Generate, if_pos h, WriteToDocBookFile, GeneratorContext.print,
      MakeTemplateFile_latch, hw.1, hw.2, appendWrite, appendMarker, DEFAULT_INSERTION_POINT]
    split_ifs <;> simp_all
  · simp only [Generate, if_neg h, WriteToDocBookFile, GeneratorContext.print, appendWrite,
      appendMarker, DEFAULT_INSERTION_POINT, latch_set g h]
    split_ifs <;> simp_all

theorem appendWrite_latch (g : Globals) (b : Bool) (file : FileDescriptor) :
    appendWrite { g with s_templateFileMade := b } file = appendWrite g file := by
  unfold appendWrite
  rw [GenerateStream_latch]
  rfl

/-- A run that starts bootstrapped: one append for each file, nothing else. -/
theorem GenerateRun_bootstrapped (files : List FileDescriptor) :
    ∀ (g : Globals) (context : GeneratorContext), g.s_templateFileMade = true →
      (GenerateRun g context files).1 = g
      ∧ (GenerateRun g context files).2.1.writes
          = context.writes ++ files.map (appendWrite g)
      ∧ (GenerateRun g context files).2.1.failing = context.failing := by
  induction files with
  | nil => intro g context _; simp [GenerateRun]
  | cons f rest ih =>
    intro g context hg
    obtain ⟨h1, h2, h3, -, -⟩ := Generate_eq g f context []
    have hg1 : { g with s_templateFileMade := true } = g := latch_set g (by simp [hg])
    rw [hg1] at h1
    simp only [GenerateRun]
    rw [h1]
    obtain ⟨i1, i2, i3⟩ := ih g (Generate g f context []).context hg
    refine ⟨i1, ?_, ?_⟩
    · rw [i2, h2]
      simp [hg]
    · rw [i3, h3]

/-- A run that starts unbootstrapped, on at least one file. -/
theorem GenerateRun_unbootstrapped (g : Globals) (context : GeneratorContext)
    (f : FileDescriptor) (rest : List FileDescriptor) (hg : g.s_templateFileMade = false) :
    (GenerateRun g context (f :: rest)).1 = { g with s_templateFileMade := true }
    ∧ (GenerateRun g context (f :: rest)).2.1.writes
        = context.writes ++ bootstrapWrites g ++ (f :: rest).map (appendWrite g)
    ∧ (GenerateRun g context (f :: rest)).2.1.failing = context.failing := by
  obtain ⟨h1, h2, h3, -, -⟩ := Generate_eq g f context []
  simp only [GenerateRun]
  rw [h1]
  obtain ⟨i1, i2, i3⟩ := GenerateRun_bootstrapped rest { g with s_templateFileMade := true }
    (Generate g f context []).context rfl
  refine ⟨i1, ?_, ?_⟩
  · rw [i2, h2]
    simp [hg, appendWrite_latch]
  · rw [i3, h3]

/-! ## The document of a file and the run of the generator -/

/-- C23. The stream that `Generate` renders for a file (and then appends to the
artifact, as the last write of the call) is, in order: the opening tag of the
file section at the level `SectionLevel s` of the starting level `s` (which is
`s` for every `s` from 1 to 5) with the title of the file; the output of
`WriteMessage` for every top-level message in declaration order, each at depth
`s + 1` with the empty prefix; the table of every file-scope enum in declaration
order, once each, at depth `s + 1` with the empty prefix; the closing tag of the
file section at the same level, and a line end. -/
theorem C23_document_order (g : Globals) (file : FileDescriptor) (context : GeneratorContext)
    (error : Str) :
    GenerateStream g file
        = [Piece.sectOpen (SectionLevel g.s_startingSectionLevel),
            Piece.text ("<title> File: ".toList ++ file.name ++ "</title>".toList ++ "\n".toList)]
          ++ (file.message_types.flatMap fun m =>
                WriteMessage g [] m [] (g.s_startingSectionLevel + 1))
          ++ (file.enum_types.flatMap fun e =>
                WriteEnumTable g [e] [] [] (g.s_startingSectionLevel + 1))
          ++ [Piece.sectClose (SectionLevel g.s_startingSectionLevel), Piece.text "\n".toList]
    ∧ (Generate g file context error).context.writes.getLast?
        = some (ContextWrite.OpenForInsert g.s_docbookOuputFileName (appendMarker g file)
            (c_str (GenerateStream g file).str))
    ∧ (∀ s : Int, 1 ≤ s → s ≤ 5 → SectionLevel s = s) := by
  refine ⟨GenerateStream_eq g file, ?_, ?_⟩
  · rw [(Generate_eq g file context error).2.1]
    simp [appendWrite]
  · intro s h1 h5
    unfold SectionLevel MAX_SECTION_LEVEL
    split_ifs <;> omega

theorem bootstrapWrites_opens (g : Globals) :
    ∃ (content : Str) (inserts : List ContextWrite),
      bootstrapWrites g = ContextWrite.Open g.s_docbookOuputFileName content :: inserts
      ∧ inserts.all (fun w => !w.isOpen) = true
      ∧ (g.s_customTemplateFileName = [] → inserts = []) := by
  rw [bootstrapWrites_eq]
  by_cases h1 : g.s_customTemplateFileName = []
  · rw [if_pos h1]
    exact ⟨_, [], rfl, rfl, fun _ => rfl⟩
  · rw [if_neg h1]
    by_cases h2 : g.s_includeScalarValueTable = true
    · rw [if_pos h2]
      exact ⟨_, _, rfl, rfl, fun h => absurd h h1⟩
    · rw [if_neg h2]
      exact ⟨_, [], rfl, rfl, fun _ => rfl⟩

theorem appendWrite_isOpen (g : Globals) (files : List FileDescriptor) :
    (files.map (appendWrite g)).filter ContextWrite.isOpen = [] := by
  induction files with
  | nil => rfl
  | cons f rest ih => simp [appendWrite, ContextWrite.isOpen]

theorem bootstrapWrites_count (g : Globals) :
    ((bootstrapWrites g).filter ContextWrite.isOpen).length = 1 := by
  obtain ⟨content, inserts, h, hall, -⟩ := bootstrapWrites_opens g
  rw [h]
  have : inserts.filter ContextWrite.isOpen = [] := by
    rw [List.filter_eq_nil_iff]
    intro w hw
    have := List.all_eq_true.mp hall w hw
    simpa using this
  simp [ContextWrite.isOpen, this]

theorem GenerateRun_latch (files : List FileDescriptor) :
    ∀ (g : Globals) (context : GeneratorContext),
      ∀ r ∈ (GenerateRun g context files).2.2, r.globals.s_templateFileMade = true := by
  induction files with
  | nil => intro g context r hr; simp [GenerateRun] at hr
  | cons f rest ih =>
    intro g context r hr
    simp only [GenerateRun, List.mem_cons] at hr
    rcases hr with rfl | hr
    · rw [(Generate_eq g f context []).1]
    · exact ih _ _ r hr

/-- C25. In a run of `Generate` on one file after the other (at least one) that
starts with `s_templateFileMade = false`: the writes of the run are the writes of
the bootstrap step `MakeTemplateFile`, once, and then the append of each file
in order, so the bootstrap step comes in the first call before the append of
that call, and the artifact is created (`Open`, which only the bootstrap step
does, as the first of its writes) exactly once in the run; the latch is true
after every call of the run and at its end; and a call that finds the latch
true writes its append and nothing else. -/
theorem C25_bootstrap_once (g : Globals) (context : GeneratorContext) (f : FileDescriptor)
    (rest : List FileDescriptor) (hg : g.s_templateFileMade = false) :
    (GenerateRun g context (f :: rest)).2.1.writes
        = context.writes ++ bootstrapWrites g ++ (f :: rest).map (appendWrite g)
    ∧ (Generate g f context []).context.writes
        = context.writes ++ bootstrapWrites g ++ [appendWrite g f]
    ∧ (∃ (content : Str) (inserts : List ContextWrite),
        bootstrapWrites g = ContextWrite.Open g.s_docbookOuputFileName content :: inserts
        ∧ inserts.all (fun w => !w.isOpen) = true)
    ∧ (appendWrite g f).isOpen = false
    ∧ ((GenerateRun g context (f :: rest)).2.1.writes.filter ContextWrite.isOpen).length
        = (context.writes.filter ContextWrite.isOpen).length + 1
    ∧ (GenerateRun g context (f :: rest)).1.s_templateFileMade = true
    ∧ (∀ r ∈ (GenerateRun g context (f :: rest)).2.2, r.globals.s_templateFileMade = true)
    ∧ (∀ (g1 : Globals) (file : FileDescriptor) (c1 : GeneratorContext) (error : Str),
        g1.s_templateFileMade = true →
        (Generate g1 file c1 error).globals = g1
        ∧ (Generate g1 file c1 error).context.writes = c1.writes ++ [appendWrite g1 file]) := by
  obtain ⟨h1, h2, -⟩ := GenerateRun_unbootstrapped g context f rest hg
  refine ⟨h2, ?_, ?_, rfl, ?_, ?_, GenerateRun_latch _ g context, ?_⟩
  · rw [(Generate_eq g f context []).2.1, if_pos hg]
  · obtain ⟨content, inserts, h, hall, -⟩ := bootstrapWrites_opens g
    exact ⟨content, inserts, h, hall⟩
  · rw [h2, List.filter_append, List.filter_append, appendWrite_isOpen, List.append_nil,
      List.length_append, bootstrapWrites_count]
  · rw [h1]
  · intro g1 file c1 error h
    obtain ⟨e1, e2, -⟩ := Generate_eq g1 file c1 error
    refine ⟨?_, ?_⟩
    · rw [e1]; exact latch_set g1 (by simp [h])
    · rw [e2]; simp [h]

/-- C25 on a run of two files from the default state. -/
theorem C25_bootstrap_once_witness :
    ((GenerateRun {} {}
        [{ name := "a.proto".toList }, { name := "b.proto".toList }]).2.1.writes.filter
          ContextWrite.isOpen).length = 1
    ∧ (GenerateRun {} {}
        [{ name := "a.proto".toList }, { name := "b.proto".toList }]).1.s_templateFileMade
        = true :=
  ⟨(C25_bootstrap_once {} {} { name := "a.proto".toList } [{ name := "b.proto".toList }]
      rfl).2.2.2.2.1,
    (C25_bootstrap_once {} {} { name := "a.proto".toList } [{ name := "b.proto".toList }]
      rfl).2.2.2.2.2.1⟩

theorem bootstrapWrites_primary (g : Globals) (h : g.s_customTemplateFileName = []) :
    (bootstrapWrites g).filter (ContextWrite.isInsertAt "insertion_point".toList) = [] := by
  rw [bootstrapWrites_eq, if_pos h]
  rfl

theorem appendWrite_primary (g : Globals) (h : g.s_customTemplateFileName = [])
    (files : List FileDescriptor) :
    (files.map (appendWrite g)).filter (ContextWrite.isInsertAt "insertion_point".toList)
      = files.map (appendWrite g) := by
  rw [List.filter_eq_self]
  intro w hw
  obtain ⟨f, -, rfl⟩ := List.mem_map.mp hw
  simp [appendWrite, appendMarker, h, ContextWrite.isInsertAt]

/-- The appends at the primary marker in a run without a custom template. -/
theorem GenerateRun_primary (g : Globals) (context : GeneratorContext)
    (files : List FileDescriptor) (h : g.s_customTemplateFileName = []) :
    (GenerateRun g context files).2.1.writes.filter
        (ContextWrite.isInsertAt "insertion_point".toList)
      = context.writes.filter (ContextWrite.isInsertAt "insertion_point".toList)
        ++ files.map (appendWrite g) := by
  by_cases hg : g.s_templateFileMade = false
  · cases files with
    | nil => simp [GenerateRun]
    | cons f rest =>
      rw [(GenerateRun_unbootstrapped g context f rest hg).2.1, List.filter_append,
        List.filter_append, bootstrapWrites_primary g h, appendWrite_primary g h, List.append_nil]
  · have hg1 : g.s_templateFileMade = true := by simpa using hg
    rw [(GenerateRun_bootstrapped files g context hg1).2.1, List.filter_append,
      appendWrite_primary g h]

theorem c_str_of_not_mem (s : Str) (h : '\x00' ∉ s) : c_str s = s := by
  unfold c_str
  rw [List.takeWhile_eq_self_iff]
  intro c hc
  have : c ≠ '\x00' := fun e => h (e ▸ hc)
  simpa using this

theorem c_str_length_lt (s : Str) (h : '\x00' ∈ s) : (c_str s).length < s.length := by
  unfold c_str
  induction s with
  | nil => simp at h
  | cons x xs ih =>
    by_cases hx : x = '\x00'
    · simp [List.takeWhile_cons, hx]
    · have hm : '\x00' ∈ xs := by
        rcases List.mem_cons.mp h with h | h
        · exact absurd h.symm hx
        · exact h
      have := ih hm
      have hstep : List.takeWhile (fun c => decide (c ≠ Char.ofNat 0)) (x :: xs)
          = x :: List.takeWhile (fun c => decide (c ≠ Char.ofNat 0)) xs := by
        rw [List.takeWhile_cons]
        simp [show x ≠ Char.ofNat 0 from hx]
      rw [hstep, List.length_cons, List.length_cons]
      omega

/-- What `c_str` hands over: the start of the text, without a NUL character;
all of the text when it holds none, less than the text when it holds one. -/
theorem c_str_cases (s : Str) :
    c_str s <+: s ∧ '\x00' ∉ c_str s
    ∧ ('\x00' ∉ s → c_str s = s)
    ∧ ('\x00' ∈ s → (c_str s).length < s.length) := by
  refine ⟨List.takeWhile_prefix _, ?_, c_str_of_not_mem s, c_str_length_lt s⟩
  intro h
  have := List.mem_takeWhile_imp h
  simp at this

set_option maxRecDepth 100000 in
/-- C26, as the claim states it, fails. With the row colour `ff`, a NUL
character, `ff` in the properties file (and no custom template), the call of
`Generate` for `fileWithOneField` returns `true` and its last write appends, at
`insertion_point`, the first 544 of the 803 characters of the rendered
document: the text up to the NUL character of the first row, not the
document. -/
theorem C26_counterexample :
    DocbookGenerator (singleFile "docbook.properties".toList "row_color=ff\x00ff\n".toList)
      = some nulRowColour
    ∧ (Generate nulRowColour fileWithOneField {} []).ok = true
    ∧ (Generate nulRowColour fileWithOneField {} []).context.writes.getLast?
        = some (ContextWrite.OpenForInsert "docbook_out.xml".toList "insertion_point".toList
            (c_str (GenerateStream nulRowColour fileWithOneField).str))
    ∧ (c_str (GenerateStream nulRowColour fileWithOneField).str).length = 544
    ∧ (GenerateStream nulRowColour fileWithOneField).str.length = 803
    ∧ c_str (GenerateStream nulRowColour fileWithOneField).str
        ≠ (GenerateStream nulRowColour fileWithOneField).str := by
  decide

/-- C26, amended. Every call of `Generate` makes, after the writes of the
bootstrap step if the call is the first, exactly one more write: an append to
the output artifact, at the marker `insertion_point` when no custom template is
configured and at the marker named as the input file when one is. What is
appended is the text of the document rendered for the file up to its first NUL
character, as `c_str` hands it over: the whole document when it holds no NUL
character, a shorter start of it when it holds one. Without a custom template
the bootstrap step appends nothing at the primary marker, so in a run on `n`
files the appends at `insertion_point` are those the context held before and
then the `n` appends of the files, in the order of the files. -/
theorem C26_one_append_per_file (g : Globals) (file : FileDescriptor)
    (context : GeneratorContext) (error : Str) (files : List FileDescriptor) :
    (Generate g file context error).context.writes
        = context.writes ++ (if g.s_templateFileMade = false then bootstrapWrites g else [])
          ++ [ContextWrite.OpenForInsert g.s_docbookOuputFileName
                (if g.s_customTemplateFileName = [] then "insertion_point".toList else file.name)
                (c_str (GenerateStream g file).str)]
    ∧ (c_str (GenerateStream g file).str <+: (GenerateStream g file).str
        ∧ '\x00' ∉ c_str (GenerateStream g file).str)
    ∧ ('\x00' ∉ (GenerateStream g file).str →
        c_str (GenerateStream g file).str = (GenerateStream g file).str)
    ∧ ('\x00' ∈ (GenerateStream g file).str →
        (c_str (GenerateStream g file).str).length < (GenerateStream g file).str.length)
    ∧ (g.s_customTemplateFileName = [] →
        (GenerateRun g context files).2.1.writes.filter
            (ContextWrite.isInsertAt "insertion_point".toList)
          = context.writes.filter (ContextWrite.isInsertAt "insertion_point".toList)
            ++ files.map fun f =>
                ContextWrite.OpenForInsert g.s_docbookOuputFileName "insertion_point".toList
                  (c_str (GenerateStream g f).str)) := by
  have hc := c_str_cases (GenerateStream g file).str
  refine ⟨(Generate_eq g file context error).2.1, ⟨hc.1, hc.2.1⟩, hc.2.2.1, hc.2.2.2, ?_⟩
  intro h
  rw [GenerateRun_primary g context files h]
  simp [appendWrite, appendMarker, h]

/-- C28, the code at the failing input. The value that `Generate` returns is
decided by the append alone (the last write of the call): `false`, with the
message `CodeGenerator detected write error.`, when the append fails, `true`
with the error string untouched when it succeeds. The writes of
`MakeTemplateFile` are not checked: on a context whose first write (the
bootstrap write of the fresh document, or the copy of the custom template)
fails and whose append succeeds, the first call returns `true` and leaves the
error string empty. -/
theorem C28_bootstrap_failure_unreported :
    (∀ (g : Globals) (file : FileDescriptor) (context : GeneratorContext) (error : Str),
      (Generate g file context error).ok
          = !context.failing (context.writes.length
              + (if g.s_templateFileMade = false then bootstrapWrites g else []).length)
      ∧ (Generate g file context error).error
          = if (Generate g file context error).ok then error
            else "CodeGenerator detected write error.".toList)
    ∧ (Generate {} { name := "a.proto".toList }
          { failing := fun k => decide (k = 0) } []).ok = true
    ∧ (Generate {} { name := "a.proto".toList }
          { failing := fun k => decide (k = 0) } []).error = []
    ∧ (Generate { s_customTemplateFileName := "t.xml".toList,
                  s_customTemplateFile := "<article/>".toList,
                  s_includeScalarValueTable := false }
          { name := "a.proto".toList } { failing := fun k => decide (k = 0) } []).ok = true
    ∧ (Generate { s_customTemplateFileName := "t.xml".toList,
                  s_customTemplateFile := "<article/>".toList,
                  s_includeScalarValueTable := false }
          { name := "a.proto".toList } { failing := fun k => decide (k = 0) } []).error = [] := by
  refine ⟨fun g file context error => ?_, ?_, ?_, ?_, ?_⟩
  · exact ⟨(Generate_eq g file context error).2.2.2.1, (Generate_eq g file context error).2.2.2.2⟩
  · rw [(Generate_eq _ _ _ _).2.2.2.1, bootstrapWrites_eq]; rfl
  · rw [(Generate_eq _ _ _ _).2.2.2.2, (Generate_eq _ _ _ _).2.2.2.1, bootstrapWrites_eq]; rfl
  · rw [(Generate_eq _ _ _ _).2.2.2.1, bootstrapWrites_eq]; rfl
  · rw [(Generate_eq _ _ _ _).2.2.2.2, (Generate_eq _ _ _ _).2.2.2.1, bootstrapWrites_eq]; rfl

/-! ## The row of a field without default and comment -/

/-- C21. A message whose only field is a non-packed `optional int32` without a
default and without a comment (no source location, or one whose comments are
empty, which gives the comment text of one space) renders one row and nothing
else: the row of the primary colour whose Field cell is the name, whose Type cell
is the link to the scalar value table labelled `int32` when that table is
enabled and the plain text `int32` when it is not, whose Rule cell is `optional`
and whose Description cell is empty, `<entry></entry>`. For every field the Rule
cell is `optional`, `repeated` or `required` as the label of the field says. -/
theorem C21_plain_int32_row (g : Globals) (os : OStream) (name : Str) (dv : DefaultValue)
    (located : Bool) (mname full : Str) (mloc : Option SourceLocation)
    (enums : List EnumDescriptor) (nested : List Descriptor) :
    let fd : FieldDescriptor :=
      { name := name, label := Label.LABEL_OPTIONAL, type := FieldType.TYPE_INT32,
        is_packed := false, has_default_value := false, default_value := dv,
        source_location := if located then some ⟨[], []⟩ else none }
    (WriteMessageFieldEntries g os (Descriptor.mk mname full mloc [fd] enums nested)).str
        = os.str
          ++ messageRowText g.s_rowColor name
              (if g.s_includeScalarValueTable
                then "<emphasis role=\"underline\" xlink:href=\"#protobuf_scalar_value_types\">int32</emphasis>".toList
                else "int32".toList)
              "optional".toList []
    ∧ (∀ colour field type : Str,
        messageRowText colour field type "optional".toList []
          = "<row><?dbhtml bgcolor=\"#".toList ++ colour ++ "\" ?>\n".toList
            ++ "<?dbfo bgcolor=\"#".toList ++ colour ++ "\" ?>\n".toList
            ++ "\t<entry>".toList ++ field ++ "</entry>\n".toList
            ++ "\t<entry>".toList ++ type ++ "</entry>\n".toList
            ++ "\t<entry>optional</entry>\n".toList
            ++ "\t<entry></entry>\n".toList
            ++ "</row>\n\n".toList)
    ∧ (∀ (field : FieldDescriptor) (rest : List FieldDescriptor) (i : Nat),
        (WriteMessageFieldEntriesFrom g os (field :: rest) i).str
          = os.str
            ++ messageRowText (rowColour g i) field.name (specTypeCell g field)
                (specRuleCell field.label) (specDescriptionCell g field)
            ++ (WriteMessageFieldEntriesFrom g [] rest (i + 1)).str)
    ∧ specRuleCell Label.LABEL_OPTIONAL = "optional".toList
    ∧ specRuleCell Label.LABEL_REPEATED = "repeated".toList
    ∧ specRuleCell Label.LABEL_REQUIRED = "required".toList := by
  intro fd
  refine ⟨?_, ?_, ?_, rfl, rfl, rfl⟩
  · have hP : ParagraphFormatComment g (GetDescriptorComment fd.source_location) = [] :=
      ParagraphFormatComment_no_comment g located
    have hD : MakeDefaultValueString g fd = [] := by
      simp [MakeDefaultValueString, appendPacked, MakePackedString, fd]
    have hT : specTypeCell g fd
        = if g.s_includeScalarValueTable
          then "<emphasis role=\"underline\" xlink:href=\"#protobuf_scalar_value_types\">int32</emphasis>".toList
          else "int32".toList := by
      cases h : g.s_includeScalarValueTable
      · simp only [specTypeCell, h]; rfl
      · simp only [specTypeCell, h]; rfl
    simp only [WriteMessageFieldEntries, Descriptor.fields]
    rw [WriteMessageFieldEntriesFrom_str]
    simp only [List.enumFrom, List.flatMap_cons, List.flatMap_nil, List.append_nil, fieldRowText,
      specDescriptionCell, hP, annotationPart, hD, if_true, List.nil_append, hT]
    rfl
  · intro colour field type
    simp only [messageRowText, List.append_assoc, List.append_nil]
    rfl
  · intro field rest i
    rw [WriteMessageFieldEntriesFrom_str, WriteMessageFieldEntriesFrom_str]
    simp [List.enumFrom, fieldRowText, str_nil]

/-! ## Display names along the nesting path -/

/-- The output of `WriteMessage` on the empty stream, with the display name as
`displayStep`. -/
theorem WriteMessage_parts (g : Globals) (m : Descriptor) (pfx : Str) (d : Int) :
    WriteMessage g [] m pfx d
      = (if m.field_count > 0 then (WriteMessageTable g [] m (displayStep pfx m.name) d).1
          else [])
        ++ (m.enum_types.flatMap fun e =>
              WriteEnumTable g [e] [] (displayStep pfx m.name) (d + 1))
        ++ (m.nested_types.flatMap fun n =>
              WriteMessage g [] n (displayStep pfx m.name) (d + 1))
        ++ (if m.field_count > 0
            then [Piece.sectClose (SectionLevel d), Piece.text "\n".toList] else []) := by
  rw [(WriteMessage_output g [] m pfx d).1]
  rfl

theorem WriteMessage_head_mem (g : Globals) (m : Descriptor) (pfx : Str) (d : Int)
    (h : m.field_count > 0) :
    Piece.text (messageHeadText g (anchor m.full_name) (displayStep pfx m.name)
      (GetDescriptorComment m.source_location)) ∈ WriteMessage g [] m pfx d := by
  rw [WriteMessage_parts, if_pos h]
  obtain ⟨rest, hrest, -⟩ := WriteMessageInformalTableHeader_head g (replace m.full_name '.' '_')
    (displayStep pfx m.name) (GetDescriptorComment m.source_location) (SectionLevel d)
  have htab : Piece.text (messageHeadText g (anchor m.full_name) (displayStep pfx m.name)
      (GetDescriptorComment m.source_location))
      ∈ (WriteMessageTable g [] m (displayStep pfx m.name) d).1 := by
    simp only [WriteMessageTable, if_pos h, WriteMessageFieldEntries]
    rw [WriteInformalTableFooter_frame, WriteMessageFieldEntriesFrom_frame, hrest]
    simp [messageHeadText, replace_eq_anchor]
  simp only [List.mem_append]
  exact Or.inl (Or.inl (Or.inl htab))

theorem WriteEnumTable_head_mem (g : Globals) (e : EnumDescriptor) (pfx : Str) (sect : Int) :
    Piece.text (enumHeadText (anchor e.full_name) (displayStep pfx e.name)
      (GetDescriptorComment e.source_location)) ∈ WriteEnumTable g [e] [] pfx sect := by
  obtain ⟨rest, hrest, -⟩ := WriteEnumInformalTableHeader_head g (replace e.full_name '.' '_')
    (displayStep pfx e.name) (GetDescriptorComment e.source_location) sect
  have hw : WriteEnumTable g [e] [] pfx sect
      = WriteInformalTableFooterSection (WriteEnumFieldEntries g
          (WriteEnumInformalTableHeader g [] (replace e.full_name '.' '_')
            (displayStep pfx e.name) (GetDescriptorComment e.source_location) sect) e) sect := rfl
  rw [hw]
  simp only [WriteEnumFieldEntries]
  rw [WriteInformalTableFooterSection_frame, WriteEnumFieldEntriesFrom_frame, hrest]
  simp [enumHeadText, replace_eq_anchor]

theorem WriteMessage_contains_nested (g : Globals) (m child : Descriptor) (pfx : Str) (d : Int)
    (h : child ∈ m.nested_types) :
    WriteMessage g [] child (displayStep pfx m.name) (d + 1) <:+: WriteMessage g [] m pfx d := by
  rw [WriteMessage_parts g m]
  have h1 : WriteMessage g [] child (displayStep pfx m.name) (d + 1)
      <:+: (m.nested_types.flatMap fun n =>
        WriteMessage g [] n (displayStep pfx m.name) (d + 1)) := by
    obtain ⟨l1, l2, hl⟩ := List.append_of_mem h
    rw [hl]
    simp only [List.flatMap_append, List.flatMap_cons]
    exact ⟨_, _, List.append_assoc _ _ _⟩
  exact h1.trans (List.infix_append _ _ _)

theorem WriteMessage_contains_enum (g : Globals) (m : Descriptor) (e : EnumDescriptor) (pfx : Str)
    (d : Int) (h : e ∈ m.enum_types) :
    WriteEnumTable g [e] [] (displayStep pfx m.name) (d + 1) <:+: WriteMessage g [] m pfx d := by
  rw [WriteMessage_parts g m]
  have h1 : WriteEnumTable g [e] [] (displayStep pfx m.name) (d + 1)
      <:+: (m.enum_types.flatMap fun e =>
        WriteEnumTable g [e] [] (displayStep pfx m.name) (d + 1)) := by
    obtain ⟨l1, l2, hl⟩ := List.append_of_mem h
    rw [hl]
    simp only [List.flatMap_append, List.flatMap_cons]
    exact ⟨_, _, List.append_assoc _ _ _⟩
  refine h1.trans ?_
  rw [List.append_assoc, List.append_assoc]
  exact ⟨_, _, List.append_assoc _ _ _⟩

mutual
/-- Every message reached from `top` is written by a call of `WriteMessage`
inside the call for `top`, with a prefix that gives it the display name of its
path, at the depth of its path. -/
theorem reached_call (g : Globals) :
    ∀ (top : Descriptor) (pfx : Str) (d : Int), ∀ p ∈ top.reached,
      ∃ pfx1 : Str,
        WriteMessage g [] p.2 pfx1 (d + p.1.length - 1) <:+: WriteMessage g [] top pfx d
        ∧ displayStep pfx1 p.2.name = displayPath pfx p.1
  | .mk name full_name loc fields enums nested, pfx, d, p, hp => by
    simp only [Descriptor.reached, List.mem_cons, List.mem_map] at hp
    rcases hp with rfl | ⟨q, hq, rfl⟩
    · refine ⟨pfx, ?_, rfl⟩
      simp only [List.length_singleton, Nat.cast_one, add_sub_cancel_right]
      exact List.infix_refl _
    · obtain ⟨pfx1, hin, hname⟩ := reachedList_call g nested (displayStep pfx name) (d + 1) q hq
      refine ⟨pfx1, ?_, ?_⟩
      · have hd : d + ((name :: q.1).length : Int) - 1 = d + 1 + (q.1.length : Int) - 1 := by
          simp only [List.length_cons, Nat.cast_add, Nat.cast_one]
          ring
        simp only [hd]
        refine hin.trans ?_
        have hp := WriteMessage_parts g (Descriptor.mk name full_name loc fields enums nested)
          pfx d
        rw [hp]
        exact List.infix_append _ _ _
      · simpa [displayPath] using hname
theorem reachedList_call (g : Globals) :
    ∀ (ms : List Descriptor) (pfx : Str) (d : Int), ∀ p ∈ Descriptor.reachedList ms,
      ∃ pfx1 : Str,
        WriteMessage g [] p.2 pfx1 (d + p.1.length - 1)
          <:+: (ms.flatMap fun m => WriteMessage g [] m pfx d)
        ∧ displayStep pfx1 p.2.name = displayPath pfx p.1
  | [], pfx, d, p, hp => by simp [Descriptor.reachedList] at hp
  | m :: ms, pfx, d, p, hp => by
    simp only [Descriptor.reachedList, List.mem_append] at hp
    rcases hp with hp | hp
    · obtain ⟨pfx1, hin, hname⟩ := reached_call g m pfx d p hp
      refine ⟨pfx1, hin.trans ?_, hname⟩
      simp only [List.flatMap_cons]
      exact List.infix_append' [] _ _
    · obtain ⟨pfx1, hin, hname⟩ := reachedList_call g ms pfx d p hp
      refine ⟨pfx1, hin.trans ?_, hname⟩
      simp only [List.flatMap_cons]
      exact (List.suffix_append _ _).isInfix
end
theorem reached_message_head (g : Globals) (top : Descriptor) (pfx : Str) (d : Int)
    (p : List Str × Descriptor) (hp : p ∈ top.reached) (h : p.2.field_count > 0) :
    Piece.text (messageHeadText g (anchor p.2.full_name) (displayPath pfx p.1)
      (GetDescriptorComment p.2.source_location)) ∈ WriteMessage g [] top pfx d := by
  obtain ⟨pfx1, hin, hname⟩ := reached_call g top pfx d p hp
  rw [← hname]
  exact hin.subset (WriteMessage_head_mem g p.2 pfx1 _ h)

theorem reached_child_call (g : Globals) (top : Descriptor) (pfx : Str) (d : Int)
    (p : List Str × Descriptor) (hp : p ∈ top.reached) (child : Descriptor)
    (h : child ∈ p.2.nested_types) :
    WriteMessage g [] child (displayPath pfx p.1) (d + p.1.length)
      <:+: WriteMessage g [] top pfx d := by
  obtain ⟨pfx1, hin, hname⟩ := reached_call g top pfx d p hp
  have := WriteMessage_contains_nested g p.2 child pfx1 (d + p.1.length - 1) h
  rw [hname, sub_add_cancel] at this
  exact this.trans hin

theorem reached_enum_call (g : Globals) (top : Descriptor) (pfx : Str) (d : Int)
    (p : List Str × Descriptor) (hp : p ∈ top.reached) (e : EnumDescriptor)
    (h : e ∈ p.2.enum_types) :
    WriteEnumTable g [e] [] (displayPath pfx p.1) (d + p.1.length)
      <:+: WriteMessage g [] top pfx d := by
  obtain ⟨pfx1, hin, hname⟩ := reached_call g top pfx d p hp
  have := WriteMessage_contains_enum g p.2 e pfx1 (d + p.1.length - 1) h
  rw [hname, sub_add_cancel] at this
  exact this.trans hin

theorem displayPath_append (path : List Str) :
    ∀ (pfx localName : Str),
      displayPath pfx (path ++ [localName]) = displayStep (displayPath pfx path) localName := by
  induction path with
  | nil => intro pfx localName; rfl
  | cons n rest ih => intro pfx localName; exact ih _ _

theorem reached_enum_head (g : Globals) (top : Descriptor) (pfx : Str) (d : Int)
    (p : List Str × Descriptor) (hp : p ∈ top.reached) (e : EnumDescriptor)
    (h : e ∈ p.2.enum_types) :
    Piece.text (enumHeadText (anchor e.full_name) (displayPath pfx (p.1 ++ [e.name]))
      (GetDescriptorComment e.source_location)) ∈ WriteMessage g [] top pfx d := by
  rw [displayPath_append]
  exact (reached_enum_call g top pfx d p hp e h).subset (WriteEnumTable_head_mem g e _ _)

theorem displayPath_from_name (path : List Str) :
    ∀ pfx : Str, pfx ≠ [] → (∀ n ∈ path, n ≠ []) →
      displayPath pfx path
        = if path = [] then pfx else pfx ++ ".".toList ++ dotJoined path := by
  induction path with
  | nil => intro pfx _ _; rfl
  | cons n rest ih =>
    intro pfx hpfx hall
    have hstep : displayStep pfx n = pfx ++ ".".toList ++ n := by simp [displayStep, hpfx]
    have hne : pfx ++ ".".toList ++ n ≠ [] := by simp [hpfx]
    simp only [displayPath, hstep]
    rw [ih _ hne fun m hm => hall m (List.mem_cons_of_mem _ hm)]
    cases rest with
    | nil => simp [dotJoined]
    | cons r rest => simp [dotJoined]

theorem displayPath_dotJoined (path : List Str) (hall : ∀ n ∈ path, n ≠ []) :
    displayPath [] path = dotJoined path := by
  cases path with
  | nil => rfl
  | cons n rest =>
    have hn : n ≠ [] := hall n (List.mem_cons_self _ _)
    have hstep : displayStep [] n = n := by simp [displayStep]
    simp only [displayPath, hstep]
    rw [displayPath_from_name rest n hn fun m hm => hall m (List.mem_cons_of_mem _ hm)]
    cases rest with
    | nil => simp [dotJoined]
    | cons r rest => simp [dotJoined]

/-- C22. In the output of `WriteMessage` for a top-level message `top`, called
with the empty prefix, every message reached from `top` through the nesting
path `n1, ..., nk` has, if it has a field, a table whose title is the display
name of that path, and every enum declared in it has a table whose title is the
display name of its path extended by the name of the enum. Every nested message
and every enum of a reached message is written by a call that gets the display
name of the reached message as prefix, one level below it, also when the
reached message has no field and prints nothing. The display name of a path
grows by one step for each name: the name so far, a dot and the local name when
the name so far is not empty, the local name alone when it is; for a path of
non-empty names this is the names joined by dots. -/
theorem C22_display_names (g : Globals) (top : Descriptor) (d : Int) :
    (∀ p ∈ top.reached, p.2.field_count > 0 →
      Piece.text ("<title> Message: ".toList ++ displayPath [] p.1 ++ "</title>".toList
          ++ "\n".toList
          ++ ParagraphFormatComment g (GetDescriptorComment p.2.source_location) ++ "\n".toList
          ++ "<informaltable frame=\"all\"".toList
          ++ " xml:id=\"".toList ++ anchor p.2.full_name ++ "\">".toList ++ "\n".toList
          ++ "<tgroup cols=\"4\">".toList ++ "\n".toList
          ++ " <colspec colname=\"c1\" colnum=\"1\" colwidth=\"".toList)
        ∈ WriteMessage g [] top [] d)
    ∧ (∀ p ∈ top.reached, ∀ e ∈ p.2.enum_types,
      Piece.text ("<title> Enum: ".toList ++ displayPath [] (p.1 ++ [e.name])
          ++ "</title>".toList ++ "\n".toList
          ++ "<para>".toList ++ GetDescriptorComment e.source_location ++ "</para>".toList
          ++ "\n".toList
          ++ "<informaltable frame=\"all\"".toList
          ++ " xml:id=\"".toList ++ anchor e.full_name ++ "\">".toList ++ "\n".toList
          ++ "<tgroup cols=\"3\">".toList ++ "\n".toList
          ++ " <colspec colname=\"c1\" colnum=\"1\" colwidth=\"".toList)
        ∈ WriteMessage g [] top [] d)
    ∧ (∀ p ∈ top.reached, ∀ child ∈ p.2.nested_types,
        WriteMessage g [] child (displayPath [] p.1) (d + p.1.length)
          <:+: WriteMessage g [] top [] d)
    ∧ (∀ p ∈ top.reached, ∀ e ∈ p.2.enum_types,
        WriteEnumTable g [e] [] (displayPath [] p.1) (d + p.1.length)
          <:+: WriteMessage g [] top [] d)
    ∧ (∀ (pfx : Str) (path : List Str) (localName : Str),
        displayPath pfx (path ++ [localName])
          = if displayPath pfx path ≠ [] then displayPath pfx path ++ ".".toList ++ localName
            else localName)
    ∧ (∀ path : List Str, (∀ n ∈ path, n ≠ []) → displayPath [] path = dotJoined path)
    ∧ dotJoined ["Outer".toList, "Inner".toList, "Leaf".toList] = "Outer.Inner.Leaf".toList := by
  refine ⟨fun p hp h => reached_message_head g top [] d p hp h,
    fun p hp e he => reached_enum_head g top [] d p hp e he,
    fun p hp child hc => reached_child_call g top [] d p hp child hc,
    fun p hp e he => reached_enum_call g top [] d p hp e he,
    fun pfx path n => displayPath_append path pfx n,
    displayPath_dotJoined, by decide⟩

/-! ## Links and their targets -/

theorem mem_reachedList (ms : List Descriptor) (p : List Str × Descriptor)
    (hp : p ∈ Descriptor.reachedList ms) : ∃ top ∈ ms, p ∈ top.reached := by
  induction ms with
  | nil => simp [Descriptor.reachedList] at hp
  | cons m rest ih =>
    simp only [Descriptor.reachedList, List.mem_append] at hp
    rcases hp with hp | hp
    · exact ⟨m, List.mem_cons_self _ _, hp⟩
    · obtain ⟨top, ht, h⟩ := ih hp
      exact ⟨top, List.mem_cons_of_mem _ ht, h⟩

theorem GenerateStream_contains_message (g : Globals) (file : FileDescriptor) (top : Descriptor)
    (h : top ∈ file.message_types) :
    WriteMessage g [] top [] (g.s_startingSectionLevel + 1) <:+: GenerateStream g file := by
  rw [GenerateStream_eq]
  have h1 : WriteMessage g [] top [] (g.s_startingSectionLevel + 1)
      <:+: (file.message_types.flatMap fun m =>
        WriteMessage g [] m [] (g.s_startingSectionLevel + 1)) := by
    obtain ⟨l1, l2, hl⟩ := List.append_of_mem h
    rw [hl]
    simp only [List.flatMap_append, List.flatMap_cons]
    exact ⟨_, _, List.append_assoc _ _ _⟩
  refine h1.trans ?_
  rw [List.append_assoc, List.append_assoc]
  exact ⟨_, _, List.append_assoc _ _ _⟩

theorem GenerateStream_contains_enum (g : Globals) (file : FileDescriptor) (e : EnumDescriptor)
    (h : e ∈ file.enum_types) :
    WriteEnumTable g [e] [] [] (g.s_startingSectionLevel + 1) <:+: GenerateStream g file := by
  rw [GenerateStream_eq]
  have h1 : WriteEnumTable g [e] [] [] (g.s_startingSectionLevel + 1)
      <:+: (file.enum_types.flatMap fun e =>
        WriteEnumTable g [e] [] [] (g.s_startingSectionLevel + 1)) := by
    obtain ⟨l1, l2, hl⟩ := List.append_of_mem h
    rw [hl]
    simp only [List.flatMap_append, List.flatMap_cons]
    exact ⟨_, _, List.append_assoc _ _ _⟩
  exact h1.trans (List.infix_append _ _ _)

/-- The table of every declared message that has a field is in the document,
with the `xml:id` of its qualified name. -/
theorem declared_message_head (g : Globals) (file : FileDescriptor)
    (q : List Str × Descriptor) (hq : q ∈ file.messages) (h : q.2.field_count > 0) :
    Piece.text (messageHeadText g (anchor q.2.full_name) (displayPath [] q.1)
      (GetDescriptorComment q.2.source_location)) ∈ GenerateStream g file := by
  obtain ⟨top, ht, hr⟩ := mem_reachedList _ q hq
  exact (GenerateStream_contains_message g file top ht).subset
    (reached_message_head g top [] _ q hr h)

/-- The table of every declared enum is in the document, with the `xml:id` of
its qualified name. -/
theorem declared_enum_head (g : Globals) (file : FileDescriptor) (e : EnumDescriptor)
    (he : e ∈ file.enums) :
    ∃ title : Str, Piece.text (enumHeadText (anchor e.full_name) title
      (GetDescriptorComment e.source_location)) ∈ GenerateStream g file := by
  simp only [FileDescriptor.enums, List.mem_append, List.mem_flatMap] at he
  rcases he with he | ⟨q, hq, he⟩
  · exact ⟨_, (GenerateStream_contains_enum g file e he).subset (WriteEnumTable_head_mem g e _ _)⟩
  · obtain ⟨top, ht, hr⟩ := mem_reachedList _ q hq
    exact ⟨_, (GenerateStream_contains_message g file top ht).subset
      (reached_enum_head g top [] _ q hr e he)⟩

theorem WriteMessage_contains_rows (g : Globals) (m : Descriptor) (pfx : Str) (d : Int) :
    WriteMessageFieldEntries g [] m <:+: WriteMessage g [] m pfx d := by
  by_cases h : m.field_count > 0
  · rw [WriteMessage_parts, if_pos h]
    have h1 : WriteMessageFieldEntries g [] m
        <:+: (WriteMessageTable g [] m (displayStep pfx m.name) d).1 := by
      simp only [WriteMessageTable, if_pos h]
      rw [WriteInformalTableFooter_frame]
      conv_rhs => rw [WriteMessageFieldEntries, WriteMessageFieldEntriesFrom_frame]
      exact List.infix_append _ _ _
    refine h1.trans ?_
    rw [List.append_assoc, List.append_assoc]
    exact List.infix_append' [] _ _
  · have : m.fields = [] := by
      cases hf : m.fields with
      | nil => rfl
      | cons f rest => simp [Descriptor.field_count, hf] at h
    simp only [WriteMessageFieldEntries, this, WriteMessageFieldEntriesFrom]
    exact List.nil_infix

/-- The rows of every declared message are in the document. -/
theorem declared_message_rows (g : Globals) (file : FileDescriptor)
    (p : List Str × Descriptor) (hp : p ∈ file.messages) :
    WriteMessageFieldEntries g [] p.2 <:+: GenerateStream g file := by
  obtain ⟨top, ht, hr⟩ := mem_reachedList _ p hp
  obtain ⟨pfx1, hin, -⟩ := reached_call g top [] (g.s_startingSectionLevel + 1) p hr
  exact ((WriteMessage_contains_rows g p.2 _ _).trans hin).trans (GenerateStream_contains_message g file top ht)
set_option maxRecDepth 100000 in
/-- C30, the code at the failing input. In `fileWithEmptyMessage` the only
message-typed field refers to `Empty`, a message declared in the same file; the
document holds the link that `MakeXLink` makes for it, with the target
`#Empty`, once, and no `xml:id="Empty"`: a message without fields gets no
table (the only `xml:id` of the document is that of `M`), and the link leads
nowhere. -/
theorem C30_link_without_target :
    (∀ p ∈ fileWithEmptyMessage.messages, ∀ fd ∈ p.2.fields,
      (fd.type = FieldType.TYPE_MESSAGE →
        ∃ q ∈ fileWithEmptyMessage.messages, q.2.full_name = fd.message_type.full_name)
      ∧ fd.type ≠ FieldType.TYPE_ENUM)
    ∧ MakeXLink "Empty".toList "Empty".toList
        = "<emphasis role=\"underline\" xlink:href=\"#Empty\">Empty</emphasis>".toList
    ∧ occurrences (MakeXLink "Empty".toList "Empty".toList)
        (GenerateStream {} fileWithEmptyMessage).str = 1
    ∧ occurrences "xml:id=\"Empty\"".toList (GenerateStream {} fileWithEmptyMessage).str = 0
    ∧ occurrences "xml:id=\"".toList (GenerateStream {} fileWithEmptyMessage).str = 1
    ∧ occurrences "xml:id=\"M\"".toList (GenerateStream {} fileWithEmptyMessage).str = 1 := by
  decide

/-- The links that have a target. In a file in which every message-typed field
refers to a message declared in the same file that has at least one field, and
every enum-typed field to an enum declared in the same file: the rows of every
declared message are in the document rendered by `Generate`, and for every
field of message or enum type the Type cell of its row is the link made by
`MakeXLink`, whose `href` is `#` followed by the qualified name of the
referenced type with every dot replaced by an underscore, and the document
holds the head of a table whose `xml:id` is that same text. -/
theorem links_have_targets (g : Globals) (file : FileDescriptor)
    (hm : ∀ p ∈ file.messages, ∀ fd ∈ p.2.fields, fd.type = FieldType.TYPE_MESSAGE →
      ∃ q ∈ file.messages, q.2.full_name = fd.message_type.full_name ∧ q.2.field_count > 0)
    (he : ∀ p ∈ file.messages, ∀ fd ∈ p.2.fields, fd.type = FieldType.TYPE_ENUM →
      ∃ e ∈ file.enums, e.full_name = fd.enum_type.full_name) :
    ∀ p ∈ file.messages,
      WriteMessageFieldEntries g [] p.2 <:+: GenerateStream g file
      ∧ (WriteMessageFieldEntries g [] p.2).str
          = (p.2.fields.enum.flatMap fun q =>
              messageRowText (rowColour g q.1) q.2.name (specTypeCell g q.2)
                (specRuleCell q.2.label) (specDescriptionCell g q.2))
      ∧ ∀ fd ∈ p.2.fields,
          (fd.type = FieldType.TYPE_MESSAGE →
            specTypeCell g fd = MakeXLink fd.message_type.full_name fd.message_type.name
            ∧ MakeXLink fd.message_type.full_name fd.message_type.name
                = "<emphasis role=\"underline\" xlink:href=\"#".toList
                  ++ anchor fd.message_type.full_name ++ "\">".toList
                  ++ fd.message_type.name ++ "</emphasis>".toList
            ∧ ∃ title comment : Str,
                Piece.text (messageHeadText g (anchor fd.message_type.full_name) title comment)
                  ∈ GenerateStream g file)
          ∧ (fd.type = FieldType.TYPE_ENUM →
            specTypeCell g fd = MakeXLink fd.enum_type.full_name fd.enum_type.name
            ∧ MakeXLink fd.enum_type.full_name fd.enum_type.name
                = "<emphasis role=\"underline\" xlink:href=\"#".toList
                  ++ anchor fd.enum_type.full_name ++ "\">".toList
                  ++ fd.enum_type.name ++ "</emphasis>".toList
            ∧ ∃ title description : Str,
                Piece.text (enumHeadText (anchor fd.enum_type.full_name) title description)
                  ∈ GenerateStream g file) := by
  intro p hp
  refine ⟨declared_message_rows g file p hp, ?_, ?_⟩
  · rw [WriteMessageFieldEntries_str]
    simp [str_nil, fieldRowText]
  · intro fd hfd
    constructor
    · intro ht
      refine ⟨?_, ?_, ?_⟩
      · simp [specTypeCell, ht, MakeXLink_eq]
      · simp [MakeXLink_eq, linkText]
      · obtain ⟨q, hq, hname, hcount⟩ := hm p hp fd hfd ht
        rw [← hname]
        exact ⟨_, _, declared_message_head g file q hq hcount⟩
    · intro ht
      refine ⟨?_, ?_, ?_⟩
      · simp [specTypeCell, ht, MakeXLink_eq]
      · simp [MakeXLink_eq, linkText]
      · obtain ⟨e, hmem, hname⟩ := he p hp fd hfd ht
        rw [← hname]
        obtain ⟨title, h⟩ := declared_enum_head g file e hmem
        exact ⟨title, _, h⟩

/-- The targets of the three links of `M` in `fileWithLinks`, to the message
`pkg.N` and to the enums `pkg.E` and `pkg.N.K`. -/
theorem links_have_targets_example :
    (∃ title comment : Str,
      Piece.text (messageHeadText {} "pkg_N".toList title comment)
        ∈ GenerateStream {} fileWithLinks)
    ∧ (∃ title description : Str,
      Piece.text (enumHeadText "pkg_E".toList title description)
        ∈ GenerateStream {} fileWithLinks)
    ∧ (∃ title description : Str,
      Piece.text (enumHeadText "pkg_N_K".toList title description)
        ∈ GenerateStream {} fileWithLinks) :=
  ⟨(((links_have_targets {} fileWithLinks (by decide) (by decide)
        (fileWithLinks.messages.get ⟨0, by decide⟩) (List.get_mem _ _ _)).2.2
      ((fileWithLinks.messages.get ⟨0, by decide⟩).2.fields.get ⟨0, by decide⟩)
      (List.get_mem _ _ _)).1 rfl).2.2,
   (((links_have_targets {} fileWithLinks (by decide) (by decide)
        (fileWithLinks.messages.get ⟨0, by decide⟩) (List.get_mem _ _ _)).2.2
      ((fileWithLinks.messages.get ⟨0, by decide⟩).2.fields.get ⟨1, by decide⟩)
      (List.get_mem _ _ _)).2 rfl).2.2,
   (((links_have_targets {} fileWithLinks (by decide) (by decide)
        (fileWithLinks.messages.get ⟨0, by decide⟩) (List.get_mem _ _ _)).2.2
      ((fileWithLinks.messages.get ⟨0, by decide⟩).2.fields.get ⟨2, by decide⟩)
      (List.get_mem _ _ _)).2 rfl).2.2⟩

/-! ## The properties parser -/

theorem dropWhile_append_all {p : Char → Bool} (a b : Str) (h : ∀ c ∈ a, p c = true) :
    (a ++ b).dropWhile p = b.dropWhile p := by
  induction a with
  | nil => rfl
  | cons x rest ih =>
    have hx : p x = true := h x (List.mem_cons_self _ _)
    simp only [List.cons_append, List.dropWhile_cons, hx, if_true]
    exact ih fun c hc => h c (List.mem_cons_of_mem _ hc)

theorem dropWhile_head_false {p : Char → Bool} (s : Str)
    (h : ∀ c, s.head? = some c → p c = false) : s.dropWhile p = s := by
  cases s with
  | nil => rfl
  | cons x rest => simp [List.dropWhile_cons, h x rfl]

theorem trimBack_append_blank (x w : Str) (h : ∀ c ∈ w, isBlank c = true) :
    trimBack (x ++ w) = trimBack x := by
  unfold trimBack
  rw [List.reverse_append, dropWhile_append_all _ _ fun c hc => h c (List.mem_reverse.mp hc)]

theorem trimBack_of_last (x : Str) (h : ∀ c, x.getLast? = some c → isBlank c = false) :
    trimBack x = x := by
  unfold trimBack
  rw [dropWhile_head_false, List.reverse_reverse]
  intro c hc
  exact h c (by rw [← List.head?_reverse]; exact hc)

theorem getLast?_append_of_ne_nil (a b : Str) (hb : b ≠ []) :
    (a ++ b).getLast? = b.getLast? := by
  rw [List.getLast?_append]
  cases h : b.getLast? with
  | none => exact absurd (List.getLast?_eq_none_iff.mp h) hb
  | some c => rfl

/-- What `Trim` keeps: between blank characters on both sides, a text that
begins and ends with a character above the space. -/
theorem Trim_padded (a x b : Str) (hx : x ≠ [])
    (ha : ∀ c ∈ a, isBlank c = true) (hb : ∀ c ∈ b, isBlank c = true)
    (hhead : ∀ c, x.head? = some c → isBlank c = false)
    (hlast : ∀ c, x.getLast? = some c → isBlank c = false) :
    Trim (a ++ x ++ b) = x := by
  unfold Trim trimFront
  rw [trimBack_append_blank _ _ hb, trimBack_of_last, dropWhile_append_all _ _ ha,
    dropWhile_head_false _ hhead]
  intro c hc
  rw [getLast?_append_of_ne_nil _ _ hx] at hc
  exact hlast c hc

theorem findFrom_eq_sign (a rest : Str) (n : Nat) (h : '=' ∉ a) :
    findFrom "=".toList (a ++ '=' :: rest) n = some (n + a.length) := by
  induction a generalizing n with
  | nil => simp [findFrom, List.isPrefixOf]
  | cons x xs ih =>
    have hx : x ≠ '=' := fun e => h (e ▸ List.mem_cons_self _ _)
    have hxs : '=' ∉ xs := fun hm => h (List.mem_cons_of_mem _ hm)
    have hp : List.isPrefixOf "=".toList (x :: (xs ++ '=' :: rest)) = false := by
      simp [List.isPrefixOf, hx.symm]
    have hstep : findFrom "=".toList (x :: (xs ++ '=' :: rest)) n
        = findFrom "=".toList (xs ++ '=' :: rest) (n + 1) := by
      rw [findFrom, hp]
      simp
    rw [List.cons_append, hstep, ih (n + 1) hxs]
    simp only [List.length_cons]
    congr 1
    omega

/-- A line whose first character above the space is `#` changes nothing. -/
theorem ParsePropertyLine_comment (options : List (Str × Str)) (line : Str)
    (h : (line.dropWhile isBlank).head? = some '#') :
    ParsePropertyLine options line = options := by
  have hsplit : line = line.takeWhile isBlank ++ line.dropWhile isBlank :=
    (List.takeWhile_append_dropWhile _ _).symm
  obtain ⟨rest, hrest⟩ : ∃ rest, line.dropWhile isBlank = '#' :: rest := by
    cases hd : line.dropWhile isBlank with
    | nil => rw [hd] at h; simp at h
    | cons x xs =>
      rw [hd] at h
      simp only [List.head?_cons, Option.some.injEq] at h
      exact ⟨xs, by rw [h]⟩
  have htrim : ∃ t, Trim line = '#' :: t := by
    refine ⟨trimBack rest, ?_⟩
    rw [hsplit, hrest]
    unfold Trim trimFront
    have hb : trimBack (List.takeWhile isBlank line ++ '#' :: rest)
        = List.takeWhile isBlank line ++ '#' :: trimBack rest := by
      unfold trimBack
      rw [List.reverse_append, List.reverse_cons, List.append_assoc, List.dropWhile_append]
      by_cases hr : (List.dropWhile isBlank rest.reverse).isEmpty = true
      · rw [if_pos hr]
        have hnil : List.dropWhile isBlank rest.reverse = [] := List.isEmpty_iff.mp hr
        rw [hnil]
        simp [List.dropWhile_cons, show isBlank '#' = false by decide]
      · rw [if_neg hr]
        simp
    rw [hb, dropWhile_append_all _ _ fun c hc => (List.mem_takeWhile_imp hc)]
    simp [List.dropWhile_cons, show isBlank '#' = false by decide]
  obtain ⟨t, ht⟩ := htrim
  simp [ParsePropertyLine, ht]

theorem foldl_comments (options : List (Str × Str)) (lines : List Str)
    (h : ∀ l ∈ lines, (l.dropWhile isBlank).head? = some '#') :
    lines.foldl ParsePropertyLine options = options := by
  induction lines with
  | nil => rfl
  | cons l rest ih =>
    rw [List.foldl_cons, ParsePropertyLine_comment options l (h l (List.mem_cons_self _ _))]
    exact ih fun l hl => h l (List.mem_cons_of_mem _ hl)
theorem getlines_line (l rest : Str) (h : '\n' ∉ l) :
    getlines (l ++ '\n' :: rest) = l :: getlines rest := by
  induction l with
  | nil => simp [getlines]
  | cons c cs ih =>
    have hc : c ≠ '\n' := fun e => h (e ▸ List.mem_cons_self _ _)
    have hcs : '\n' ∉ cs := fun hm => h (List.mem_cons_of_mem _ hm)
    rw [List.cons_append, getlines, if_neg hc, ih hcs]

theorem getlines_last (l : Str) (h : '\n' ∉ l) (hl : l ≠ []) : getlines l = [l] := by
  induction l with
  | nil => exact absurd rfl hl
  | cons c cs ih =>
    have hc : c ≠ '\n' := fun e => h (e ▸ List.mem_cons_self _ _)
    have hcs : '\n' ∉ cs := fun hm => h (List.mem_cons_of_mem _ hm)
    rw [getlines, if_neg hc]
    cases cs with
    | nil => rfl
    | cons d ds => rw [ih hcs (by simp)]

/-- The lines that `std::getline` reads from a file of non-empty lines, with or
without a newline after the last. -/
theorem getlines_joinLines (lines : List Str) (terminated : Bool)
    (h : ∀ l ∈ lines, l ≠ [] ∧ '\n' ∉ l) (hne : lines ≠ []) :
    getlines (joinLines lines ++ if terminated then "\n".toList else []) = lines := by
  induction lines with
  | nil => exact absurd rfl hne
  | cons l rest ih =>
    obtain ⟨hl, hn⟩ := h l (List.mem_cons_self _ _)
    cases rest with
    | nil =>
      cases terminated
      · simp only [joinLines, Bool.false_eq_true, if_false, List.append_nil]
        exact getlines_last l hn hl
      · simp only [joinLines, if_true]
        rw [show l ++ "\n".toList = l ++ '\n' :: [] from rfl, getlines_line l [] hn]
        rfl
    | cons r rest =>
      have := ih (fun x hx => h x (List.mem_cons_of_mem _ hx)) (by simp)
      simp only [joinLines] at this ⊢
      rw [List.append_assoc, List.append_assoc,
        show "\n".toList ++ (joinLines (r :: rest) ++ if terminated = true then "\n".toList else [])
          = '\n' :: (joinLines (r :: rest) ++ if terminated = true then "\n".toList else [])
          from rfl,
        getlines_line l _ hn, this]

/-- The line `k = v`, with blanks around the key and the value. -/
theorem ParsePropertyLine_pair (options : List (Str × Str)) (k v ws1 ws2 ws3 ws4 : Str)
    (hk : k ≠ []) (hv : v ≠ [])
    (hkh : ∀ c, k.head? = some c → isBlank c = false)
    (hkl : ∀ c, k.getLast? = some c → isBlank c = false)
    (hvh : ∀ c, v.head? = some c → isBlank c = false)
    (hvl : ∀ c, v.getLast? = some c → isBlank c = false)
    (heq : '=' ∉ k) (hhash : k.head? ≠ some '#')
    (hws : ∀ c ∈ ws1 ++ ws2 ++ ws3 ++ ws4, c = ' ' ∨ c = '\t') :
    ParsePropertyLine options (ws1 ++ k ++ ws2 ++ "=".toList ++ ws3 ++ v ++ ws4)
      = mapAssign options k v := by
  have hblank : ∀ c ∈ ws1 ++ ws2 ++ ws3 ++ ws4, isBlank c = true := by
    intro c hc
    rcases hws c hc with rfl | rfl <;> decide
  have hnoeq : ∀ c ∈ ws1 ++ ws2 ++ ws3 ++ ws4, c ≠ '=' := by
    intro c hc
    rcases hws c hc with rfl | rfl <;> decide
  have h1 : ∀ c ∈ ws1, isBlank c = true := fun c hc => hblank c (by simp [hc])
  have h2 : ∀ c ∈ ws2, isBlank c = true := fun c hc => hblank c (by simp [hc])
  have h3 : ∀ c ∈ ws3, isBlank c = true := fun c hc => hblank c (by simp [hc])
  have h4 : ∀ c ∈ ws4, isBlank c = true := fun c hc => hblank c (by simp [hc])
  have hmid : k ++ ws2 ++ "=".toList ++ ws3 ++ v ≠ [] := by simp [hk]
  have hline : Trim (ws1 ++ k ++ ws2 ++ "=".toList ++ ws3 ++ v ++ ws4)
      = k ++ ws2 ++ "=".toList ++ ws3 ++ v := by
    have := Trim_padded ws1 (k ++ ws2 ++ "=".toList ++ ws3 ++ v) ws4 hmid h1 h4
      (by
        intro c hc
        cases k with
        | nil => exact absurd rfl hk
        | cons x xs => exact hkh c (by simpa using hc))
      (by
        intro c hc
        rw [getLast?_append_of_ne_nil _ _ hv] at hc
        exact hvl c hc)
    simpa [List.append_assoc] using this
  have hfind : find (k ++ ws2 ++ "=".toList ++ ws3 ++ v) "=".toList 0
      = some ((k ++ ws2).length) := by
    unfold find
    simp only [Nat.zero_le, if_true, List.drop_zero]
    have := findFrom_eq_sign (k ++ ws2) (ws3 ++ v) 0 (by
      intro hm
      rcases List.mem_append.mp hm with hm | hm
      · exact heq hm
      · exact hnoeq '=' (by simp [hm]) rfl)
    simpa [List.append_assoc] using this
  have hpos : (k ++ ws2).length > 0 := by
    cases k with
    | nil => exact absurd rfl hk
    | cons x xs => simp
  have htake : (k ++ ws2 ++ "=".toList ++ ws3 ++ v).take (k ++ ws2).length = k ++ ws2 := by
    rw [List.append_assoc (k ++ ws2), List.append_assoc (k ++ ws2), List.take_left']
    rfl
  have hdrop : (k ++ ws2 ++ "=".toList ++ ws3 ++ v).drop ((k ++ ws2).length + 1) = ws3 ++ v := by
    rw [show k ++ ws2 ++ "=".toList ++ ws3 ++ v = (k ++ ws2 ++ "=".toList) ++ (ws3 ++ v) by simp,
      List.drop_left']
    simp only [List.length_append, String.toList, List.length_cons, List.length_nil]
  have hkt : Trim (k ++ ws2) = k := by
    have := Trim_padded [] k ws2 hk (by simp) h2 hkh hkl
    simpa using this
  have hvt : Trim (ws3 ++ v) = v := by
    have := Trim_padded ws3 v [] hv h3 (by simp) hvh hvl
    simpa using this
  have hnot : ¬ (k ++ ws2 ++ "=".toList ++ ws3 ++ v ≠ []
      ∧ (k ++ ws2 ++ "=".toList ++ ws3 ++ v).head? = some '#') := by
    rintro ⟨-, hh⟩
    apply hhash
    cases k with
    | nil => exact absurd rfl hk
    | cons x xs => simpa using hh
  unfold ParsePropertyLine
  simp only [hline, if_neg hnot, hfind, hpos, if_true, htake, hdrop, hkt, hvt]
  simp [hk, hv]
/-- C24, as the claim states it, fails. The key of the line `\x01a=b` (its first
character is the control character 1) is not empty, holds no whitespace
character and no `=`, and does not begin with `#`; `Trim` removes every leading
and trailing character up to the space, the control characters among them, so
the map binds `a`, not the key. -/
theorem C24_counterexample :
    (∀ c ∈ "\x01a".toList, isSpace c = false)
    ∧ '=' ∉ "\x01a".toList
    ∧ "\x01a".toList.head? ≠ some '#'
    ∧ ParseProperty (singleFile "docbook.properties".toList "\x01a=b\n".toList)
        "docbook.properties".toList = [("a".toList, "b".toList)]
    ∧ (ParseProperty (singleFile "docbook.properties".toList "\x01a=b\n".toList)
        "docbook.properties".toList).lookup "\x01a".toList = none := by
  decide

/-- C24, amended. Let the key `k` and the value `v` be non-empty, without
whitespace characters, and begin and end with a character above the space (no
control character at either end); let `k` hold no `=` and not begin with `#`.
For any spaces and tabs before `k`, around the `=` and after `v`, a file that
holds the line of `k` and `v` and, before and after it, only lines whose first
character above the space is `#`, with or without a newline after its last
line, is parsed to the map that binds `k` to `v` and no other key. -/
theorem C24_parse_round_trip (fs : FileSystem) (filePath : Str) (k v ws1 ws2 ws3 ws4 : Str)
    (before after : List Str) (terminated : Bool)
    (hk : k ≠ []) (hv : v ≠ [])
    (hkw : ∀ c ∈ k, isSpace c = false) (hvw : ∀ c ∈ v, isSpace c = false)
    (hkh : ∀ c, k.head? = some c → isBlank c = false)
    (hkl : ∀ c, k.getLast? = some c → isBlank c = false)
    (hvh : ∀ c, v.head? = some c → isBlank c = false)
    (hvl : ∀ c, v.getLast? = some c → isBlank c = false)
    (heq : '=' ∉ k) (hhash : k.head? ≠ some '#')
    (hws : ∀ c ∈ ws1 ++ ws2 ++ ws3 ++ ws4, c = ' ' ∨ c = '\t')
    (hcomment : ∀ l ∈ before ++ after,
      '\n' ∉ l ∧ (l.dropWhile isBlank).head? = some '#')
    (hfile : fs (c_str filePath)
      = some (joinLines (before ++ [ws1 ++ k ++ ws2 ++ "=".toList ++ ws3 ++ v ++ ws4] ++ after)
          ++ if terminated then "\n".toList else [])) :
    ParseProperty fs filePath = [(k, v)] := by
  have hnl : ∀ s : Str, (∀ c ∈ s, isSpace c = false) → '\n' ∉ s := by
    intro s hs hm
    have := hs '\n' hm
    revert this
    decide
  have hwsn : '\n' ∉ ws1 ++ ws2 ++ ws3 ++ ws4 := by
    intro hm
    rcases hws '\n' hm with h | h <;> exact absurd h (by decide)
  have hline : '\n' ∉ ws1 ++ k ++ ws2 ++ "=".toList ++ ws3 ++ v ++ ws4 := by
    intro hm
    simp only [List.mem_append] at hm
    rcases hm with (((((hm | hm) | hm) | hm) | hm) | hm) | hm
    · exact hwsn (by simp [hm])
    · exact hnl k hkw hm
    · exact hwsn (by simp [hm])
    · revert hm; decide
    · exact hwsn (by simp [hm])
    · exact hnl v hvw hm
    · exact hwsn (by simp [hm])
  have hlines : getlines (joinLines
      (before ++ [ws1 ++ k ++ ws2 ++ "=".toList ++ ws3 ++ v ++ ws4] ++ after)
        ++ if terminated then "\n".toList else [])
      = before ++ [ws1 ++ k ++ ws2 ++ "=".toList ++ ws3 ++ v ++ ws4] ++ after := by
    apply getlines_joinLines
    · intro l hl
      simp only [List.mem_append, List.mem_singleton] at hl
      have hc : ∀ l ∈ before ++ after, l ≠ [] ∧ '\n' ∉ l := by
        intro l hl
        obtain ⟨h1, h2⟩ := hcomment l hl
        refine ⟨?_, h1⟩
        rintro rfl
        simp at h2
      rcases hl with (hl | rfl) | hl
      · exact hc l (by simp [hl])
      · exact ⟨by simp [hk], hline⟩
      · exact hc l (by simp [hl])
    · simp
  unfold ParseProperty
  rw [hfile]
  simp only [hlines, List.foldl_append, List.foldl_cons, List.foldl_nil]
  rw [foldl_comments [] before fun l hl => (hcomment l (by simp [hl])).2,
    ParsePropertyLine_pair [] k v ws1 ws2 ws3 ws4 hk hv hkh hkl hvh hvl heq hhash hws,
    foldl_comments _ after fun l hl => (hcomment l (by simp [hl])).2]
  rfl

/-- C24, amended, on a file of three lines: a comment, the line of `row_color`
with blanks around the key and the value, and an indented comment. -/
theorem C24_parse_round_trip_witness :
    ParseProperty
        (singleFile "docbook.properties".toList
          "# colours\n  row_color \t=\teeeeee \n  # end\n".toList)
        "docbook.properties".toList
      = [("row_color".toList, "eeeeee".toList)] :=
  C24_parse_round_trip
    (singleFile "docbook.properties".toList
      "# colours\n  row_color \t=\teeeeee \n  # end\n".toList)
    "docbook.properties".toList "row_color".toList "eeeeee".toList
    "  ".toList " \t".toList "\t".toList " ".toList
    ["# colours".toList] ["  # end".toList] true
    (by decide) (by decide) (by decide) (by decide) (by decide) (by decide) (by decide)
    (by decide) (by decide) (by decide) (by decide) (by decide) (by decide)

/-! ## The bootstrap document -/

theorem isPrefixOf_cons_cons (p x : Char) (ps xs : Str) :
    List.isPrefixOf (p :: ps) (x :: xs) = (p == x && List.isPrefixOf ps xs) := rfl

theorem occurrences_cons (pat : Str) (c : Char) (cs : Str) :
    occurrences pat (c :: cs)
      = (if pat.isPrefixOf (c :: cs) then 1 else 0) + occurrences pat cs := rfl

theorem isPrefixOf_append_of_head (pat : Str) :
    ∀ (s b : Str), (∀ c, b.head? = some c → c ∉ pat) →
      pat.isPrefixOf (s ++ b) = pat.isPrefixOf s := by
  induction pat with
  | nil => intro s b _; simp [List.isPrefixOf]
  | cons p ps ih =>
    intro s b hb
    cases s with
    | nil =>
      cases b with
      | nil => rfl
      | cons y ys =>
        have hy : p ≠ y := fun e => hb y rfl (e ▸ List.mem_cons_self _ _)
        simp [List.isPrefixOf, hy]
    | cons x xs =>
      rw [List.cons_append, isPrefixOf_cons_cons, isPrefixOf_cons_cons,
        ih xs b fun c hc hm => hb c hc (List.mem_cons_of_mem _ hm)]

theorem isPrefixOf_append_of_last (pat : Str) :
    ∀ (s b : Str), s ≠ [] → (∀ c, s.getLast? = some c → c ∉ pat) →
      pat.isPrefixOf (s ++ b) = pat.isPrefixOf s := by
  induction pat with
  | nil => intro s b _ _; simp [List.isPrefixOf]
  | cons p ps ih =>
    intro s b hs hlast
    cases s with
    | nil => exact absurd rfl hs
    | cons x xs =>
      rw [List.cons_append, isPrefixOf_cons_cons, isPrefixOf_cons_cons]
      cases xs with
      | nil =>
        have hx : p ≠ x := fun e => hlast x rfl (e ▸ List.mem_cons_self _ _)
        have hpx : (p == x) = false := by simpa using hx
        rw [hpx]
        rfl
      | cons y ys =>
        rw [ih (y :: ys) b (by simp) (fun c hc hm =>
          hlast c (by simpa [List.getLast?_cons_cons] using hc) (List.mem_cons_of_mem _ hm))]

/-- Occurrences add up over a junction whose right side begins with a character
that is not in the text looked for. -/
theorem occurrences_append_of_head (pat : Str) (hp : pat ≠ []) (a b : Str)
    (hb : ∀ c, b.head? = some c → c ∉ pat) :
    occurrences pat (a ++ b) = occurrences pat a + occurrences pat b := by
  have hnil : occurrences pat [] = 0 := by
    cases pat with
    | nil => exact absurd rfl hp
    | cons p ps => rfl
  induction a with
  | nil => simp [hnil]
  | cons x xs ih =>
    have h := isPrefixOf_append_of_head pat (x :: xs) b hb
    rw [List.cons_append] at h
    rw [List.cons_append, occurrences_cons, occurrences_cons, h, ih]
    omega

/-- Occurrences add up over a junction whose left side ends with a character
that is not in the text looked for. -/
theorem occurrences_append_of_last (pat : Str) (hp : pat ≠ []) (a b : Str)
    (ha : ∀ c, a.getLast? = some c → c ∉ pat) :
    occurrences pat (a ++ b) = occurrences pat a + occurrences pat b := by
  have hnil : occurrences pat [] = 0 := by
    cases pat with
    | nil => exact absurd rfl hp
    | cons p ps => rfl
  induction a with
  | nil => simp [hnil]
  | cons x xs ih =>
    have h := isPrefixOf_append_of_last pat (x :: xs) b (by simp) ha
    rw [List.cons_append] at h
    have hxs : ∀ c, xs.getLast? = some c → c ∉ pat := by
      intro c hc
      cases xs with
      | nil => simp at hc
      | cons y ys => exact ha c (by simpa [List.getLast?_cons_cons] using hc)
    rw [List.cons_append, occurrences_cons, occurrences_cons, h, ih hxs]
    omega

theorem occurrences_after (pat : Str) (hp : pat ≠ []) (a b : Str) (x : Char)
    (ha : a.getLast? = some x) (hx : x ∉ pat) :
    occurrences pat (a ++ b) = occurrences pat a + occurrences pat b :=
  occurrences_append_of_last pat hp a b fun c hc => by
    rw [ha] at hc
    cases hc
    exact hx

theorem occurrences_before (pat : Str) (hp : pat ≠ []) (a b : Str) (x : Char)
    (hb : b.head? = some x) (hx : x ∉ pat) :
    occurrences pat (a ++ b) = occurrences pat a + occurrences pat b :=
  occurrences_append_of_head pat hp a b fun c hc => by
    rw [hb] at hc
    cases hc
    exact hx

theorem occurrences_before_text (pat : Str) (hp : pat ≠ []) (a lit b : Str) (x : Char)
    (hl : lit.head? = some x) (hx : x ∉ pat) :
    occurrences pat (a ++ (lit ++ b)) = occurrences pat a + occurrences pat (lit ++ b) :=
  occurrences_before pat hp a (lit ++ b) x
    (by cases lit with
      | nil => simp at hl
      | cons y ys => simpa using hl) hx

theorem primaryMarker_ne_nil : primaryMarker ≠ [] := by decide

/-- The text of the rows of the scalar value table, row by row. -/
theorem WriteScalarValueTableRows_str_cons (g : Globals) (row : List Str)
    (rest : List (List Str)) (i : Nat) :
    (WriteScalarValueTableRows g [] (row :: rest) i).str
      = "<row><?dbhtml bgcolor=\"#".toList
        ++ ((if i % 2 = 1 then g.s_rowColorAlt else g.s_rowColor)
        ++ ("\" ?>\n<?dbfo bgcolor=\"#".toList
        ++ ((if i % 2 = 1 then g.s_rowColorAlt else g.s_rowColor)
        ++ ("\" ?>\n".toList
        ++ (((WriteScalarValueTableColumns [] row).str ++ "</row>\n".toList)
        ++ (WriteScalarValueTableRows g [] rest (i + 1)).str))))) := by
  simp only [WriteScalarValueTableRows]
  rw [WriteScalarValueTableRows_frame, WriteScalarValueTableColumns_frame]
  simp only [put_eq, str_append, str_text, List.nil_append, List.append_assoc]
  rfl

theorem occurrences_rows_cons (g : Globals) (row : List Str) (rest : List (List Str)) (i : Nat)
    (hrow : occurrences primaryMarker
      ((WriteScalarValueTableColumns [] row).str ++ "</row>\n".toList) = 0) :
    occurrences primaryMarker (WriteScalarValueTableRows g [] (row :: rest) i).str
      = 2 * occurrences primaryMarker (if i % 2 = 1 then g.s_rowColorAlt else g.s_rowColor)
        + occurrences primaryMarker (WriteScalarValueTableRows g [] rest (i + 1)).str := by
  rw [WriteScalarValueTableRows_str_cons,
    occurrences_after _ primaryMarker_ne_nil "<row><?dbhtml bgcolor=\"#".toList _ '#' rfl
      (by decide),
    occurrences_before_text _ primaryMarker_ne_nil _ "\" ?>\n<?dbfo bgcolor=\"#".toList _ '"'
      rfl (by decide),
    occurrences_after _ primaryMarker_ne_nil "\" ?>\n<?dbfo bgcolor=\"#".toList _ '#' rfl
      (by decide),
    occurrences_before_text _ primaryMarker_ne_nil _ "\" ?>\n".toList _ '"' rfl (by decide),
    occurrences_after _ primaryMarker_ne_nil "\" ?>\n".toList _ '\n' rfl (by decide),
    occurrences_after _ primaryMarker_ne_nil
      ((WriteScalarValueTableColumns [] row).str ++ "</row>\n".toList) _ '\n'
      (by rw [getLast?_append_of_ne_nil _ _ (by decide)]; rfl) (by decide),
    hrow,
    show occurrences primaryMarker "<row><?dbhtml bgcolor=\"#".toList = 0 by decide,
    show occurrences primaryMarker "\" ?>\n<?dbfo bgcolor=\"#".toList = 0 by decide,
    show occurrences primaryMarker "\" ?>\n".toList = 0 by decide]
  omega

set_option maxRecDepth 100000 in
theorem occurrences_rows_table (g : Globals) :
    occurrences primaryMarker (WriteScalarValueTableRows g [] s_scalarTable 0).str
      = 16 * occurrences primaryMarker g.s_rowColor
        + 14 * occurrences primaryMarker g.s_rowColorAlt := by
  unfold s_scalarTable
  iterate 15 rw [occurrences_rows_cons g _ _ _ (by decide)]
  simp only [WriteScalarValueTableRows, str_nil]
  have h0 : occurrences primaryMarker [] = 0 := by decide
  rw [h0]
  norm_num
  omega
theorem str_cons (p : Piece) (os : OStream) :
    OStream.str (p :: os) = p.str ++ OStream.str os := by
  simp [OStream.str]

/-- The text of the scalar value table: fixed text around the two places of the
header colour and the rows. -/
theorem WriteScalarValueTable_str (g : Globals) :
    (WriteScalarValueTable g []).str
      = ("<sect".toList ++ showInt 1 ++ ">".toList
          ++ "<title>Scalar Value Types</title>".toList ++ "\n".toList
          ++ "<para> A scalar message field can have one of the following types - \t\t\t   the table shows the type specified in the .proto file, and the \t\t\t   corresponding type in the automatically generated class: </para>".toList
          ++ "\n".toList
          ++ "<informaltable frame=\"all\"".toList
          ++ " xml:id=\"".toList ++ SCALAR_VALUE_TYPES_TABLE_XML_ID ++ "\">".toList ++ "\n".toList
          ++ "<tgroup cols=\"4\">".toList ++ "\n".toList
          ++ " <colspec colname=\"c1\" colnum=\"1\" colwidth=\"2*\"/>".toList ++ "\n".toList
          ++ " <colspec colname=\"c2\" colnum=\"2\" colwidth=\"6*\"/>".toList ++ "\n".toList
          ++ " <colspec colname=\"c3\" colnum=\"3\" colwidth=\"2*\"/>".toList ++ "\n".toList
          ++ " <colspec colname=\"c4\" colnum=\"4\" colwidth=\"2*\"/>".toList ++ "\n".toList
          ++ "<thead>".toList ++ "\n".toList
          ++ "<row>".toList ++ "\n".toList
          ++ "<?dbhtml bgcolor=\"#".toList)
        ++ (g.s_columnHeaderColor
        ++ (("\" ?>".toList ++ "\n".toList ++ "<?dbfo bgcolor=\"#".toList)
        ++ (g.s_columnHeaderColor
        ++ (("\" ?>".toList ++ "\n".toList
              ++ "<entry>Type</entry>".toList ++ "\n".toList
              ++ "<entry>Notes</entry>".toList ++ "\n".toList
              ++ "<entry>C++ Type</entry>".toList ++ "\n".toList
              ++ "<entry>Java Type</entry>".toList ++ "\n".toList
              ++ "</row>".toList ++ "\n".toList
              ++ "</thead>".toList ++ "\n".toList
              ++ "<tbody>".toList ++ "\n".toList)
        ++ ((WriteScalarValueTableRows g [] s_scalarTable 0).str
        ++ ("</tbody>".toList ++ "\n".toList
              ++ "</tgroup>".toList ++ "\n".toList
              ++ "</informaltable>".toList ++ "\n".toList
              ++ "</sect".toList ++ showInt 1 ++ ">".toList ++ "\n".toList)))))) := by
  simp only [WriteScalarValueTable, put_eq, openSect_eq, closeSect_eq]
  rw [WriteScalarValueTableRows_frame]
  simp only [str_append, str_cons, str_nil, Piece.str, List.nil_append, List.append_nil,
    List.append_assoc]

theorem rows_getLast (g : Globals) (rows : List (List Str)) :
    ∀ (i : Nat) (c : Char),
      (WriteScalarValueTableRows g [] rows i).str.getLast? = some c → c = '\n' := by
  induction rows with
  | nil => intro i c h; simp [WriteScalarValueTableRows, str_nil] at h
  | cons row rest ih =>
    intro i c h
    rw [WriteScalarValueTableRows_str_cons] at h
    simp only [← List.append_assoc] at h
    rw [List.getLast?_append] at h
    cases hr : (WriteScalarValueTableRows g [] rest (i + 1)).str.getLast? with
    | some d =>
      rw [hr] at h
      have hd : d = c := by simpa [Option.or] using h
      rw [← hd]
      exact ih _ _ hr
    | none =>
      rw [hr, getLast?_append_of_ne_nil _ _ (by decide)] at h
      have hc : some '\n' = some c := by simpa [Option.or] using h
      exact (Option.some.inj hc).symm

set_option maxRecDepth 100000 in
/-- The occurrences of the primary marker in the scalar value table: those in
the colours, as often as the table copies each. -/
theorem occurrences_table (g : Globals) :
    occurrences primaryMarker (WriteScalarValueTable g []).str
      = 2 * occurrences primaryMarker g.s_columnHeaderColor
        + 16 * occurrences primaryMarker g.s_rowColor
        + 14 * occurrences primaryMarker g.s_rowColorAlt := by
  rw [WriteScalarValueTable_str,
    occurrences_after _ primaryMarker_ne_nil _ _ '#' (by decide) (by decide),
    occurrences_before_text _ primaryMarker_ne_nil _
      ("\" ?>".toList ++ "\n".toList ++ "<?dbfo bgcolor=\"#".toList) _ '"' rfl (by decide),
    occurrences_after _ primaryMarker_ne_nil
      ("\" ?>".toList ++ "\n".toList ++ "<?dbfo bgcolor=\"#".toList) _ '#' rfl (by decide),
    occurrences_before_text _ primaryMarker_ne_nil _
      ("\" ?>".toList ++ "\n".toList
        ++ "<entry>Type</entry>".toList ++ "\n".toList
        ++ "<entry>Notes</entry>".toList ++ "\n".toList
        ++ "<entry>C++ Type</entry>".toList ++ "\n".toList
        ++ "<entry>Java Type</entry>".toList ++ "\n".toList
        ++ "</row>".toList ++ "\n".toList
        ++ "</thead>".toList ++ "\n".toList
        ++ "<tbody>".toList ++ "\n".toList) _ '"' rfl (by decide),
    occurrences_after _ primaryMarker_ne_nil
      ("\" ?>".toList ++ "\n".toList
        ++ "<entry>Type</entry>".toList ++ "\n".toList
        ++ "<entry>Notes</entry>".toList ++ "\n".toList
        ++ "<entry>C++ Type</entry>".toList ++ "\n".toList
        ++ "<entry>Java Type</entry>".toList ++ "\n".toList
        ++ "</row>".toList ++ "\n".toList
        ++ "</thead>".toList ++ "\n".toList
        ++ "<tbody>".toList ++ "\n".toList) _ '\n' rfl (by decide),
    occurrences_append_of_last _ primaryMarker_ne_nil
      (WriteScalarValueTableRows g [] s_scalarTable 0).str _
      (fun c hc => by rw [rows_getLast g _ _ c hc]; decide),
    occurrences_rows_table]
  have h1 : ∀ s : Str, s = ("<sect".toList ++ showInt 1 ++ ">".toList
          ++ "<title>Scalar Value Types</title>".toList ++ "\n".toList
          ++ "<para> A scalar message field can have one of the following types - \t\t\t   the table shows the type specified in the .proto file, and the \t\t\t   corresponding type in the automatically generated class: </para>".toList
          ++ "\n".toList
          ++ "<informaltable frame=\"all\"".toList
          ++ " xml:id=\"".toList ++ SCALAR_VALUE_TYPES_TABLE_XML_ID ++ "\">".toList ++ "\n".toList
          ++ "<tgroup cols=\"4\">".toList ++ "\n".toList
          ++ " <colspec colname=\"c1\" colnum=\"1\" colwidth=\"2*\"/>".toList ++ "\n".toList
          ++ " <colspec colname=\"c2\" colnum=\"2\" colwidth=\"6*\"/>".toList ++ "\n".toList
          ++ " <colspec colname=\"c3\" colnum=\"3\" colwidth=\"2*\"/>".toList ++ "\n".toList
          ++ " <colspec colname=\"c4\" colnum=\"4\" colwidth=\"2*\"/>".toList ++ "\n".toList
          ++ "<thead>".toList ++ "\n".toList
          ++ "<row>".toList ++ "\n".toList
          ++ "<?dbhtml bgcolor=\"#".toList) → occurrences primaryMarker s = 0 := by
    intro s hs; rw [hs]; decide
  rw [h1 _ rfl,
    show occurrences primaryMarker
      ("\" ?>".toList ++ "\n".toList ++ "<?dbfo bgcolor=\"#".toList) = 0 by decide,
    show occurrences primaryMarker ("\" ?>".toList ++ "\n".toList
        ++ "<entry>Type</entry>".toList ++ "\n".toList
        ++ "<entry>Notes</entry>".toList ++ "\n".toList
        ++ "<entry>C++ Type</entry>".toList ++ "\n".toList
        ++ "<entry>Java Type</entry>".toList ++ "\n".toList
        ++ "</row>".toList ++ "\n".toList
        ++ "</thead>".toList ++ "\n".toList
        ++ "<tbody>".toList ++ "\n".toList) = 0 by decide,
    show occurrences primaryMarker ("</tbody>".toList ++ "\n".toList
        ++ "</tgroup>".toList ++ "\n".toList
        ++ "</informaltable>".toList ++ "\n".toList
        ++ "</sect".toList ++ showInt 1 ++ ">".toList ++ "\n".toList) = 0 by decide]
  omega

theorem WriteScalarValueTable_frame (g : Globals) (os : OStream) :
    WriteScalarValueTable g os = os ++ WriteScalarValueTable g [] := by
  simp only [WriteScalarValueTable, put_eq, openSect_eq, closeSect_eq]
  rw [WriteScalarValueTableRows_frame]
  conv_rhs => rw [WriteScalarValueTableRows_frame]
  simp only [List.nil_append, List.append_assoc]

theorem WriteDocbookFooter_frame (g : Globals) (os : OStream) :
    WriteDocbookFooter g os = os ++ WriteDocbookFooter g [] := by
  unfold WriteDocbookFooter
  cases g.s_includeTimestamp <;> simp [put_eq]

/-- The stream that the bootstrap step builds without a custom template. -/
theorem bootstrapWrites_fresh (g : Globals) (h : g.s_customTemplateFileName = []) :
    bootstrapWrites g
      = [ContextWrite.Open g.s_docbookOuputFileName
          (c_str (WriteDocbookHeader []
            ++ [Piece.text (primaryMarker ++ "\n".toList)]
            ++ (if g.s_includeScalarValueTable then WriteScalarValueTable g [] else [])
            ++ WriteDocbookFooter g []).str)] := by
  rw [bootstrapWrites_eq, if_pos h, WriteDocbookFooter_frame]
  cases g.s_includeScalarValueTable
  · simp only [Bool.false_eq_true, if_false, put_eq, List.append_nil]
    rfl
  · simp only [if_true, put_eq]
    rw [WriteScalarValueTable_frame]
    rfl

theorem rows_nul (g : Globals) (rows : List (List Str))
    (hrows : ∀ row ∈ rows, '\x00' ∉ (WriteScalarValueTableColumns [] row).str) :
    ∀ i : Nat, '\x00' ∈ (WriteScalarValueTableRows g [] rows i).str →
      '\x00' ∈ g.s_rowColor ∨ '\x00' ∈ g.s_rowColorAlt := by
  induction rows with
  | nil => intro i h; simp [WriteScalarValueTableRows, str_nil] at h
  | cons row rest ih =>
    intro i h
    have hcc : '\x00' ∈ (if i % 2 = 1 then g.s_rowColorAlt else g.s_rowColor) →
        '\x00' ∈ g.s_rowColor ∨ '\x00' ∈ g.s_rowColorAlt := by
      intro hm
      split_ifs at hm
      · exact Or.inr hm
      · exact Or.inl hm
    rw [WriteScalarValueTableRows_str_cons] at h
    rcases List.mem_append.mp h with h | h
    · exact absurd h (by decide)
    rcases List.mem_append.mp h with h | h
    · exact hcc h
    rcases List.mem_append.mp h with h | h
    · exact absurd h (by decide)
    rcases List.mem_append.mp h with h | h
    · exact hcc h
    rcases List.mem_append.mp h with h | h
    · exact absurd h (by decide)
    rcases List.mem_append.mp h with h | h
    · rcases List.mem_append.mp h with h | h
      · exact absurd h (hrows row (List.mem_cons_self _ _))
      · exact absurd h (by decide)
    · exact ih (fun r hr => hrows r (List.mem_cons_of_mem _ hr)) _ h

set_option maxRecDepth 100000 in
theorem table_nul (g : Globals) (h : '\x00' ∈ (WriteScalarValueTable g []).str) :
    '\x00' ∈ g.s_columnHeaderColor ∨ '\x00' ∈ g.s_rowColor ∨ '\x00' ∈ g.s_rowColorAlt := by
  rw [WriteScalarValueTable_str] at h
  rcases List.mem_append.mp h with h | h
  · exact absurd h (by decide)
  rcases List.mem_append.mp h with h | h
  · exact Or.inl h
  rcases List.mem_append.mp h with h | h
  · exact absurd h (by decide)
  rcases List.mem_append.mp h with h | h
  · exact Or.inl h
  rcases List.mem_append.mp h with h | h
  · exact absurd h (by decide)
  rcases List.mem_append.mp h with h | h
  · exact Or.inr (rows_nul g s_scalarTable (by decide) 0 h)
  · exact absurd h (by decide)

theorem table_getLast (g : Globals) :
    (WriteScalarValueTable g []).str.getLast? = some '\n' := by
  rw [WriteScalarValueTable_str]
  simp only [← List.append_assoc]
  rw [getLast?_append_of_ne_nil _ _ (by decide)]
  rfl

theorem bootstrapWrites_freshDocument (g : Globals) (h : g.s_customTemplateFileName = []) :
    bootstrapWrites g
      = [ContextWrite.Open g.s_docbookOuputFileName (c_str (freshDocument g).str)] :=
  bootstrapWrites_fresh g h

theorem freshDocument_str (g : Globals) :
    (freshDocument g).str
      = (WriteDocbookHeader []).str
        ++ ((primaryMarker ++ "\n".toList)
        ++ ((if g.s_includeScalarValueTable then (WriteScalarValueTable g []).str else [])
        ++ (WriteDocbookFooter g []).str)) := by
  unfold freshDocument
  cases g.s_includeScalarValueTable <;>
    simp [str_append, str_cons, str_nil, Piece.str]

theorem footer_occurrences (g : Globals) :
    occurrences primaryMarker (WriteDocbookFooter g []).str = 0 := by
  unfold WriteDocbookFooter
  cases g.s_includeTimestamp <;> decide

theorem footer_nul (g : Globals) : '\x00' ∉ (WriteDocbookFooter g []).str := by
  unfold WriteDocbookFooter
  cases g.s_includeTimestamp <;> decide

set_option maxRecDepth 100000 in
/-- The occurrences of the primary marker in the fresh document: the marker
line, and what the colours bring into the scalar value table. -/
theorem freshDocument_occurrences (g : Globals) :
    occurrences primaryMarker (freshDocument g).str
      = 1 + (if g.s_includeScalarValueTable
              then 2 * occurrences primaryMarker g.s_columnHeaderColor
                + 16 * occurrences primaryMarker g.s_rowColor
                + 14 * occurrences primaryMarker g.s_rowColorAlt
              else 0) := by
  rw [freshDocument_str,
    occurrences_after _ primaryMarker_ne_nil (WriteDocbookHeader []).str _ '\n' (by decide)
      (by decide),
    occurrences_after _ primaryMarker_ne_nil (primaryMarker ++ "\n".toList) _ '\n' (by decide)
      (by decide),
    show occurrences primaryMarker (WriteDocbookHeader []).str = 0 by decide,
    show occurrences primaryMarker (primaryMarker ++ "\n".toList) = 1 by decide]
  cases g.s_includeScalarValueTable
  · simp only [Bool.false_eq_true, if_false, List.nil_append, footer_occurrences]
  · simp only [if_true]
    rw [occurrences_after _ primaryMarker_ne_nil _ _ '\n' (table_getLast g) (by decide),
      occurrences_table, footer_occurrences]
    omega

set_option maxRecDepth 100000 in
theorem freshDocument_nul (g : Globals) (h : '\x00' ∈ (freshDocument g).str) :
    g.s_includeScalarValueTable = true
    ∧ ('\x00' ∈ g.s_columnHeaderColor ∨ '\x00' ∈ g.s_rowColor ∨ '\x00' ∈ g.s_rowColorAlt) := by
  rw [freshDocument_str] at h
  rcases List.mem_append.mp h with h | h
  · exact absurd h (by decide)
  rcases List.mem_append.mp h with h | h
  · exact absurd h (by decide)
  rcases List.mem_append.mp h with h | h
  · by_cases ht : g.s_includeScalarValueTable = true
    · rw [if_pos ht] at h
      exact ⟨ht, table_nul g h⟩
    · rw [if_neg ht] at h
      exact absurd h (List.not_mem_nil _)
  · exact absurd h (footer_nul g)

/-- The primary row colour is in the fresh document when the scalar value
table is enabled. -/
theorem rowColor_in_freshDocument (g : Globals) (h : g.s_includeScalarValueTable = true)
    (c : Char) (hc : c ∈ g.s_rowColor) : c ∈ (freshDocument g).str := by
  have hrows : c ∈ (WriteScalarValueTableRows g [] s_scalarTable 0).str := by
    unfold s_scalarTable
    rw [WriteScalarValueTableRows_str_cons]
    simp [hc]
  rw [freshDocument_str, if_pos h, WriteScalarValueTable_str]
  simp only [List.mem_append]
  exact Or.inr (Or.inr (Or.inl (Or.inr (Or.inr (Or.inr (Or.inr (Or.inr (Or.inl hrows))))))))

set_option maxRecDepth 100000 in
/-- C27, as the claim states it, fails. The colours of the properties file are
copied into the scalar value table as they are. With
`row_color=<!-- @@protoc_insertion_point(insertion_point) -->` (and no custom
template) the document written by the bootstrap step holds the marker text 17
times: in the marker line and twice in each of the 8 rows of the primary colour.
With a row colour that holds a NUL character the document is written up to
the first NUL character only (`PrintRaw` takes `c_str()`), not as a whole. -/
theorem C27_counterexample :
    DocbookGenerator (singleFile "docbook.properties".toList
        "row_color=<!-- @@protoc_insertion_point(insertion_point) -->\n".toList)
      = some markerRowColour
    ∧ markerRowColour.s_customTemplateFileName = []
    ∧ bootstrapWrites markerRowColour
        = [ContextWrite.Open "docbook_out.xml".toList (freshDocument markerRowColour).str]
    ∧ occurrences "<!-- @@protoc_insertion_point(insertion_point) -->".toList
        (freshDocument markerRowColour).str = 17
    ∧ DocbookGenerator (singleFile "docbook.properties".toList "row_color=ff\x00ff\n".toList)
      = some nulRowColour
    ∧ nulRowColour.s_customTemplateFileName = []
    ∧ bootstrapWrites nulRowColour
        = [ContextWrite.Open "docbook_out.xml".toList (c_str (freshDocument nulRowColour).str)]
    ∧ (c_str (freshDocument nulRowColour).str).length
        < (freshDocument nulRowColour).str.length := by
  refine ⟨by decide, rfl, ?_, ?_, by decide, rfl, bootstrapWrites_freshDocument _ rfl, ?_⟩
  · rw [bootstrapWrites_freshDocument _ rfl, c_str_of_not_mem]
    · rfl
    · intro hm
      obtain ⟨-, h | h | h⟩ := freshDocument_nul _ hm
      all_goals (revert h; decide)
  · exact (freshDocument_occurrences _).trans (by decide)
  · exact c_str_length_lt _ (rowColor_in_freshDocument _ rfl _ (by decide))
/-- C27, amended. Without a custom template the bootstrap step makes one write,
which creates the artifact from the stream `freshDocument`: the wrapper header,
the line `<!-- @@protoc_insertion_point(insertion_point) -->`, the scalar value
table if and only if it is enabled, the wrapper footer. The text of that stream
is written as a whole when the table is disabled or no configured colour holds
a NUL character. The marker text occurs in it once in the marker line and, when
the table is enabled, as often again as the colours bring it in (the header
colour is copied twice, the primary row colour 16 times, the alternate one 14
times): exactly once if and only if the table is disabled or the marker text
occurs in none of the three colours. -/
theorem C27_bootstrap_document (g : Globals) (context : GeneratorContext)
    (h : g.s_customTemplateFileName = []) :
    (MakeTemplateFile g context).writes
        = context.writes
          ++ [ContextWrite.Open g.s_docbookOuputFileName (c_str (freshDocument g).str)]
    ∧ freshDocument g
        = WriteDocbookHeader []
          ++ [Piece.text ("<!-- @@protoc_insertion_point(insertion_point) -->".toList
                ++ "\n".toList)]
          ++ (if g.s_includeScalarValueTable then WriteScalarValueTable g [] else [])
          ++ WriteDocbookFooter g []
    ∧ (g.s_includeScalarValueTable = false
        ∨ ('\x00' ∉ g.s_columnHeaderColor ∧ '\x00' ∉ g.s_rowColor ∧ '\x00' ∉ g.s_rowColorAlt) →
        c_str (freshDocument g).str = (freshDocument g).str)
    ∧ occurrences "<!-- @@protoc_insertion_point(insertion_point) -->".toList
          (freshDocument g).str
        = 1 + (if g.s_includeScalarValueTable
                then 2 * occurrences primaryMarker g.s_columnHeaderColor
                  + 16 * occurrences primaryMarker g.s_rowColor
                  + 14 * occurrences primaryMarker g.s_rowColorAlt
                else 0)
    ∧ (occurrences "<!-- @@protoc_insertion_point(insertion_point) -->".toList
          (freshDocument g).str = 1
        ↔ g.s_includeScalarValueTable = false
          ∨ (occurrences primaryMarker g.s_columnHeaderColor = 0
            ∧ occurrences primaryMarker g.s_rowColor = 0
            ∧ occurrences primaryMarker g.s_rowColorAlt = 0)) := by
  have hocc := freshDocument_occurrences g
  refine ⟨?_, rfl, ?_, hocc, ?_⟩
  · rw [(MakeTemplateFile_writes g context).1, bootstrapWrites_freshDocument g h]
  · intro hcol
    apply c_str_of_not_mem
    intro hm
    obtain ⟨ht, hn⟩ := freshDocument_nul g hm
    rcases hcol with hf | ⟨h1, h2, h3⟩
    · rw [ht] at hf
      exact Bool.noConfusion hf
    · rcases hn with hn | hn | hn
      · exact h1 hn
      · exact h2 hn
      · exact h3 hn
  · have hocc1 : occurrences "<!-- @@protoc_insertion_point(insertion_point) -->".toList
        (freshDocument g).str
        = 1 + (if g.s_includeScalarValueTable
                then 2 * occurrences primaryMarker g.s_columnHeaderColor
                  + 16 * occurrences primaryMarker g.s_rowColor
                  + 14 * occurrences primaryMarker g.s_rowColorAlt
                else 0) := hocc
    rw [hocc1]
    cases g.s_includeScalarValueTable
    · simp
    · simp only [if_true, Bool.true_eq_false, false_or]
      omega

/-- C27, amended, on the default state. -/
theorem C27_bootstrap_document_witness :
    (MakeTemplateFile {} {}).writes
        = [ContextWrite.Open "docbook_out.xml".toList (c_str (freshDocument {}).str)]
    ∧ c_str (freshDocument {}).str = (freshDocument {}).str
    ∧ occurrences "<!-- @@protoc_insertion_point(insertion_point) -->".toList
        (freshDocument {}).str = 1 :=
  ⟨(C27_bootstrap_document {} {} rfl).1,
    (C27_bootstrap_document {} {} rfl).2.2.1 (Or.inr (by decide)),
    (C27_bootstrap_document {} {} rfl).2.2.2.2.mpr (Or.inr (by decide))⟩

/-! ## The sanitizer without line-break preservation -/

theorem mem_sanitizeChar_plain (g : Globals) (h : g.s_preserve_comment_line_breaks = false)
    (x c : Char) (hc : c ∈ sanitizeChar g x) :
    c ≠ '<' ∧ c ≠ '>' ∧ c ≠ '"' ∧ c ≠ '\'' ∧ c ≠ '\n' ∧ c ≠ '\r' ∧ c ≠ '\x00' := by
  unfold sanitizeChar at hc
  rw [h] at hc
  split_ifs at hc <;> simp at hc
  all_goals first
    | contradiction
    | (rcases hc with rfl | rfl | rfl | rfl | rfl | rfl <;> decide)
    | (subst hc; exact ⟨by assumption, by assumption, by assumption, by assumption,
        by assumption, by assumption, by assumption⟩)

theorem sanitizeChar_length (g : Globals) (x : Char) (hx : x ≠ '\n') :
    1 ≤ (sanitizeChar g x).length := by
  unfold sanitizeChar
  split_ifs <;> simp

theorem sanitize_length (g : Globals) (s : Str) :
    (s.filter fun c => c ≠ '\n').length ≤ (s.flatMap (sanitizeChar g)).length := by
  induction s with
  | nil => simp
  | cons x xs ih =>
    rw [List.flatMap_cons, List.length_append, List.filter_cons]
    by_cases hx : x = '\n'
    · have hp : (decide (x ≠ '\n')) = false := by simp [hx]
      rw [hp]
      simp only [Bool.false_eq_true, if_false]
      omega
    · have := sanitizeChar_length g x hx
      have hp : (decide (x ≠ '\n')) = true := by simp [hx]
      rw [hp]
      simp only [if_true, List.length_cons]
      omega

theorem sanitizeChar_plain (g : Globals) (x : Char)
    (hx : x ∉ ['&', '<', '>', '"', '\'', '\n', '\r', '\x00']) :
    sanitizeChar g x = [x] := by
  simp only [List.mem_cons, List.mem_singleton, List.not_mem_nil, or_false, not_or] at hx
  obtain ⟨h1, h2, h3, h4, h5, h6, h7, h8⟩ := hx
  have h8b : x ≠ Char.ofNat 0 := h8
  simp [sanitizeChar, h1, h2, h3, h4, h5, h6, h7, h8b]

theorem sanitize_plain (g : Globals) (s : Str)
    (hs : ∀ c ∈ s, c ∉ ['&', '<', '>', '"', '\'', '\n', '\r', '\x00']) :
    s.flatMap (sanitizeChar g) = s := by
  induction s with
  | nil => rfl
  | cons x xs ih =>
    rw [List.flatMap_cons, sanitizeChar_plain g x (hs x (List.mem_cons_self _ _)),
      ih fun c hc => hs c (List.mem_cons_of_mem _ hc)]
    rfl

/-- C31. With line-break preservation disabled, for every string `s` the result
of `SanitizeCommentForXML` holds none of `<`, `>`, `"`, `'`, newline, carriage
return and NUL; it is at least as long as `s` without its newlines; and it is
`s` itself when `s` holds none of `&`, `<`, `>`, `"`, `'`, newline, carriage
return and NUL. -/
theorem C31_sanitize_plain_text (g : Globals) (h : g.s_preserve_comment_line_breaks = false)
    (s : Str) :
    (∀ c ∈ ['<', '>', '"', '\'', '\n', '\r', '\x00'], c ∉ SanitizeCommentForXML g s)
    ∧ (s.filter fun c => c ≠ '\n').length ≤ (SanitizeCommentForXML g s).length
    ∧ ((∀ c ∈ s, c ∉ ['&', '<', '>', '"', '\'', '\n', '\r', '\x00']) →
        SanitizeCommentForXML g s = s) := by
  rw [SanitizeCommentForXML_eq]
  refine ⟨?_, sanitize_length g s, sanitize_plain g s⟩
  intro c hc hmem
  obtain ⟨x, -, hx⟩ := List.mem_flatMap.mp hmem
  obtain ⟨h1, h2, h3, h4, h5, h6, h7⟩ := mem_sanitizeChar_plain g h x c hx
  simp only [List.mem_cons, List.mem_singleton, List.not_mem_nil, or_false] at hc
  rcases hc with rfl | rfl | rfl | rfl | rfl | rfl | rfl
  · exact h1 rfl
  · exact h2 rfl
  · exact h3 rfl
  · exact h4 rfl
  · exact h5 rfl
  · exact h6 rfl
  · exact h7 rfl

/-- C31 on the default state and a comment that holds every special character:
the result, and its length against the 12 characters of the comment that are
not newlines. -/
theorem C31_sanitize_plain_text_witness :
    SanitizeCommentForXML {} "a<b>&\"c'\n\r\x00d\n".toList
      = "a&lt;b&gt;&amp;&quot;c&apos;  d".toList
    ∧ (∀ c ∈ ['<', '>', '"', '\'', '\n', '\r', '\x00'],
        c ∉ SanitizeCommentForXML {} "a<b>&\"c'\n\r\x00d\n".toList)
    ∧ ("a<b>&\"c'\n\r\x00d\n".toList.filter fun c => c ≠ '\n').length
        ≤ (SanitizeCommentForXML {} "a<b>&\"c'\n\r\x00d\n".toList).length
    ∧ SanitizeCommentForXML {} "plain text, no markup".toList = "plain text, no markup".toList :=
  ⟨by decide,
    (C31_sanitize_plain_text {} rfl "a<b>&\"c'\n\r\x00d\n".toList).1,
    (C31_sanitize_plain_text {} rfl "a<b>&\"c'\n\r\x00d\n".toList).2.1,
    (C31_sanitize_plain_text {} rfl "plain text, no markup".toList).2.2 (by decide)⟩

/-! ## The starting level and the levels of the top sections -/

theorem DocbookGenerator_level_range (fs : FileSystem) (g : Globals)
    (h : DocbookGenerator fs = some g) :
    1 ≤ g.s_startingSectionLevel ∧ g.s_startingSectionLevel ≤ 4 := by
  rw [DocbookGenerator_level fs g h]
  split
  · exact ⟨le_refl _, by decide⟩
  · split_ifs with hr
    · exact hr
    · exact ⟨le_refl _, by decide⟩

theorem SectionLevel_of_range (n : Int) (h1 : 1 ≤ n) (h5 : n ≤ 5) : SectionLevel n = n := by
  unfold SectionLevel MAX_SECTION_LEVEL
  split_ifs <;> omega

/-- A message with a field: its section, opened and closed at `SectionLevel d`. -/
theorem WriteMessage_section (g : Globals) (m : Descriptor) (pfx : Str) (d : Int)
    (h : m.field_count > 0) :
    ∃ body : OStream, WriteMessage g [] m pfx d
      = Piece.sectOpen (SectionLevel d) :: body
        ++ [Piece.sectClose (SectionLevel d), Piece.text "\n".toList] := by
  obtain ⟨table, htable, -⟩ := WriteMessageTable_shape g m (displayStep pfx m.name) d h
  rw [WriteMessage_parts, if_pos h, if_pos h, htable]
  exact ⟨table
    ++ (m.enum_types.flatMap fun e => WriteEnumTable g [e] [] (displayStep pfx m.name) (d + 1))
    ++ (m.nested_types.flatMap fun n => WriteMessage g [] n (displayStep pfx m.name) (d + 1)),
    by simp only [List.cons_append, List.append_assoc]⟩

/-- C32. Whatever the properties file holds for `starting_section_level` (a
number inside or outside 1..4, any other text, or nothing), the level `s` that
the constructor leaves is from 1 to 4, and no call of `Generate` changes it. So
`SectionLevel` returns `s` and `s + 1` unchanged, `s + 1` is at most 5 and is not
`s`; in the document of every file the file section is opened and closed at
level `s`, and the section of every top-level message that has a field and of
every file-scope enum is opened and closed at level `s + 1`. -/
theorem C32_top_levels_exact (fs : FileSystem) (g : Globals)
    (h : DocbookGenerator fs = some g) :
    (1 ≤ g.s_startingSectionLevel ∧ g.s_startingSectionLevel ≤ 4)
    ∧ SectionLevel g.s_startingSectionLevel = g.s_startingSectionLevel
    ∧ SectionLevel (g.s_startingSectionLevel + 1) = g.s_startingSectionLevel + 1
    ∧ g.s_startingSectionLevel + 1 ≤ 5
    ∧ g.s_startingSectionLevel ≠ g.s_startingSectionLevel + 1
    ∧ (∀ (file : FileDescriptor) (context : GeneratorContext) (error : Str),
        (Generate g file context error).globals.s_startingSectionLevel
          = g.s_startingSectionLevel)
    ∧ ∀ file : FileDescriptor,
        GenerateStream g file
          = [Piece.sectOpen g.s_startingSectionLevel,
              Piece.text ("<title> File: ".toList ++ file.name ++ "</title>".toList
                ++ "\n".toList)]
            ++ (file.message_types.flatMap fun m =>
                  WriteMessage g [] m [] (g.s_startingSectionLevel + 1))
            ++ (file.enum_types.flatMap fun e =>
                  WriteEnumTable g [e] [] [] (g.s_startingSectionLevel + 1))
            ++ [Piece.sectClose g.s_startingSectionLevel, Piece.text "\n".toList]
        ∧ (∀ m ∈ file.message_types, m.field_count > 0 →
            ∃ body : OStream, WriteMessage g [] m [] (g.s_startingSectionLevel + 1)
              = Piece.sectOpen (g.s_startingSectionLevel + 1) :: body
                ++ [Piece.sectClose (g.s_startingSectionLevel + 1), Piece.text "\n".toList])
        ∧ (∀ e ∈ file.enum_types,
            ∃ body : OStream, WriteEnumTable g [e] [] [] (g.s_startingSectionLevel + 1)
              = Piece.sectOpen (g.s_startingSectionLevel + 1)
                  :: (body ++ [Piece.sectClose (g.s_startingSectionLevel + 1)])
                ++ [Piece.text "\n".toList]
              ∧ body.all Piece.isText = true) := by
  obtain ⟨h1, h4⟩ := DocbookGenerator_level_range fs g h
  have hs : SectionLevel g.s_startingSectionLevel = g.s_startingSectionLevel :=
    SectionLevel_of_range _ h1 (by omega)
  have hs1 : SectionLevel (g.s_startingSectionLevel + 1) = g.s_startingSectionLevel + 1 :=
    SectionLevel_of_range _ (by omega) (by omega)
  refine ⟨⟨h1, h4⟩, hs, hs1, by omega, by omega, ?_, ?_⟩
  · intro file context error
    rw [(Generate_eq g file context error).1]
  · intro file
    refine ⟨?_, ?_, ?_⟩
    · have := GenerateStream_eq g file
      rw [hs] at this
      exact this
    · intro m _ hm
      have := WriteMessage_section g m [] (g.s_startingSectionLevel + 1) hm
      rw [hs1] at this
      exact this
    · intro e _
      have := WriteEnumTable_single_shape g e [] (g.s_startingSectionLevel + 1)
      rw [hs1] at this
      exact this

/-- C32 at three properties files: a level above the bound, a text that is no
number, and no file at all. -/
theorem C32_top_levels_exact_witness :
    (∃ g : Globals,
      DocbookGenerator (singleFile "docbook.properties".toList
        "starting_section_level=7\n".toList) = some g
      ∧ 1 ≤ g.s_startingSectionLevel ∧ g.s_startingSectionLevel ≤ 4)
    ∧ (∃ g : Globals,
      DocbookGenerator (singleFile "docbook.properties".toList
        "starting_section_level=deep\n".toList) = some g
      ∧ 1 ≤ g.s_startingSectionLevel ∧ g.s_startingSectionLevel ≤ 4)
    ∧ (∃ g : Globals,
      DocbookGenerator (fun _ => none) = some g
      ∧ 1 ≤ g.s_startingSectionLevel ∧ g.s_startingSectionLevel ≤ 4) :=
  ⟨⟨_, rfl, (C32_top_levels_exact (singleFile "docbook.properties".toList
      "starting_section_level=7\n".toList) _ rfl).1⟩,
    ⟨_, rfl, (C32_top_levels_exact (singleFile "docbook.properties".toList
      "starting_section_level=deep\n".toList) _ rfl).1⟩,
    ⟨_, rfl, (C32_top_levels_exact (fun _ => none) _ rfl).1⟩⟩

/-! ## The name of the output artifact -/

theorem findFrom_char (c : Char) (a rest : Str) (n : Nat) (h : c ∉ a) :
    findFrom [c] (a ++ c :: rest) n = some (n + a.length) := by
  induction a generalizing n with
  | nil => simp [findFrom, List.isPrefixOf]
  | cons x xs ih =>
    have hx : c ≠ x := fun e => h (e ▸ List.mem_cons_self _ _)
    have hxs : c ∉ xs := fun hm => h (List.mem_cons_of_mem _ hm)
    have hp : List.isPrefixOf [c] (x :: (xs ++ c :: rest)) = false := by
      simp [List.isPrefixOf, hx]
    have hstep : findFrom [c] (x :: (xs ++ c :: rest)) n
        = findFrom [c] (xs ++ c :: rest) (n + 1) := by
      rw [findFrom, hp]
      simp
    rw [List.cons_append, hstep, ih (n + 1) hxs]
    simp only [List.length_cons]
    congr 1
    omega

/-- The index that `find_last_of` returns: that of the last occurrence. -/
theorem find_last_of_last (c : Char) (a b : Str) (h : c ∉ b) :
    find_last_of (a ++ c :: b) c = some a.length := by
  have hrev : (a ++ c :: b).reverse = b.reverse ++ c :: a.reverse := by simp
  have hfind : find (a ++ c :: b).reverse [c] 0 = some b.length := by
    unfold find
    simp only [Nat.zero_le, if_true, List.drop_zero]
    rw [hrev, findFrom_char c b.reverse a.reverse 0 (by simpa using h)]
    simp
  unfold find_last_of
  rw [hfind]
  simp only [List.length_append, List.length_cons, Option.some.injEq]
  omega

theorem last_occurrence (c : Char) (p : Str) (h : c ∈ p) :
    ∃ a b : Str, p = a ++ c :: b ∧ c ∉ b := by
  induction p with
  | nil => simp at h
  | cons x xs ih =>
    by_cases hxs : c ∈ xs
    · obtain ⟨a, b, hp, hb⟩ := ih hxs
      exact ⟨x :: a, b, by rw [hp]; rfl, hb⟩
    · have hx : c = x := by
        rcases List.mem_cons.mp h with h | h
        · exact h
        · exact absurd h hxs
      exact ⟨[], xs, by rw [hx]; rfl, hxs⟩

/-- The custom template step when it returns, case by case. -/
theorem loadCustomTemplate_some (fs : FileSystem) (g g1 : Globals)
    (h : loadCustomTemplate fs g = some g1) :
    (g.s_docbookOptions.lookup OPTION_NAME_CUSTOM_TEMPLATE_FILE = none → g1 = g)
    ∧ (∀ p : Str, g.s_docbookOptions.lookup OPTION_NAME_CUSTOM_TEMPLATE_FILE = some p →
        GetFileContent fs (c_str p) = [] →
        g1.s_customTemplateFileName = g.s_customTemplateFileName
        ∧ g1.s_docbookOuputFileName = g.s_docbookOuputFileName)
    ∧ (∀ p a b : Str, g.s_docbookOptions.lookup OPTION_NAME_CUSTOM_TEMPLATE_FILE = some p →
        GetFileContent fs (c_str p) ≠ [] → p = a ++ '.' :: b → '.' ∉ b →
        g1.s_customTemplateFileName = p
        ∧ g1.s_customTemplateFile = GetFileContent fs (c_str p)
        ∧ g1.s_docbookOuputFileName = a ++ "-out".toList ++ '.' :: b) := by
  unfold loadCustomTemplate at h
  refine ⟨?_, ?_, ?_⟩
  · intro hl
    rw [hl] at h
    simp only [Option.some.injEq] at h
    exact h.symm
  · intro p hl hc
    rw [hl] at h
    simp only [hc, ne_eq, not_true_eq_false, if_false, Option.some.injEq] at h
    subst h
    exact ⟨rfl, rfl⟩
  · intro p a b hl hc hp hb
    rw [hl] at h
    simp only [ne_eq, hc, not_false_eq_true, if_true] at h
    rw [hp, find_last_of_last '.' a b hb] at h
    simp only [Option.some.injEq] at h
    subst h
    refine ⟨hp.symm, by rw [hp], ?_⟩
    simp

/-- The custom template step returns when the path of a template that could be
read holds a `.`: the index of the insertion is inside the path. -/
theorem loadCustomTemplate_returns (fs : FileSystem) (g : Globals)
    (h : loadCustomTemplate fs g = none) (p : Str)
    (hl : g.s_docbookOptions.lookup OPTION_NAME_CUSTOM_TEMPLATE_FILE = some p)
    (hdot : '.' ∈ p) : False := by
  obtain ⟨a, b, hp, hb⟩ := last_occurrence '.' p hdot
  unfold loadCustomTemplate at h
  rw [hl] at h
  simp only [] at h
  split_ifs at h
  rw [hp, find_last_of_last '.' a b hb] at h
  exact Option.noConfusion h

/-- The constructor keeps what the custom template step has set. -/
theorem DocbookGenerator_cases (fs : FileSystem) :
    (DocbookGenerator fs = none ∧
      ∃ g0 : Globals, g0.s_docbookOptions = ParseProperty fs "docbook.properties".toList
        ∧ g0.s_customTemplateFileName = [] ∧ g0.s_docbookOuputFileName = "docbook_out.xml".toList
        ∧ loadCustomTemplate fs g0 = none)
    ∨ (∃ g0 g1 g : Globals, DocbookGenerator fs = some g
        ∧ g0.s_docbookOptions = ParseProperty fs "docbook.properties".toList
        ∧ g0.s_customTemplateFileName = [] ∧ g0.s_docbookOuputFileName = "docbook_out.xml".toList
        ∧ loadCustomTemplate fs g0 = some g1
        ∧ g.s_customTemplateFileName = g1.s_customTemplateFileName
        ∧ g.s_customTemplateFile = g1.s_customTemplateFile
        ∧ g.s_docbookOuputFileName = g1.s_docbookOuputFileName) := by
  unfold DocbookGenerator
  simp only []
  split
  · rename_i hnone
    exact Or.inl ⟨rfl, _, rfl, rfl, rfl, hnone⟩
  · rename_i g1 hsome
    refine Or.inr ⟨_, g1, _, rfl, rfl, rfl, rfl, hsome, ?_, ?_, ?_⟩
    · simp only [loadStartingSectionLevel]
      split <;> (try split_ifs) <;> rfl
    · simp only [loadStartingSectionLevel]
      split <;> (try split_ifs) <;> rfl
    · simp only [loadStartingSectionLevel]
      split <;> (try split_ifs) <;> rfl
/-- C33. When the properties file names a custom template `p` whose content is
not empty and `p` holds a `.`, the constructor returns (the index that
`find_last_of` gives, that of the last `.`, is inside `p`, so `insert` does not
throw), the custom template name is `p`, and the name of the output artifact is
`p` with `-out` inserted right before its last `.`: for `p = a ++ "." ++ b` with
no `.` in `b` it is `a ++ "-out." ++ b` (`t.xml` gives `t-out.xml`). When the
content of the template is empty (the file is missing or cannot be read), and
when no custom template is configured, the constructor returns, the custom
template name stays empty and the output name stays `docbook_out.xml`. -/
theorem C33_output_name (fs : FileSystem) :
    (∀ p : Str,
      (ParseProperty fs "docbook.properties".toList).lookup OPTION_NAME_CUSTOM_TEMPLATE_FILE
        = some p →
      GetFileContent fs (c_str p) ≠ [] → '.' ∈ p →
      ∃ (g : Globals) (a b : Str),
        DocbookGenerator fs = some g
        ∧ p = a ++ '.' :: b ∧ '.' ∉ b
        ∧ find_last_of p '.' = some a.length ∧ a.length < p.length
        ∧ g.s_customTemplateFileName = p
        ∧ g.s_customTemplateFile = GetFileContent fs (c_str p)
        ∧ g.s_docbookOuputFileName = a ++ "-out".toList ++ '.' :: b)
    ∧ (∀ p : Str,
      (ParseProperty fs "docbook.properties".toList).lookup OPTION_NAME_CUSTOM_TEMPLATE_FILE
        = some p →
      GetFileContent fs (c_str p) = [] →
      ∃ g : Globals,
        DocbookGenerator fs = some g
        ∧ g.s_customTemplateFileName = []
        ∧ g.s_docbookOuputFileName = "docbook_out.xml".toList)
    ∧ ((ParseProperty fs "docbook.properties".toList).lookup OPTION_NAME_CUSTOM_TEMPLATE_FILE
        = none →
      ∃ g : Globals,
        DocbookGenerator fs = some g
        ∧ g.s_customTemplateFileName = []
        ∧ g.s_docbookOuputFileName = "docbook_out.xml".toList)
    ∧ (DocbookGenerator fun path =>
        if path = "docbook.properties".toList then some "custom_template_file = t.xml\n".toList
        else if path = "t.xml".toList then some "<article/>".toList
        else none).map (fun g => (g.s_customTemplateFileName, g.s_docbookOuputFileName))
      = some ("t.xml".toList, "t-out.xml".toList) := by
  refine ⟨?_, ?_, ?_, by decide⟩
  · intro p hl hc hdot
    obtain ⟨a, b, hp, hb⟩ := last_occurrence '.' p hdot
    rcases DocbookGenerator_cases fs with
      ⟨-, g0, hopt, -, -, hnone⟩ | ⟨g0, g1, g, hg, hopt, -, -, hsome, h1, h2, h3⟩
    · exact absurd hdot fun hd =>
        loadCustomTemplate_returns fs g0 hnone p (by rw [hopt]; exact hl) hd
    · obtain ⟨e1, e2, e3⟩ := (loadCustomTemplate_some fs g0 g1 hsome).2.2 p a b
        (by rw [hopt]; exact hl) hc hp hb
      refine ⟨g, a, b, hg, hp, hb, ?_, ?_, by rw [h1, e1], by rw [h2, e2], by rw [h3, e3]⟩
      · rw [hp]
        exact find_last_of_last '.' a b hb
      · rw [hp]
        simp
  · intro p hl hc
    rcases DocbookGenerator_cases fs with
      ⟨-, g0, hopt, -, -, hnone⟩ | ⟨g0, g1, g, hg, hopt, hn, ho, hsome, h1, -, h3⟩
    · exfalso
      unfold loadCustomTemplate at hnone
      rw [hopt, hl] at hnone
      simp [hc] at hnone
    · obtain ⟨e1, e2⟩ := (loadCustomTemplate_some fs g0 g1 hsome).2.1 p
        (by rw [hopt]; exact hl) hc
      exact ⟨g, hg, by rw [h1, e1, hn], by rw [h3, e2, ho]⟩
  · intro hl
    rcases DocbookGenerator_cases fs with
      ⟨-, g0, hopt, -, -, hnone⟩ | ⟨g0, g1, g, hg, hopt, hn, ho, hsome, h1, -, h3⟩
    · exfalso
      unfold loadCustomTemplate at hnone
      rw [hopt, hl] at hnone
      exact Option.noConfusion hnone
    · have e := (loadCustomTemplate_some fs g0 g1 hsome).1 (by rw [hopt]; exact hl)
      exact ⟨g, hg, by rw [h1, e, hn], by rw [h3, e, ho]⟩

end Docbook
